import Mathlib

/-!
# Wizard controller and validators of the dynamic client form

Shallow embedding of `static/js/form-handler.js` (class `FormularioCliente`) and
`static/js/validation.js` (class `FormValidator`).

Conventions of the embedding

* Step numbers are JavaScript numbers holding integers; they are `Int` here.
* The document (DOM) is read by the controller, never owned by it.  What an event
  handler reads from the document while it runs is passed in as a `Dom` value: the
  outcome of `validateCurrentStep` and of `getCurrentStepData` for each step number.
  Inside one handler every read happens before `loadStepData` writes to the document,
  so one snapshot per event is exact.
* `showToast`, `console.log`, `updateStepDisplay`, `updateNavigation` and
  `loadStepData` only write to the document or the console; they are not part of the
  controller state and are left out.  The save indicator (`updateSaveStatus`) is kept.
* The document itself is a `Formulario`: the rows of the three record steps and the
  inputs of each flat step, with their validation classes.  The methods that read or
  mark it are functions on it (`Formulario.validateCurrentStep`,
  `Formulario.getCurrentStepData`, `loadStepData`, `updateSidebar`), and
  `Formulario.dom` is the `Dom` that the controller meets in it.
* `saveCurrentStep` is an `async` method.  Its body up to the first `await` runs
  synchronously inside the caller (`saveCurrentStep`); the rest runs when the
  `fetch` settles (`saveCurrentStep_settle`).
* JavaScript strings are lists of characters, one per UTF-16 code unit.
* A regular expression literal `/^r$/` is the syntax tree `r` of type `RegExp.Re`;
  `test` is a matcher by derivatives, proved to decide the language of the tree.
* A numeric result that may be NaN is an `Option Nat`, with `none` for NaN.
* Built-ins of the runtime that are not modelled (`toUpperCase`, floating-point
  parsing, `new RegExp` on an attribute, `replace`) are fields of `Entorno`; those
  that `form-handler.js` relies on (`new URL`, `parseInt`, the setter of `value`)
  are fields of `Navegador`.
* A method that may call itself without bound is run with a bound on the nesting
  depth, and returns `none` when the bound does not suffice.
-/

set_option autoImplicit false

namespace FormularioCliente

/-- The three values `updateSaveStatus` is called with. -/
inductive SaveStatus where
  | saving
  | saved
  | error
  deriving DecidableEq, Repr

/-- The six step keys of `window.formularioData.datosFormulario` that
`saveCurrentStep` merges. -/
inductive Clave where
  | datos_empresa
  | info_trasteros
  | usuarios_app
  | config_correo
  | niveles_acceso
  | documentacion
  deriving DecidableEq, Repr

/-- An object carrying the six step keys, as `datosFormulario` and as
`result.formulario_data_actualizada`.  `V` is the type of JSON values (`null`
included); `none` is the JavaScript `undefined` of a key that is absent. -/
structure DatosFormulario (V : Type) where
  datos_empresa : Option V
  info_trasteros : Option V
  usuarios_app : Option V
  config_correo : Option V
  niveles_acceso : Option V
  documentacion : Option V
  deriving DecidableEq, Repr

/-- The empty object `{}` assigned when `datosFormulario` is missing. -/
def DatosFormulario.vacio {V : Type} : DatosFormulario V :=
  ⟨none, none, none, none, none, none⟩

/-- Property read `obj[k]` for one of the six step keys. -/
def DatosFormulario.leer {V : Type} (o : DatosFormulario V) : Clave → Option V
  | .datos_empresa => o.datos_empresa
  | .info_trasteros => o.info_trasteros
  | .usuarios_app => o.usuarios_app
  | .config_correo => o.config_correo
  | .niveles_acceso => o.niveles_acceso
  | .documentacion => o.documentacion

/-- The JSON body handed to `fetch('/api/save', ...)` by `saveCurrentStep`. -/
structure Peticion (V : Type) where
  cliente_id : String
  paso : Int
  datos : V
  deriving DecidableEq, Repr

/-- The parsed reply of `/api/save`: `response.ok` and the fields of `result` that
`saveCurrentStep` reads.  `mensaje = none` and `formulario_data_actualizada = none`
stand for an absent (or otherwise falsy) field; `porcentaje = some p` holds exactly
when `typeof result.porcentaje === 'number'`. -/
structure Respuesta (V : Type) where
  ok : Bool
  mensaje : Option String
  porcentaje : Option Int
  formulario_data_actualizada : Option (DatosFormulario V)
  deriving DecidableEq, Repr

/-- How the awaited `fetch` / `response.json()` pair settles: it rejects (network
failure, unparsable body) with a message, or it yields a parsed reply. -/
inductive Llegada (V : Type) where
  | rechazo (error : String)
  | respuesta (r : Respuesta V)
  deriving DecidableEq, Repr

/-- The fields of a `FormularioCliente` instance together with the two pieces of
page state its save path writes: the save indicator and
`window.formularioData.datosFormulario`.

* `clienteId = some c` is a truthy identifier `c`; `none` stands for every falsy value
  (`null`, `undefined`, `0`, the empty string), which is all `saveCurrentStep`
  distinguishes.
* `stepItems` is the number of `.step-item` elements found by `initializeElements`.
* `statusElems` tells whether both `#save-status` and `#save-icon` exist;
  `saveStatus` is the status last written to them.
* `datosFormulario = none` is a missing (falsy) `datosFormulario`.
  `window.formularioData` itself exists whenever `clienteId` is set, because `init`
  reads `clienteId` from it.
* `requests` lists the bodies of the `fetch` calls issued so far, oldest first. -/
structure Estado (V : Type) where
  currentStep : Int
  totalSteps : Int
  clienteId : Option String
  isSubmitting : Bool
  stepItems : Nat
  statusElems : Bool
  saveStatus : Option SaveStatus
  datosFormulario : Option (DatosFormulario V)
  requests : List (Peticion V)
  deriving DecidableEq, Repr

/-- What the document answers to the controller during one event: for each value of
`currentStep`, the result of the validation of that step and the payload extracted
from that step's inputs. -/
structure Dom (V : Type) where
  valida : Int → Bool
  extrae : Int → V

variable {V : Type}

/-- `validateCurrentStep()`: dispatches on `this.currentStep` and inspects the
document; its only writes are validation classes on the inputs. -/
def validateCurrentStep (d : Dom V) (s : Estado V) : Bool :=
  d.valida s.currentStep

/-- `getCurrentStepData()`: dispatches on `this.currentStep` and reads the inputs. -/
def getCurrentStepData (d : Dom V) (s : Estado V) : V :=
  d.extrae s.currentStep

/-- `updateSaveStatus(status)`: returns at once when either indicator element is
missing, otherwise records the status. -/
def updateSaveStatus (s : Estado V) (status : SaveStatus) : Estado V :=
  if !s.statusElems then s
  else { s with saveStatus := some status }

/-- `saveCurrentStep()` up to its first `await`: the two guards, the indicator set
to saving, the payload read, and the `fetch` call with its body built from the
current fields. -/
def saveCurrentStep (d : Dom V) (s : Estado V) : Estado V :=
  match s.clienteId with
  | none => s
  | some c =>
    if s.currentStep = 6 then s
    else
      let s1 := updateSaveStatus s SaveStatus.saving
      let data := getCurrentStepData d s1
      { s1 with requests := s1.requests ++ [⟨c, s1.currentStep, data⟩] }

/-- The six guarded assignments `df.k = result.formulario_data_actualizada.k`, each
done only when the right-hand side `!== undefined`. -/
def mergeActualizada (df act : DatosFormulario V) : DatosFormulario V :=
  let df := match act.datos_empresa with
    | some v => { df with datos_empresa := some v }
    | none => df
  let df := match act.info_trasteros with
    | some v => { df with info_trasteros := some v }
    | none => df
  let df := match act.usuarios_app with
    | some v => { df with usuarios_app := some v }
    | none => df
  let df := match act.config_correo with
    | some v => { df with config_correo := some v }
    | none => df
  let df := match act.niveles_acceso with
    | some v => { df with niveles_acceso := some v }
    | none => df
  let df := match act.documentacion with
    | some v => { df with documentacion := some v }
    | none => df
  df

/-- The text of the error thrown on a reply that is not ok:
`result.mensaje || 'Error al guardar'` (an empty `mensaje` is falsy). -/
def mensajeError (r : Respuesta V) : String :=
  match r.mensaje with
  | some m => if m = "" then "Error al guardar" else m
  | none => "Error al guardar"

/-- The rest of `saveCurrentStep()`, run when the awaited `fetch` settles.  Returns
the new state and the way the promise of `saveCurrentStep` settles: `Except.ok` with
the result, or `Except.error` with the message of the error rethrown by the
`catch` block.  `updateProgress(result.porcentaje)` only redraws the progress bar
and is left out. -/
def saveCurrentStep_settle (s : Estado V) (l : Llegada V) :
    Estado V × Except String (Respuesta V) :=
  match l with
  | .rechazo e => (updateSaveStatus s SaveStatus.error, Except.error e)
  | .respuesta result =>
    if !result.ok then
      (updateSaveStatus s SaveStatus.error, Except.error (mensajeError result))
    else
      let s1 := updateSaveStatus s SaveStatus.saved
      let df := match s1.datosFormulario with
        | some df => df
        | none => DatosFormulario.vacio
      let df := match result.formulario_data_actualizada with
        | some act => mergeActualizada df act
        | none => df
      ({ s1 with datosFormulario := some df }, Except.ok result)

/-- `_navigateToStep(step)`: saves first when moving forward, then assigns
`currentStep`.  The rejection of the save is swallowed by its `.catch`. -/
def _navigateToStep (d : Dom V) (s : Estado V) (step : Int) : Estado V :=
  let s1 := if step > s.currentStep then saveCurrentStep d s else s
  { s1 with currentStep := step }

/-- `completeForm()`: raises the flag (the toast and the delayed redirect write
nothing to the controller). -/
def completeForm (s : Estado V) : Estado V :=
  { s with isSubmitting := true }

/-- `nextStep()`. -/
def nextStep (d : Dom V) (s : Estado V) : Estado V :=
  if s.isSubmitting then s
  else if s.currentStep < s.totalSteps then
    if !validateCurrentStep d s then s
    else _navigateToStep d s (s.currentStep + 1)
  else completeForm s

/-- `previousStep()`. -/
def previousStep (d : Dom V) (s : Estado V) : Estado V :=
  if s.currentStep > 1 then _navigateToStep d s (s.currentStep - 1)
  else s

/-- `goToStep(step)`. -/
def goToStep (d : Dom V) (s : Estado V) (step : Int) : Estado V :=
  _navigateToStep d s step

/-- The click listener that `setupEvents` attaches to the sidebar item at position
`index`, with `targetStep = index + 1`. -/
def stepItemClick (d : Dom V) (s : Estado V) (index : Nat) : Estado V :=
  let targetStep : Int := (index : Int) + 1
  if targetStep = s.currentStep then s
  else if targetStep < s.currentStep then _navigateToStep d s targetStep
  else if targetStep = s.currentStep + 1 then
    if !validateCurrentStep d s then s
    else _navigateToStep d s targetStep
  else s

/-- A click on the sidebar at position `index`: `setupEvents` attaches a listener
to each of the `stepItems` items and to nothing else. -/
def sidebarClick (d : Dom V) (s : Estado V) (index : Nat) : Estado V :=
  if index < s.stepItems then stepItemClick d s index else s

/-- `autoSave()`: one tick of the 30 s timer. -/
def autoSave (d : Dom V) (s : Estado V) : Estado V :=
  if validateCurrentStep d s then saveCurrentStep d s else s

/-- One turn of the event loop that reaches the controller: a navigation request
together with the document it finds, a tick of the auto-save timer, or the
settling of a pending save. -/
inductive Accion (V : Type) where
  | next (d : Dom V)
  | previous (d : Dom V)
  | click (d : Dom V) (index : Nat)
  | tick (d : Dom V)
  | settle (l : Llegada V)

/-- The handler run for one event. -/
def Accion.aplicar (s : Estado V) : Accion V → Estado V
  | .next d => nextStep d s
  | .previous d => previousStep d s
  | .click d index => sidebarClick d s index
  | .tick d => autoSave d s
  | .settle l => (saveCurrentStep_settle s l).1

/-- A sequence of events handled one after the other. -/
def ejecutar (s : Estado V) (as : List (Accion V)) : Estado V :=
  as.foldl Accion.aplicar s

/-- The value `window.formularioData.datosFormulario[k]` seen by a reader of the
shared form data (`undefined` when the object itself is missing). -/
def Estado.dato (s : Estado V) (k : Clave) : Option V :=
  match s.datosFormulario with
  | some df => df.leer k
  | none => none

/-- The value `result.formulario_data_actualizada[k]` of a reply (`undefined`
when the key, or the whole object, is absent). -/
def Respuesta.actualizada (r : Respuesta V) (k : Clave) : Option V :=
  match r.formulario_data_actualizada with
  | some act => act.leer k
  | none => none

/-- A document whose steps all validate; the payload of step `n` is `10 * n`. -/
def domValido : Dom Int := ⟨fun _ => true, fun n => 10 * n⟩

/-- A document in which no step validates. -/
def domInvalido : Dom Int := ⟨fun _ => false, fun n => 10 * n⟩

/-- A reply that is ok and carries the given keys. -/
def respuestaOk (act : DatosFormulario Int) : Respuesta Int :=
  ⟨true, none, some 50, some act⟩

/-- A reply that is not ok, with the given `mensaje`. -/
def respuestaError (mensaje : Option String) : Respuesta Int :=
  ⟨false, mensaje, none, some ⟨some 1, some 2, some 3, some 4, some 5, some 6⟩⟩

/-- A session of client `c1` on step `paso` of six, with six sidebar items, both
indicator elements, nothing saved and nothing requested yet. -/
def sesion (paso : Int) : Estado Int :=
  ⟨paso, 6, some "c1", false, 6, true, none, none, []⟩

end FormularioCliente

namespace FormValidator

/-- `String.prototype.substring(a, b)` for non-negative integer arguments: both are
clamped to the length and swapped when out of order. -/
def substring (s : List Char) (a b : Nat) : List Char :=
  let a := min a s.length
  let b := min b s.length
  (s.take (max a b)).drop (min a b)

/-- `String.prototype.charAt(i)` for a non-negative integer `i`: the one-character
string at `i`, or the empty string past the end. -/
def charAt (s : List Char) (i : Nat) : List Char :=
  match s.get? i with
  | some c => [c]
  | none => []

/-- The value of a string of decimal digits, read left to right. -/
def valorDecimal (s : List Char) : Nat :=
  s.foldl (fun n c => 10 * n + (c.toNat - 48)) 0

/-- The conversion of a string to a number done by the operator `%`, on the
fragment modelled: a (possibly empty) run of decimal digits whose value is exactly
representable (at most 2^53).  Every other string is outside the fragment and
yields `none`. -/
def toNumber (s : List Char) : Option Nat :=
  if s.all Char.isDigit && decide (valorDecimal s ≤ 2 ^ 53) then some (valorDecimal s)
  else none

/-- The control-letter table `'TRWAGMYFPDXBNJZSQVHLCKE'` of `validateNIF`. -/
def letters : List Char :=
  ['T', 'R', 'W', 'A', 'G', 'M', 'Y', 'F', 'P', 'D', 'X', 'B',
   'N', 'J', 'Z', 'S', 'Q', 'V', 'H', 'L', 'C', 'K', 'E']

/-- `validateNIF(nif)`.  The result is `none` only when `nif.substring(0, 8)` falls
outside the fragment of `toNumber`. -/
def validateNIF (nif : List Char) : Option Bool :=
  let number := substring nif 0 8
  let letter := charAt nif 8
  match toNumber number with
  | some n => some (decide (charAt letters (n % 23) = letter))
  | none => none

/-- The decimal digit denoted by a character. -/
def digito (c : Char) : Nat := c.toNat - 48

/-- The number written by a string of decimal digits, most significant first, as
the positional sum of its digits. -/
def numeroEscrito (b : List Char) : Nat :=
  Nat.ofDigits 10 (b.reverse.map digito)

end FormValidator

/-! ## Regular expressions and string built-ins -/

namespace RegExp

/-- The fragment of JavaScript regular expressions used by the rules: the body of a
pattern written between `^` and `$`, without flags.  A character class, a literal
character and an escape such as `\s` are all a set of characters (`clase`);
`a?` is `alt a eps`, `a+` is `mas a`, `a{n}` is `rep n a`. -/
inductive Re where
  | nada
  | eps
  | clase (p : Char → Bool)
  | seq (a b : Re)
  | alt (a b : Re)
  | estrella (a : Re)

/-- Whether the expression matches the empty string. -/
def Re.anulable : Re → Bool
  | .nada => false
  | .eps => true
  | .clase _ => false
  | .seq a b => a.anulable && b.anulable
  | .alt a b => a.anulable || b.anulable
  | .estrella _ => true

/-- The expression matching what is left of a match after reading `c`. -/
def Re.derivada (c : Char) : Re → Re
  | .nada => .nada
  | .eps => .nada
  | .clase p => if p c then .eps else .nada
  | .seq a b =>
    if a.anulable then .alt (.seq (a.derivada c) b) (b.derivada c)
    else .seq (a.derivada c) b
  | .alt a b => .alt (a.derivada c) (b.derivada c)
  | .estrella a => .seq (a.derivada c) (.estrella a)

/-- `/^r$/.test(s)`: whether the whole string matches. -/
def Re.test (r : Re) (s : List Char) : Bool :=
  (s.foldl (fun r c => r.derivada c) r).anulable

/-- A literal character. -/
def Re.car (c : Char) : Re := .clase (fun x => x == c)

/-- A literal string. -/
def Re.lit : List Char → Re
  | [] => .eps
  | c :: cs => .seq (Re.car c) (Re.lit cs)

/-- The quantifier `{n}`. -/
def Re.rep : Nat → Re → Re
  | 0, _ => .eps
  | n + 1, a => .seq a (Re.rep n a)

/-- The quantifier `+`. -/
def Re.mas (a : Re) : Re := .seq a (.estrella a)

/-- The quantifier `?`. -/
def Re.opc (a : Re) : Re := .alt a .eps

/-- The strings an expression matches, by the structure of the expression. -/
def Re.Acepta : Re → List Char → Prop
  | .nada, _ => False
  | .eps, s => s = []
  | .clase p, s => ∃ c, s = [c] ∧ p c = true
  | .seq a b, s => ∃ x y, s = x ++ y ∧ a.Acepta x ∧ b.Acepta y
  | .alt a b, s => a.Acepta s ∨ b.Acepta s
  | .estrella a, s => ∃ ws : List (List Char), s = ws.flatten ∧ ∀ w ∈ ws, a.Acepta w

/-- The class `\s`: the white space and line terminator characters. -/
def esEspacio (c : Char) : Bool :=
  c.toNat = 9 || c.toNat = 10 || c.toNat = 11 || c.toNat = 12 || c.toNat = 13 ||
  c.toNat = 32 || c.toNat = 160 || c.toNat = 5760 ||
  (8192 ≤ c.toNat && c.toNat ≤ 8202) ||
  c.toNat = 8232 || c.toNat = 8233 || c.toNat = 8239 || c.toNat = 8287 ||
  c.toNat = 12288 || c.toNat = 65279

/-- The class `[0-9]`. -/
def digit : Re := .clase Char.isDigit

/-- `s.replace(/\s/g, '')`. -/
def sinEspacios (s : List Char) : List Char :=
  s.filter (fun c => !esEspacio c)

/-- `String.prototype.trim()`. -/
def trim (s : List Char) : List Char :=
  ((s.dropWhile esEspacio).reverse.dropWhile esEspacio).reverse

end RegExp

/-! ## Patterns of `FormularioCliente` -/

namespace FormularioCliente

open RegExp in
/-- The pattern of `validatePhone`: `/^(\+34|0034|34)?[6789][0-9]{8}$/`. -/
def regexPhone : Re :=
  .seq (Re.opc (.alt (Re.lit ['+', '3', '4'])
      (.alt (Re.lit ['0', '0', '3', '4']) (Re.lit ['3', '4']))))
    (.seq (.clase (fun c => c == '6' || c == '7' || c == '8' || c == '9'))
      (Re.rep 8 digit))

/-- `validatePhone(phone)`. -/
def validatePhone (phone : List Char) : Bool :=
  regexPhone.test (RegExp.sinEspacios phone)

open RegExp in
/-- The pattern of `validateEmail`: `/^[^\s@]+@[^\s@]+\.[^\s@]+$/`. -/
def regexEmail : Re :=
  .seq (Re.mas (.clase (fun c => !(esEspacio c || c == '@'))))
    (.seq (Re.car '@')
      (.seq (Re.mas (.clase (fun c => !(esEspacio c || c == '@'))))
        (.seq (Re.car '.')
          (Re.mas (.clase (fun c => !(esEspacio c || c == '@')))))))

/-- `validateEmail(email)`. -/
def validateEmail (email : List Char) : Bool :=
  regexEmail.test email

end FormularioCliente

/-! ## Checksums of `FormValidator` -/

namespace FormValidator

open RegExp

/-- `rules.iban`: `/^ES[0-9]{2}[0-9]{4}[0-9]{4}[0-9]{1}[0-9]{1}[0-9]{10}$/`. -/
def rules.iban : Re :=
  .seq (Re.lit ['E', 'S'])
    (.seq (Re.rep 2 digit) (.seq (Re.rep 4 digit) (.seq (Re.rep 4 digit)
      (.seq (Re.rep 1 digit) (.seq (Re.rep 1 digit) (Re.rep 10 digit))))))

/-- `parseInt(ch)` for a one-character string `ch`: the digit it denotes, and NaN
(`none`) for any other character. -/
def parseIntChar (ch : Char) : Option Nat :=
  if ch.isDigit then some (ch.toNat - 48) else none

/-- `mod97(numericString)`.  The loop over `i` reads each character in turn; a NaN
remainder (`none`) stays NaN. -/
def mod97 (numericString : List Char) : Option Nat :=
  numericString.foldl
    (fun remainder ch =>
      match remainder, parseIntChar ch with
      | some r, some d => some ((r * 10 + d) % 97)
      | _, _ => none)
    (some 0)

/-- `validateIBAN(iban)`. -/
def validateIBAN (iban : List Char) : Bool :=
  if !rules.iban.test iban then false
  else
    let rearranged := substring iban 4 iban.length ++ substring iban 0 4
    let numericString := rearranged.foldl
      (fun acc ch =>
        if decide ('A' ≤ ch) && decide (ch ≤ 'Z') then acc ++ Nat.toDigits 10 (ch.toNat - 55)
        else acc ++ [ch])
      []
    mod97 numericString == some 1

end FormValidator

namespace FormValidator

open RegExp

/-- `rules.nif`: `/^[0-9]{8}[A-Z]$/`. -/
def rules.nif : Re :=
  .seq (Re.rep 8 digit) (.clase Char.isUpper)

/-- `rules.cif`: `/^[A-Z][0-9]{7}[A-Z0-9]$/`. -/
def rules.cif : Re :=
  .seq (.clase Char.isUpper)
    (.seq (Re.rep 7 digit) (.clase (fun c => c.isUpper || c.isDigit)))

/-- `rules.nie`: `/^[XYZ][0-9]{7}[A-Z]$/`. -/
def rules.nie : Re :=
  .seq (.clase (fun c => c == 'X' || c == 'Y' || c == 'Z'))
    (.seq (Re.rep 7 digit) (.clase Char.isUpper))

/-- `rules.telefono`: `/^(\+34|0034|34)?[6789][0-9]{8}$/`. -/
def rules.telefono : Re :=
  .seq (Re.opc (.alt (Re.lit ['+', '3', '4'])
      (.alt (Re.lit ['0', '0', '3', '4']) (Re.lit ['3', '4']))))
    (.seq (.clase (fun c => c == '6' || c == '7' || c == '8' || c == '9'))
      (Re.rep 8 digit))

/-- `rules.codigoPostal`: `/^[0-9]{5}$/`. -/
def rules.codigoPostal : Re := Re.rep 5 digit

/-- `rules.bic`: `/^[A-Z]{6}[A-Z0-9]{2}([A-Z0-9]{3})?$/`. -/
def rules.bic : Re :=
  .seq (Re.rep 6 (.clase Char.isUpper))
    (.seq (Re.rep 2 (.clase (fun c => c.isUpper || c.isDigit)))
      (Re.opc (Re.rep 3 (.clase (fun c => c.isUpper || c.isDigit)))))

/-- `rules.email`: `/^[^\s@]+@[^\s@]+\.[^\s@]+$/`. -/
def rules.email : Re :=
  .seq (Re.mas (.clase (fun c => !(esEspacio c || c == '@'))))
    (.seq (Re.car '@')
      (.seq (Re.mas (.clase (fun c => !(esEspacio c || c == '@'))))
        (.seq (Re.car '.')
          (Re.mas (.clase (fun c => !(esEspacio c || c == '@')))))))

/-- The constant `organizationTypes = 'ABCDEFGHJNPQRSUVW'` of `validateCIF`. -/
def organizationTypes : List Char :=
  ['A', 'B', 'C', 'D', 'E', 'F', 'G', 'H', 'J', 'N', 'P', 'Q', 'R', 'S', 'U', 'V', 'W']

/-- The constant `controlDigits = 'JABCDEFGHI'` of `validateCIF`. -/
def controlDigits : List Char :=
  ['J', 'A', 'B', 'C', 'D', 'E', 'F', 'G', 'H', 'I']

/-- `s.includes(sub)`: whether `sub` occurs in `s` as a substring. -/
def includes (s sub : List Char) : Bool :=
  decide (sub <:+: s)

/-- `n.toString()` for a number that is a natural number or NaN (`none`). -/
def numberToString : Option Nat → List Char
  | some n => Nat.toDigits 10 n
  | none => ['N', 'a', 'N']

/-- `s.charAt(n)` for an index that is a natural number or NaN (`none`), which
`charAt` reads as 0. -/
def charAtNumber (s : List Char) : Option Nat → List Char
  | some n => charAt s n
  | none => charAt s 0

/-- `validateCIF(cif)`.  The sum is NaN (`none`) as soon as one character of the
body is not a digit. -/
def validateCIF (cif : List Char) : Bool :=
  if !includes organizationTypes (charAt cif 0) then false
  else
    let number := substring cif 1 8
    let sum : Option Nat := number.enum.foldl
      (fun sum ich =>
        match sum, parseIntChar ich.2 with
        | some s, some digit =>
          if ich.1 % 2 = 0 then
            let doubled := digit * 2
            some (s + (if doubled > 9 then doubled - 9 else doubled))
          else some (s + digit)
        | _, _ => none)
      (some 0)
    let controlDigit := sum.map (fun s => (10 - s % 10) % 10)
    let lastChar := charAt cif 8
    decide (lastChar = numberToString controlDigit) ||
      decide (lastChar = charAtNumber controlDigits controlDigit)

/-- The table `niePrefix = { 'X': '0', 'Y': '1', 'Z': '2' }` of `validateNIE`, read at
a string of at most one character; `none` is `undefined`. -/
def niePrefix (ch : List Char) : Option (List Char) :=
  if ch = ['X'] then some ['0']
  else if ch = ['Y'] then some ['1']
  else if ch = ['Z'] then some ['2']
  else none

/-- `validateNIE(nie)`.  When the first character is not in the table, the number is
the string `undefined...`, which converts to NaN, and `letters.charAt(NaN)` is
`letters.charAt(0)`.  The result is `none` only when the string built from the
table entry and `nie.substring(1, 8)` falls outside the fragment of `toNumber`. -/
def validateNIE (nie : List Char) : Option Bool :=
  let letter := charAt nie 8
  match niePrefix (charAt nie 0) with
  | some p =>
    let number := p ++ substring nie 1 8
    match toNumber number with
    | some n => some (decide (charAt letters (n % 23) = letter))
    | none => none
  | none => some (decide (charAt letters 0 = letter))

/-- The custom validator `documento-identidad` registered by `setupCustomValidators`.
`toUpperCase` is the built-in `String.prototype.toUpperCase`. -/
def customValidators.documentoIdentidad (toUpperCase : List Char → List Char)
    (value : List Char) : Option Bool :=
  if value = [] then some true
  else
    let value := sinEspacios (toUpperCase value)
    if rules.nif.test value then validateNIF value
    else if rules.cif.test value then some (validateCIF value)
    else if rules.nie.test value then validateNIE value
    else some false

/-- The custom validator `iban` registered by `setupCustomValidators`. -/
def customValidators.iban (toUpperCase : List Char → List Char)
    (value : List Char) : Bool :=
  if value = [] then true
  else validateIBAN (sinEspacios (toUpperCase value))

/-- The custom validator `telefono` registered by `setupCustomValidators`. -/
def customValidators.telefono (value : List Char) : Bool :=
  if value = [] then true
  else rules.telefono.test (sinEspacios value)

/-- Upper-casing of the letters `a` to `z`, which is what `toUpperCase` does on a
string of ASCII characters. -/
def mayusculasAscii (s : List Char) : List Char := s.map Char.toUpper

end FormValidator

namespace FormValidator

/-- The contribution of a doubled digit to the control sum of a CIF: twice the
digit, less 9 when that exceeds 9. -/
def doblado (x : Nat) : Nat := if 2 * x > 9 then 2 * x - 9 else 2 * x

/-- The control sum `S` of the seven body digits `d1 .. d7` of a CIF: `d2`, `d4` and
`d6` as they are, `d1`, `d3`, `d5` and `d7` doubled. -/
def sumaControl (d1 d2 d3 d4 d5 d6 d7 : Char) : Nat :=
  doblado (digito d1) + digito d2 + doblado (digito d3) + digito d4 +
    doblado (digito d5) + digito d6 + doblado (digito d7)

/-- The control digit `k = (10 - S mod 10) mod 10` of a CIF body. -/
def digitoControl (d1 d2 d3 d4 d5 d6 d7 : Char) : Nat :=
  (10 - sumaControl d1 d2 d3 d4 d5 d6 d7 % 10) % 10

end FormValidator

/-! ## Extraction of repeating records -/

namespace FormularioCliente

open RegExp

/-- One `.trastero-item` row other than the template: the `value` of each of its
seven inputs, `none` when the row has no such input. -/
structure FilaTrastero where
  numero : Option (List Char)
  metros : Option (List Char)
  cubicos : Option (List Char)
  precio_sin_iva : Option (List Char)
  precio_con_iva : Option (List Char)
  fianza : Option (List Char)
  descripcion : Option (List Char)
  deriving DecidableEq, Repr

/-- The object `data` that `getTrasterosData` builds for a row. -/
structure Trastero where
  numero_trastero : List Char
  metros : List Char
  metros_cubicos : List Char
  precio_sin_iva : List Char
  precio_con_iva : List Char
  fianza : List Char
  descripcion : List Char
  deriving DecidableEq, Repr

/-- `x || ''` for a string or `undefined`. -/
def oVacio : Option (List Char) → List Char
  | some v => v
  | none => []

/-- `getTrasterosData()` over the rows matched by
`.trastero-item:not(#trastero-template)`, in document order. -/
def getTrasterosData (items : List FilaTrastero) : List Trastero :=
  items.foldl
    (fun trasteros item =>
      let data : Trastero :=
        { numero_trastero := oVacio (item.numero.map trim)
          metros := oVacio item.metros
          metros_cubicos := oVacio item.cubicos
          precio_sin_iva := oVacio item.precio_sin_iva
          precio_con_iva := oVacio item.precio_con_iva
          fianza := oVacio item.fianza
          descripcion := oVacio item.descripcion }
      let hasAnyValue :=
        [data.numero_trastero, data.metros, data.metros_cubicos, data.precio_sin_iva,
          data.precio_con_iva, data.fianza, data.descripcion].any (fun v => v != [])
      if !hasAnyValue then trasteros else trasteros ++ [data])
    []

/-- One `.usuario-item` row other than the template: the `value` of its inputs and
the `checked` state of its three permission boxes, `none` when the row has no such
element. -/
structure FilaUsuario where
  nombre : Option (List Char)
  email : Option (List Char)
  password : Option (List Char)
  confirmPassword : Option (List Char)
  rol : Option (List Char)
  departamento : Option (List Char)
  permisos_facturacion : Option Bool
  permisos_reportes : Option Bool
  permisos_configuracion : Option Bool
  deriving DecidableEq, Repr

/-- The nested object `permisos` of a user record. -/
structure Permisos where
  facturacion : Bool
  reportes : Bool
  configuracion : Bool
  deriving DecidableEq, Repr

/-- The object pushed by `getUsuariosData` for a row; `none` is `undefined`. -/
structure Usuario where
  nombre_usuario : Option (List Char)
  email_usuario : Option (List Char)
  password_usuario : Option (List Char)
  confirm_password_usuario : Option (List Char)
  rol_usuario : List Char
  departamento_usuario : List Char
  permisos : Permisos
  deriving DecidableEq, Repr

/-- Whether a string or `undefined` is falsy: `undefined` or the empty string. -/
def esFalsy : Option (List Char) → Bool
  | some v => v == []
  | none => true

/-- `getUsuariosData()` over the rows matched by
`.usuario-item:not(#usuario-template)`, in document order. -/
def getUsuariosData (items : List FilaUsuario) : List Usuario :=
  items.foldl
    (fun usuarios usuario =>
      let nombre := usuario.nombre.map trim
      let email := usuario.email.map trim
      let password := usuario.password
      let confirmPassword := usuario.confirmPassword
      if esFalsy nombre && esFalsy email then usuarios
      else usuarios ++ [
        { nombre_usuario := nombre
          email_usuario := email
          password_usuario := password
          confirm_password_usuario := confirmPassword
          rol_usuario := if esFalsy usuario.rol then ['u', 's', 'u', 'a', 'r', 'i', 'o']
            else oVacio usuario.rol
          departamento_usuario := oVacio usuario.departamento
          permisos :=
            { facturacion := usuario.permisos_facturacion.getD false
              reportes := usuario.permisos_reportes.getD false
              configuracion := usuario.permisos_configuracion.getD false } }])
    []

/-- Whether a storage-unit row has at least one non-empty field among the trimmed
number and the six other inputs (a missing input counts as empty). -/
def tieneAlgunCampo (f : FilaTrastero) : Bool :=
  decide (trim (oVacio f.numero) ≠ [] ∨ oVacio f.metros ≠ [] ∨ oVacio f.cubicos ≠ [] ∨
    oVacio f.precio_sin_iva ≠ [] ∨ oVacio f.precio_con_iva ≠ [] ∨ oVacio f.fianza ≠ [] ∨
    oVacio f.descripcion ≠ [])

/-- The record of a storage-unit row: its seven keys, a missing or empty input
given as the empty string. -/
def registroTrastero (f : FilaTrastero) : Trastero :=
  ⟨trim (oVacio f.numero), oVacio f.metros, oVacio f.cubicos, oVacio f.precio_sin_iva,
    oVacio f.precio_con_iva, oVacio f.fianza, oVacio f.descripcion⟩

/-- Whether a user row has a non-blank name or a non-blank e-mail. -/
def tieneNombreOEmail (f : FilaUsuario) : Bool :=
  decide (trim (oVacio f.nombre) ≠ [] ∨ trim (oVacio f.email) ≠ [])

/-- The record of a user row: trimmed name and e-mail, the passwords as typed, the
role (`usuario` when none is chosen), the department and the three permissions. -/
def registroUsuario (f : FilaUsuario) : Usuario :=
  { nombre_usuario := f.nombre.map trim
    email_usuario := f.email.map trim
    password_usuario := f.password
    confirm_password_usuario := f.confirmPassword
    rol_usuario := if esFalsy f.rol then ['u', 's', 'u', 'a', 'r', 'i', 'o'] else oVacio f.rol
    departamento_usuario := oVacio f.departamento
    permisos := ⟨f.permisos_facturacion.getD false, f.permisos_reportes.getD false,
      f.permisos_configuracion.getD false⟩ }

/-- A storage-unit row with only the description filled in. -/
def filaSoloDescripcion : FilaTrastero :=
  ⟨some [' '], some [], none, some [], some [], some [], some ['a', 'l', 't', 'o']⟩

/-- A storage-unit row whose inputs are all empty (the number holds a blank). -/
def filaVacia : FilaTrastero :=
  ⟨some [' '], some [], none, some [], some [], some [], some []⟩

/-- A user row in which only the password is filled in. -/
def filaSoloPassword : FilaUsuario :=
  ⟨some [], some [], some ['s', 'e', 'c', 'r', 'e', 't', 'o'], some [], some [], some [],
    some false, some false, some false⟩

/-- A user row with a name and nothing else. -/
def filaSoloNombre : FilaUsuario :=
  ⟨some ['A', 'n', 'a'], some [], some [], some [], some [], some [],
    some false, some false, some false⟩

end FormularioCliente

/-! ## Field rules of `FormValidator` -/

namespace FormValidator

open RegExp

/-- What a plain object of `validation.js` finds under a name that is none of its own
keys but that it inherits from `Object.prototype` as a function (`hasOwnProperty`,
`toString`, ...): whether the call `this.customValidators[name](value)` returns a
truthy value, and the text of the function once it is written to the page as a
message. -/
structure Heredado where
  llamada : List Char → Bool
  texto : String

/-- What `validation.js` takes from the JavaScript runtime and is left abstract:
`toUpperCase`; the test of `rules.url`, whose pattern uses the assertion `\b`;
`new RegExp(pattern).test(value)` for the `pattern` attribute of a field;
the comparisons `parseFloat(a) >= parseFloat(b)` and `parseFloat(a) <= parseFloat(b)`
on floating-point numbers; `template.replace(key, text)`; and what the objects
`customValidators` and `messages`, created as plain objects, inherit under a name
(`none` when they inherit nothing truthy there).  A name under which they inherit
something that cannot be called on a string without throwing (`__proto__`,
`__defineGetter__` and `__defineSetter__` in the standard library) lies outside the
fragment modelled. -/
structure Entorno where
  toUpperCase : List Char → List Char
  urlTest : List Char → Bool
  regExpTest : List Char → List Char → Bool
  parseFloatGe : List Char → List Char → Bool
  parseFloatLe : List Char → List Char → Bool
  replace : String → String → String → String
  heredado : List Char → Option Heredado

/-- An `input`, `select` or `textarea` element as `FormValidator` reads it.
`pattern`, `min` and `max` are the empty string and `minLength`, `maxLength` are 0
when the property is falsy (for `minLength` and `maxLength` the browser reports -1
on an element without the attribute).  `ident` tells elements apart, `padre` names
the `.invalid-feedback` element that `parentNode.querySelector` finds, or the place
where it is created, and `paso` is the `data-step` of `closest('[data-step]')`, `none`
when there is no such ancestor; `data-step` attributes hold integers in decimal.
`type` is the property `type` of the element, which is one of the keywords that HTML
defines for it (an unknown keyword reads as `text`); none of them is a name that
an object inherits. -/
structure Campo where
  ident : Nat
  padre : Nat
  paso : Option Int
  disabled : Bool
  readOnly : Bool
  value : List Char
  required : Bool
  type : List Char
  pattern : List Char
  minLength : Int
  maxLength : Int
  min : List Char
  max : List Char
  className : List Char

/-- One entry of the list built by `getFieldValidators`: the check `validate` and the
`message` its result carries. -/
structure Validador where
  validate : List Char → Bool
  message : String

/-- The table `this.rules` read at a key: `this.rules[key]`, as the test of the
pattern found, `none` when the table has no such key. -/
def rulesAt (e : Entorno) (key : List Char) : Option (List Char → Bool) :=
  if key = ['n', 'i', 'f'] then some rules.nif.test
  else if key = ['c', 'i', 'f'] then some rules.cif.test
  else if key = ['n', 'i', 'e'] then some rules.nie.test
  else if key = ['t', 'e', 'l', 'e', 'f', 'o', 'n', 'o'] then some rules.telefono.test
  else if key = ['c', 'o', 'd', 'i', 'g', 'o', 'P', 'o', 's', 't', 'a', 'l'] then
    some rules.codigoPostal.test
  else if key = ['i', 'b', 'a', 'n'] then some rules.iban.test
  else if key = ['b', 'i', 'c'] then some rules.bic.test
  else if key = ['e', 'm', 'a', 'i', 'l'] then some rules.email.test
  else if key = ['u', 'r', 'l'] then some e.urlTest
  else none

/-- The table `this.messages` read at a key, `none` when the table has no such key. -/
def messagesAt (key : List Char) : Option String :=
  if key = ['r', 'e', 'q', 'u', 'i', 'r', 'e', 'd'] then some "Este campo es obligatorio"
  else if key = ['n', 'i', 'f'] then some "Formato de NIF inválido (ej: 12345678A)"
  else if key = ['c', 'i', 'f'] then some "Formato de CIF inválido (ej: A12345678)"
  else if key = ['n', 'i', 'e'] then some "Formato de NIE inválido (ej: X1234567A)"
  else if key = ['t', 'e', 'l', 'e', 'f', 'o', 'n', 'o'] then
    some "Formato de teléfono inválido (ej: +34 612 345 678)"
  else if key = ['c', 'o', 'd', 'i', 'g', 'o', 'P', 'o', 's', 't', 'a', 'l'] then
    some "El código postal debe tener 5 dígitos"
  else if key = ['i', 'b', 'a', 'n'] then some "Formato de IBAN español inválido"
  else if key = ['b', 'i', 'c'] then some "Formato de BIC/SWIFT inválido"
  else if key = ['e', 'm', 'a', 'i', 'l'] then some "Formato de email inválido"
  else if key = ['u', 'r', 'l'] then some "Formato de URL inválido"
  else if key = ['m', 'i', 'n', 'L', 'e', 'n', 'g', 't', 'h'] then
    some "Debe tener al menos \x7bmin\x7d caracteres"
  else if key = ['m', 'a', 'x', 'L', 'e', 'n', 'g', 't', 'h'] then
    some "No puede tener más de \x7bmax\x7d caracteres"
  else if key = ['m', 'i', 'n'] then some "El valor mínimo es \x7bmin\x7d"
  else if key = ['m', 'a', 'x'] then some "El valor máximo es \x7bmax\x7d"
  else if key = ['p', 'a', 't', 't', 'e', 'r', 'n'] then some "El formato no es válido"
  else none

/-- `this.messages[key]` as the text shown; a key missing from the table gives
`undefined`, shown as the empty text. -/
def mensaje (key : List Char) : String :=
  (messagesAt key).getD ""

/-- The registry `this.customValidators` after `setupCustomValidators`, read at a
name, as the condition `this.customValidators[name]` sees it and as it is called:
the three validators registered there; for any other name what the registry, a
plain object, inherits under it; `none` when it finds nothing truthy.  The result
of `documento-identidad` is never `none`; a Boolean is read from it. -/
def customValidatorsAt (e : Entorno) (name : List Char) : Option (List Char → Bool) :=
  if name = ['d', 'o', 'c', 'u', 'm', 'e', 'n', 't', 'o', '-',
      'i', 'd', 'e', 'n', 't', 'i', 'd', 'a', 'd'] then
    some (fun value => customValidators.documentoIdentidad e.toUpperCase value == some true)
  else if name = ['i', 'b', 'a', 'n'] then some (customValidators.iban e.toUpperCase)
  else if name = ['t', 'e', 'l', 'e', 'f', 'o', 'n', 'o'] then some customValidators.telefono
  else
    match e.heredado name with
    | some h => some h.llamada
    | none => none

/-- The names taken from the classes of a field:
`className.split(' ').filter(cls => cls.startsWith('validate-')).map(cls =>
cls.replace('validate-', ''))`.  The text replaced is the first occurrence, which is
the leading one. -/
def customNames (className : List Char) : List (List Char) :=
  ((className.splitOn ' ').filter
    (fun cls => ['v', 'a', 'l', 'i', 'd', 'a', 't', 'e', '-'].isPrefixOf cls)).map
    (fun cls => cls.drop 9)

/-- The rule pushed for the attribute `required`. -/
def reglaRequired : Validador :=
  ⟨fun value => decide (value.length > 0), mensaje ['r', 'e', 'q', 'u', 'i', 'r', 'e', 'd']⟩

/-- The rule pushed for `this.rules[field.type]`. -/
def reglaTipo (field : Campo) (test : List Char → Bool) : Validador :=
  ⟨fun value => value == [] || test value, mensaje field.type⟩

/-- The rule pushed for the attribute `pattern`. -/
def reglaPattern (e : Entorno) (field : Campo) : Validador :=
  ⟨fun value => value == [] || e.regExpTest field.pattern value,
    mensaje ['p', 'a', 't', 't', 'e', 'r', 'n']⟩

/-- The rule pushed for `minLength`. -/
def reglaMinLength (e : Entorno) (field : Campo) : Validador :=
  ⟨fun value => value == [] || decide ((value.length : Int) ≥ field.minLength),
    e.replace (mensaje ['m', 'i', 'n', 'L', 'e', 'n', 'g', 't', 'h']) "\x7bmin\x7d"
      (toString field.minLength)⟩

/-- The rule pushed for `maxLength`. -/
def reglaMaxLength (e : Entorno) (field : Campo) : Validador :=
  ⟨fun value => decide ((value.length : Int) ≤ field.maxLength),
    e.replace (mensaje ['m', 'a', 'x', 'L', 'e', 'n', 'g', 't', 'h']) "\x7bmax\x7d"
      (toString field.maxLength)⟩

/-- The rule pushed for `min` on a field of type `number`. -/
def reglaMin (e : Entorno) (field : Campo) : Validador :=
  ⟨fun value => value == [] || e.parseFloatGe value field.min,
    e.replace (mensaje ['m', 'i', 'n']) "\x7bmin\x7d" (String.mk field.min)⟩

/-- The rule pushed for `max` on a field of type `number`. -/
def reglaMax (e : Entorno) (field : Campo) : Validador :=
  ⟨fun value => value == [] || e.parseFloatLe value field.max,
    e.replace (mensaje ['m', 'a', 'x']) "\x7bmax\x7d" (String.mk field.max)⟩

/-- The rule pushed for a custom validator found under `validatorName`:
`this.messages[validatorName] || 'Valor inválido'` is its message, as the text
written to the page.  The table of messages is a plain object too: under a name
that is none of its own keys it finds what it inherits. -/
def reglaCustom (e : Entorno) (name : List Char) (validator : List Char → Bool) : Validador :=
  ⟨validator,
    match messagesAt name with
    | some m => if m = "" then "Valor inválido" else m
    | none =>
      match e.heredado name with
      | some h => h.texto
      | none => "Valor inválido"⟩

/-- `getFieldValidators(field)`: the rules that apply to the field, in the order in
which they are pushed. -/
def getFieldValidators (e : Entorno) (field : Campo) : List Validador :=
  let validators : List Validador := []
  let validators :=
    if field.required then validators ++ [reglaRequired] else validators
  let validators :=
    match (if field.type = [] then none else rulesAt e field.type) with
    | some test => validators ++ [reglaTipo field test]
    | none => validators
  let validators :=
    if field.pattern ≠ [] then validators ++ [reglaPattern e field] else validators
  let validators :=
    if field.minLength ≠ 0 then validators ++ [reglaMinLength e field] else validators
  let validators :=
    if field.maxLength ≠ 0 then validators ++ [reglaMaxLength e field] else validators
  let validators :=
    if field.min ≠ [] ∧ field.type = ['n', 'u', 'm', 'b', 'e', 'r'] then
      validators ++ [reglaMin e field]
    else validators
  let validators :=
    if field.max ≠ [] ∧ field.type = ['n', 'u', 'm', 'b', 'e', 'r'] then
      validators ++ [reglaMax e field]
    else validators
  (customNames field.className).foldl
    (fun validators validatorName =>
      match customValidatorsAt e validatorName with
      | some validator => validators ++ [reglaCustom e validatorName validator]
      | none => validators)
    validators

/-- The loop of `validateField` over the validators: `isValid` and `errorMessage`
when it ends, the loop stopping at the first rule whose result is not valid. -/
def evaluar (validators : List Validador) (value : List Char) : Bool × String :=
  match validators with
  | [] => (true, "")
  | validator :: rest =>
    if !validator.validate value then (false, validator.message)
    else evaluar rest value

/-- What `FormValidator` writes to the page: for each field (by `ident`) the class
`is-valid` (`some true`), `is-invalid` (`some false`) or neither; for each feedback
place (`padre`) the text of the `.invalid-feedback` element, `none` while there is
none; and for each step number whether its sidebar item carries the class
`step-valid`. -/
structure Pagina where
  valido : Nat → Option Bool
  feedback : Nat → Option String
  stepValid : Int → Bool

/-- What `FormValidator` finds in the document: whether an element matches
`.step-item[data-step="n"]`, and the `input`, `select` and `textarea` descendants, in
document order, of the first element matching `[data-step="n"]` (`none` when no
element matches). -/
structure Documento where
  stepItem : Int → Bool
  campos : Int → Option (List Campo)

/-- `updateErrorMessage(field, message)`: the feedback element of the parent node,
created when missing, receives the text. -/
def updateErrorMessage (st : Pagina) (field : Campo) (message : String) : Pagina :=
  { st with feedback := Function.update st.feedback field.padre (some message) }

/-- `validateStep(stepNumber)`, given the way `validateField` runs on a field
(`none` when it does not return). -/
def validateStep (validate : Pagina → Campo → Option (Bool × Pagina)) (doc : Documento)
    (st : Pagina) (stepNumber : Int) : Option (Bool × Pagina) :=
  match doc.campos stepNumber with
  | none => some (true, st)
  | some fields =>
    fields.foldl
      (fun acc field =>
        match acc with
        | none => none
        | some (allValid, st) =>
          match validate st field with
          | none => none
          | some (ok, st) => some (if !ok then false else allValid, st))
      (some (true, st))

/-- `updateStepIndicator(field, isValid)`, given the way `validateField` runs. -/
def updateStepIndicator (validate : Pagina → Campo → Option (Bool × Pagina))
    (doc : Documento) (st : Pagina) (field : Campo) : Option Pagina :=
  match field.paso with
  | none => some st
  | some stepNumber =>
    if !doc.stepItem stepNumber then some st
    else
      match validateStep validate doc st stepNumber with
      | none => none
      | some (allFieldsValid, st) =>
        some { st with stepValid := Function.update st.stepValid stepNumber allFieldsValid }

/-- `applyValidationResult(field, isValid, errorMessage)`, given the way
`validateField` runs. -/
def applyValidationResult (validate : Pagina → Campo → Option (Bool × Pagina))
    (doc : Documento) (st : Pagina) (field : Campo) (isValid : Bool)
    (errorMessage : String) : Option Pagina :=
  let clase : Option Bool := if trim field.value ≠ [] then some isValid else none
  let st := { st with valido := Function.update st.valido field.ident clase }
  let st := updateErrorMessage st field (if isValid then "" else errorMessage)
  updateStepIndicator validate doc st field

/-- `validateField(field)` run with at most `fuel` nested calls of itself (through
`applyValidationResult`, `updateStepIndicator` and `validateStep`); `none` when that
depth does not suffice.  A `null` field is `none`. -/
def validateField (e : Entorno) (doc : Documento) :
    Nat → Pagina → Option Campo → Option (Bool × Pagina)
  | 0, _, _ => none
  | _ + 1, st, none => some (true, st)
  | fuel + 1, st, some field =>
    if field.disabled || field.readOnly then some (true, st)
    else
      let value := trim field.value
      let validators := getFieldValidators e field
      let r := evaluar validators value
      match applyValidationResult (fun st f => validateField e doc fuel st (some f))
          doc st field r.1 r.2 with
      | none => none
      | some st => some (r.1, st)

end FormValidator

namespace FormValidator

/-- The functions that the standard `Object.prototype` hands down and that return
when they are called on a string, as the registry of custom validators meets them:
`hasOwnProperty` and `propertyIsEnumerable` hold for the three registered names,
`isPrototypeOf`, `__lookupGetter__` and `__lookupSetter__` give a falsy value, and
`constructor`, `toString`, `toLocaleString` and `valueOf` a truthy one. -/
def prototipoEstandar (name : List Char) : Option Heredado :=
  let registrado : List Char → Bool := fun value =>
    value == ['d', 'o', 'c', 'u', 'm', 'e', 'n', 't', 'o', '-',
      'i', 'd', 'e', 'n', 't', 'i', 'd', 'a', 'd'] ||
    value == ['i', 'b', 'a', 'n'] || value == ['t', 'e', 'l', 'e', 'f', 'o', 'n', 'o']
  let nativa : String := "function " ++ String.mk name ++ "() \x7b [native code] \x7d"
  if name = ['h', 'a', 's', 'O', 'w', 'n', 'P', 'r', 'o', 'p', 'e', 'r', 't', 'y'] then
    some ⟨registrado, nativa⟩
  else if name = ['p', 'r', 'o', 'p', 'e', 'r', 't', 'y', 'I', 's', 'E', 'n', 'u', 'm', 'e',
      'r', 'a', 'b', 'l', 'e'] then
    some ⟨registrado, nativa⟩
  else if name = ['i', 's', 'P', 'r', 'o', 't', 'o', 't', 'y', 'p', 'e', 'O', 'f'] then
    some ⟨fun _ => false, nativa⟩
  else if name = ['_', '_', 'l', 'o', 'o', 'k', 'u', 'p', 'G', 'e', 't', 't', 'e', 'r', '_', '_']
      then
    some ⟨fun _ => false, nativa⟩
  else if name = ['_', '_', 'l', 'o', 'o', 'k', 'u', 'p', 'S', 'e', 't', 't', 'e', 'r', '_', '_']
      then
    some ⟨fun _ => false, nativa⟩
  else if name = ['c', 'o', 'n', 's', 't', 'r', 'u', 'c', 't', 'o', 'r'] then
    some ⟨fun _ => true, "function Object() \x7b [native code] \x7d"⟩
  else if name = ['t', 'o', 'S', 't', 'r', 'i', 'n', 'g'] then some ⟨fun _ => true, nativa⟩
  else if name = ['t', 'o', 'L', 'o', 'c', 'a', 'l', 'e', 'S', 't', 'r', 'i', 'n', 'g'] then
    some ⟨fun _ => true, nativa⟩
  else if name = ['v', 'a', 'l', 'u', 'e', 'O', 'f'] then some ⟨fun _ => true, nativa⟩
  else none

/-- A runtime for the examples: ASCII upper-casing, every abstract test passing, a
`replace` that leaves the template as it is, and the functions handed down by the
standard `Object.prototype` that `prototipoEstandar` lists. -/
def entornoEjemplo : Entorno :=
  ⟨mayusculasAscii, fun _ => true, fun _ _ => true, fun _ _ => true, fun _ _ => true,
    fun plantilla _ _ => plantilla, prototipoEstandar⟩

/-- A document without sidebar items carrying `data-step`. -/
def documentoSinPasos : Documento := ⟨fun _ => false, fun _ => none⟩

/-- A page on which nothing has been written yet. -/
def paginaInicial : Pagina := ⟨fun _ => none, fun _ => none, fun _ => false⟩

/-- A required e-mail field holding `abc`, with the class `validate-iban`. -/
def campoEmail : Campo :=
  { ident := 1, padre := 1, paso := some 1, disabled := false, readOnly := false
    value := ['a', 'b', 'c'], required := true, type := ['e', 'm', 'a', 'i', 'l']
    pattern := [], minLength := 0, maxLength := 0, min := [], max := []
    className := ['f', 'o', 'r', 'm', ' ', 'v', 'a', 'l', 'i', 'd', 'a', 't', 'e', '-',
      'i', 'b', 'a', 'n'] }

/-- A text field holding `abc` whose class `validate-hasOwnProperty` names no
registered validator. -/
def campoHeredado : Campo :=
  { ident := 4, padre := 4, paso := none, disabled := false, readOnly := false
    value := ['a', 'b', 'c'], required := false, type := ['t', 'e', 'x', 't']
    pattern := [], minLength := 0, maxLength := 0, min := [], max := []
    className := ['v', 'a', 'l', 'i', 'd', 'a', 't', 'e', '-', 'h', 'a', 's', 'O', 'w', 'n',
      'P', 'r', 'o', 'p', 'e', 'r', 't', 'y'] }

/-- A disabled required field left empty. -/
def campoDisabled : Campo :=
  { ident := 2, padre := 2, paso := none, disabled := true, readOnly := false
    value := [], required := true, type := ['t', 'e', 'x', 't']
    pattern := [], minLength := 0, maxLength := 0, min := [], max := []
    className := [] }

end FormValidator

/-! ## Access levels and the telephone formatter -/

namespace FormularioCliente

open RegExp

/-- One `.nivel-item` row other than the template, as `getNivelesData` reads it: the
`value` of its name, priority and description inputs, the `checked` state of the
24 h box, the `value` of the two time inputs (`none` when the row has none), the
`name` of each checked box of `.puertas-grid`, and for each checked box of
`.puertas-personalizadas-list` the text of the element that follows it
(`none` when there is none).  The four inputs read without `?.` are present. -/
structure FilaNivel where
  nombre : List Char
  prioridad : List Char
  descripcion : List Char
  acceso24h : Bool
  horaInicio : Option (List Char)
  horaFin : Option (List Char)
  puertasGrid : List (List Char)
  puertasPersonalizadas : List (Option (List Char))
  deriving DecidableEq, Repr

/-- The object pushed by `getNivelesData` for a row; `hora_inicio = none` is `null`,
and an entry `none` of `puertas` is `undefined`. -/
structure Nivel where
  nombre : List Char
  prioridad : List Char
  descripcion : List Char
  acceso_24h : Bool
  hora_inicio : Option (List Char)
  hora_fin : Option (List Char)
  puertas : List (Option (List Char))
  deriving DecidableEq, Repr

/-- `x || null` for a string or `undefined`. -/
def oNull : Option (List Char) → Option (List Char)
  | some v => if v = [] then none else some v
  | none => none

/-- `getNivelesData()` over the rows matched by `.nivel-item:not(#nivel-template)`, in
document order. -/
def getNivelesData (items : List FilaNivel) : List Nivel :=
  items.foldl
    (fun niveles nivel =>
      let puertas : List (Option (List Char)) := []
      let puertas := nivel.puertasGrid.foldl (fun puertas p => puertas ++ [some p]) puertas
      let puertas := nivel.puertasPersonalizadas.foldl
        (fun puertas p => puertas ++ [p.map trim]) puertas
      niveles ++ [
        { nombre := trim nivel.nombre
          prioridad := nivel.prioridad
          descripcion := trim nivel.descripcion
          acceso_24h := nivel.acceso24h
          hora_inicio := oNull nivel.horaInicio
          hora_fin := oNull nivel.horaFin
          puertas := puertas }])
    []

/-- An untouched level row: blank name, priority and description, no door checked. -/
def filaNivelVacia : FilaNivel :=
  ⟨[], [], [], false, some [], some [], [], []⟩

/-- A level row that has been filled in. -/
def filaNivelLlena : FilaNivel :=
  ⟨['V', 'I', 'P'], ['1'], ['t', 'o', 'd', 'o'], true, some [], some [],
    [['p', 'u', 'e', 'r', 't', 'a', '_', '1']], []⟩

end FormularioCliente

namespace FormValidator

/-- `formatTelefono(field)`: the text written back to `field.value`, from the text
found there.  `replace(/\D/g, '')` keeps the decimal digits. -/
def formatTelefono (fieldValue : List Char) : List Char :=
  let value := fieldValue.filter Char.isDigit
  let value :=
    if ['3', '4'].isPrefixOf value then '+' :: value
    else if value.length = 9 then ['+', '3', '4', ' '] ++ value
    else value
  if ['+', '3', '4'].isPrefixOf value then
    let number := substring value 3 value.length
    if number.length ≥ 3 then
      let value := ['+', '3', '4', ' '] ++ substring number 0 3
      if number.length ≥ 6 then
        let value := value ++ [' '] ++ substring number 3 6
        if number.length ≥ 9 then value ++ [' '] ++ substring number 6 9
        else value
      else value
    else value
  else value

end FormValidator

/-! ## Sidebar classes, whole-form validation and the re-entrant field check -/

namespace FormularioCliente

variable {V : Type}

/-- The classes `active` and `completed` of a sidebar item after `updateSidebar`. -/
structure ClasesItem where
  active : Bool
  completed : Bool
  deriving DecidableEq, Repr

/-- The variable `tieneDatos` computed by `updateSidebar` for a step.  `noVacio v` is
the value of `v && Object.keys(v).length > 0` read as a condition. -/
def tieneDatos (noVacio : V → Bool) (s : Estado V) (step : Int) : Bool :=
  match s.datosFormulario with
  | none => false
  | some df =>
    if step = 1 then
      match df.datos_empresa with
      | some v => noVacio v
      | none => false
    else if step = 2 then
      match df.info_trasteros with
      | some v => noVacio v
      | none => false
    else if step = 3 then
      match df.usuarios_app with
      | some v => noVacio v
      | none => false
    else if step = 4 then
      match df.config_correo with
      | some v => noVacio v
      | none => false
    else if step = 5 then
      match df.niveles_acceso with
      | some v => noVacio v
      | none => false
    else if step = 6 then
      match df.documentacion with
      | some v => noVacio v
      | none => false
    else false

/-- `updateSidebar()`: the classes of each of the `stepItems` sidebar items, in
order.  Both classes are removed from an item before one is added, so the classes
found there before play no part. -/
def updateSidebar (noVacio : V → Bool) (s : Estado V) : List ClasesItem :=
  (List.range s.stepItems).map
    (fun (index : Nat) =>
      let step : Int := (index : Int) + 1
      let tieneDatos := tieneDatos noVacio s step
      if step = s.currentStep then ⟨true, false⟩
      else if tieneDatos && decide (step < s.currentStep) then ⟨false, true⟩
      else ⟨false, false⟩)

/-- The key of `datosFormulario` under which the data of a step is kept. -/
def claveDePaso (step : Int) : Option Clave :=
  if step = 1 then some .datos_empresa
  else if step = 2 then some .info_trasteros
  else if step = 3 then some .usuarios_app
  else if step = 4 then some .config_correo
  else if step = 5 then some .niveles_acceso
  else if step = 6 then some .documentacion
  else none

/-- The example session on step `paso` once the replies of steps 1 and 3 have been
merged: data `1` under `datos_empresa`, data `0` under `usuarios_app`. -/
def sesionConDatos (paso : Int) : Estado Int :=
  ⟨paso, 6, some "c1", false, 6, true, none,
    some ⟨some 1, none, some 0, none, none, none⟩, []⟩

end FormularioCliente

namespace FormValidator

/-- `validateAllSteps()`: the object `results`, as the list of its entries for the
keys 1 to 6, and the page left by the six runs of `validateStep`; `none` when a
nested `validateField` does not return within `fuel` nested calls. -/
def validateAllSteps (e : Entorno) (doc : Documento) (fuel : Nat) (st : Pagina) :
    Option (List (Int × Bool) × Pagina) :=
  ([1, 2, 3, 4, 5, 6] : List Int).foldl
    (fun acc i =>
      match acc with
      | none => none
      | some (results, st) =>
        match validateStep (fun st f => validateField e doc fuel st (some f)) doc st i with
        | none => none
        | some (ok, st) => some (results ++ [(i, ok)], st))
    (some ([], st))

/-- What `validateForm()` returns and leaves behind: the object returned, the page,
and the controller `window.formularioCliente` (`none` when there is none). -/
structure ResultadoFormulario (V : Type) where
  isValid : Bool
  stepResults : List (Int × Bool)
  pagina : Pagina
  formularioCliente : Option (FormularioCliente.Estado V)

/-- `validateForm()`, run on the page `st` with the controller `formularioCliente`,
which finds the document `d` when it is asked to move. -/
def validateForm {V : Type} (e : Entorno) (doc : Documento) (fuel : Nat)
    (d : FormularioCliente.Dom V) (st : Pagina)
    (formularioCliente : Option (FormularioCliente.Estado V)) :
    Option (ResultadoFormulario V) :=
  match validateAllSteps e doc fuel st with
  | none => none
  | some (results, st) =>
    let isValid := results.all (fun r => r.2)
    let formularioCliente :=
      if !isValid then
        match results.find? (fun r => !r.2) with
        | some firstInvalidStep =>
          match formularioCliente with
          | some s => some (FormularioCliente.goToStep d s firstInvalidStep.1)
          | none => none
        | none => formularioCliente
      else formularioCliente
    some ⟨isValid, results, st, formularioCliente⟩

/-- A document in which the first element carrying `data-step="1"` is the container
of the field `campoEmail`, and a sidebar item `.step-item[data-step="1"]` exists. -/
def documentoConPaso : Documento :=
  ⟨fun n => n == 1, fun n => if n = 1 then some [campoEmail] else none⟩

/-- A required text field of step 2 left empty, in a document without sidebar items
carrying `data-step`. -/
def campoVacio : Campo :=
  { ident := 3, padre := 3, paso := some 2, disabled := false, readOnly := false
    value := [], required := true, type := ['t', 'e', 'x', 't']
    pattern := [], minLength := 0, maxLength := 0, min := [], max := []
    className := [] }

/-- A document whose step 2 holds the empty required field and whose other steps
hold nothing, without sidebar items carrying `data-step`. -/
def documentoPasoDos : Documento :=
  ⟨fun _ => false, fun n => if n = 2 then some [campoVacio] else none⟩

end FormValidator

/-! ## The document as `FormularioCliente` reads and marks it -/

namespace FormularioCliente

open RegExp

/-- An input of a record row that step validation marks: its `value` and whether it
carries the classes `is-valid` and `is-invalid`. -/
structure Control where
  value : List Char
  isValid : Bool
  isInvalid : Bool
  deriving DecidableEq, Repr

/-- One `.trastero-item` row other than the template.  The three inputs that
`_validateTrasterosStep` looks up are `none` when the row has no such input; the
four others are given by their `value`.  The inputs of a row are distinct elements. -/
structure ItemTrastero where
  numero : Option Control
  metros : Option Control
  cubicos : Option (List Char)
  precio_sin_iva : Option Control
  precio_con_iva : Option (List Char)
  fianza : Option (List Char)
  descripcion : Option (List Char)
  deriving DecidableEq, Repr

/-- What `getTrasterosData` reads in a row. -/
def ItemTrastero.fila (t : ItemTrastero) : FilaTrastero :=
  ⟨t.numero.map (fun c => c.value), t.metros.map (fun c => c.value), t.cubicos,
    t.precio_sin_iva.map (fun c => c.value), t.precio_con_iva, t.fianza, t.descripcion⟩

/-- One `.usuario-item` row other than the template, its four validated inputs with
their classes. -/
structure ItemUsuario where
  nombre : Option Control
  email : Option Control
  password : Option Control
  confirmPassword : Option Control
  rol : Option (List Char)
  departamento : Option (List Char)
  permisos_facturacion : Option Bool
  permisos_reportes : Option Bool
  permisos_configuracion : Option Bool
  deriving DecidableEq, Repr

/-- What `getUsuariosData` reads in a row. -/
def ItemUsuario.fila (u : ItemUsuario) : FilaUsuario :=
  ⟨u.nombre.map (fun c => c.value), u.email.map (fun c => c.value),
    u.password.map (fun c => c.value), u.confirmPassword.map (fun c => c.value),
    u.rol, u.departamento, u.permisos_facturacion, u.permisos_reportes,
    u.permisos_configuracion⟩

/-- One `.nivel-item` row other than the template: the name and description inputs
with their classes, and the rest of what `getNivelesData` reads.  Both inputs are
present: they are read without a guard. -/
structure ItemNivel where
  nombre : Control
  prioridad : List Char
  descripcion : Control
  acceso24h : Bool
  horaInicio : Option (List Char)
  horaFin : Option (List Char)
  puertasGrid : List (List Char)
  puertasPersonalizadas : List (Option (List Char))
  deriving DecidableEq, Repr

/-- What `getNivelesData` reads in a row. -/
def ItemNivel.fila (n : ItemNivel) : FilaNivel :=
  ⟨n.nombre.value, n.prioridad, n.descripcion.value, n.acceso24h, n.horaInicio, n.horaFin,
    n.puertasGrid, n.puertasPersonalizadas⟩

/-- The body of the inner loop of `_validateTrasterosStep` and
`_validateUsuariosStep` for one looked-up input: the input after the class changes,
and `isValid` after it. -/
def revisarControl (field : Option Control) (isValid : Bool) : Option Control × Bool :=
  match field with
  | none => (none, false)
  | some field =>
    if trim field.value = [] then
      (some { field with isInvalid := true, isValid := false }, false)
    else
      (some { field with isInvalid := false, isValid := true }, isValid)

/-- `_validateTrasterosStep()`: the value returned and the rows after the class
changes. -/
def _validateTrasterosStep (trasteros : List ItemTrastero) : Bool × List ItemTrastero :=
  if trasteros.length = 0 then (false, trasteros)
  else
    trasteros.foldl
      (fun (acc : Bool × List ItemTrastero) trastero =>
        let r1 := revisarControl trastero.numero acc.1
        let r2 := revisarControl trastero.metros r1.2
        let r3 := revisarControl trastero.precio_sin_iva r2.2
        let marcado : ItemTrastero :=
          { trastero with numero := r1.1, metros := r2.1, precio_sin_iva := r3.1 }
        (r3.2, acc.2 ++ [marcado]))
      (true, [])

/-- `_validateUsuariosStep()`: the value returned and the rows after the class
changes. -/
def _validateUsuariosStep (usuarios : List ItemUsuario) : Bool × List ItemUsuario :=
  if usuarios.length = 0 then (false, usuarios)
  else
    usuarios.foldl
      (fun (acc : Bool × List ItemUsuario) usuario =>
        let password := usuario.password.map (fun c => c.value)
        let confirm := usuario.confirmPassword.map (fun c => c.value)
        let r1 := revisarControl usuario.nombre acc.1
        let r2 := revisarControl usuario.email r1.2
        let r3 := revisarControl usuario.password r2.2
        let r4 := revisarControl usuario.confirmPassword r3.2
        let marcado : ItemUsuario :=
          { usuario with nombre := r1.1, email := r2.1, password := r3.1, confirmPassword := r4.1 }
        if !esFalsy password && !esFalsy confirm && password != confirm then
          let confirmPassword := marcado.confirmPassword.map (fun c => { c with isInvalid := true })
          (false, acc.2 ++ [{ marcado with confirmPassword := confirmPassword }])
        else
          (r4.2, acc.2 ++ [marcado]))
      (true, [])

/-- The two branches that `_validateNivelesStep` runs on the name and on the
description: only `is-invalid` is written. -/
def revisarNivel (field : Control) (isValid : Bool) : Control × Bool :=
  if trim field.value = [] then ({ field with isInvalid := true }, false)
  else ({ field with isInvalid := false }, isValid)

/-- `_validateNivelesStep()`: the value returned and the rows after the class
changes. -/
def _validateNivelesStep (niveles : List ItemNivel) : Bool × List ItemNivel :=
  if niveles.length = 0 then (false, niveles)
  else
    niveles.foldl
      (fun (acc : Bool × List ItemNivel) nivel =>
        let r1 := revisarNivel nivel.nombre acc.1
        let r2 := revisarNivel nivel.descripcion r1.2
        (r2.2, acc.2 ++ [{ nivel with nombre := r1.1, descripcion := r2.1 }]))
      (true, [])

/-- Whether a looked-up input is missing or blank after trimming. -/
def enBlanco (field : Option Control) : Bool :=
  match field with
  | none => true
  | some c => decide (trim c.value = [])

/-- Whether a storage-unit row has its three required inputs non-blank. -/
def trasteroCompleto (t : ItemTrastero) : Bool :=
  !enBlanco t.numero && !enBlanco t.metros && !enBlanco t.precio_sin_iva

/-- Whether the password and its confirmation of a user row are both non-empty and
different. -/
def passwordDistinto (u : ItemUsuario) : Bool :=
  match u.password, u.confirmPassword with
  | some p, some c => decide (p.value ≠ [] ∧ c.value ≠ [] ∧ p.value ≠ c.value)
  | _, _ => false

/-- Whether a user row has its four required inputs non-blank and no mismatch
between the password and its confirmation. -/
def usuarioCompleto (u : ItemUsuario) : Bool :=
  !enBlanco u.nombre && !enBlanco u.email && !enBlanco u.password &&
    !enBlanco u.confirmPassword && !passwordDistinto u

/-- Whether an access-level row has a non-blank name and a non-blank description. -/
def nivelCompleto (n : ItemNivel) : Bool :=
  decide (trim n.nombre.value ≠ []) && decide (trim n.descripcion.value ≠ [])

end FormularioCliente

namespace FormularioCliente

open RegExp

/-- A value found under a key of a payload: a string, a Boolean, `null`, or any
other value, given by whether it is truthy and by the text `String(v)`. -/
inductive Valor where
  | cadena (s : List Char)
  | booleano (b : Bool)
  | nulo
  | otro (verdadero : Bool) (texto : List Char)
  deriving DecidableEq, Repr

/-- `!!v`. -/
def Valor.truthy : Valor → Bool
  | .cadena s => s != []
  | .booleano b => b
  | .nulo => false
  | .otro verdadero _ => verdadero

/-- `String(v)`. -/
def Valor.aString : Valor → List Char
  | .cadena s => s
  | .booleano b => if b then ['t', 'r', 'u', 'e'] else ['f', 'a', 'l', 's', 'e']
  | .nulo => ['n', 'u', 'l', 'l']
  | .otro _ texto => texto

/-- The text that the setter of `value` receives for `v`: `null` is taken as the
empty string, any other value as `String(v)`. -/
def Valor.aValue : Valor → List Char
  | .nulo => []
  | v => v.aString

/-- A truthy value read as an object: whether `Array.isArray` holds for it, and its
entries in the order of `Object.keys`. -/
structure Carga where
  esArray : Bool
  entradas : List (List Char × Valor)
  deriving DecidableEq, Repr

/-- An `input`, `select` or `textarea` inside the container of a flat step: its
`name` attribute (`none` when it has none), the text `_getFieldLabel` gives for it,
its `type`, whether it has the attribute `required`, its `pattern` (empty when it
has none), its attributes `min` and `max`, its `value` and `checked` state, and
whether it carries the classes `is-valid` and `is-invalid`.  The attributes `name`
and `required` are taken to occur on such elements only. -/
structure Entrada where
  name : Option (List Char)
  etiqueta : List Char
  type : List Char
  required : Bool
  pattern : List Char
  min : Option (List Char)
  max : Option (List Char)
  value : List Char
  checked : Bool
  isValid : Bool
  isInvalid : Bool
  deriving DecidableEq, Repr

/-- What `form-handler.js` takes from the browser and is left abstract: whether
`new URL(url)` succeeds; `new RegExp(pattern).test(value)`; the comparisons
`parseInt(a) < parseInt(b)` and `parseInt(a) > parseInt(b)`; the text that an
element holds after `field.value = text` (the browser may sanitise it); and the
rows under `#niveles-container` once the branch of `loadStepData` for step 5 has
rebuilt them through `window.addNivel`, which these files do not define. -/
structure Navegador where
  validateURL : List Char → Bool
  regExpTest : List Char → List Char → Bool
  parseIntLt : List Char → List Char → Bool
  parseIntGt : List Char → List Char → Bool
  setValue : Entrada → List Char → List Char
  addNiveles : List ItemNivel → Carga → List ItemNivel

/-- The variable `isValid` of `validateField(field)` once its checks have run: the
required check, the check by type, and the check of the pattern. -/
def esValido (nav : Navegador) (field : Entrada) : Bool :=
  let isValid := true
  let value := trim field.value
  let isValid := if field.required && value == [] then false else isValid
  let isValid :=
    if value != [] && field.type != [] then
      if field.type = ['e', 'm', 'a', 'i', 'l'] then
        if !validateEmail value then false else isValid
      else if field.type = ['t', 'e', 'l'] then
        if !validatePhone value then false else isValid
      else if field.type = ['u', 'r', 'l'] then
        if value != [] && !nav.validateURL value then false else isValid
      else if field.type = ['n', 'u', 'm', 'b', 'e', 'r'] then
        let isValid :=
          match field.min with
          | some m => if nav.parseIntLt value m then false else isValid
          | none => isValid
        match field.max with
        | some m => if nav.parseIntGt value m then false else isValid
        | none => isValid
      else isValid
    else isValid
  if value != [] && field.pattern != [] then
    if !nav.regExpTest field.pattern value then false else isValid
  else isValid

/-- The body of `validateField(field)` past the guard on a missing field: the value
returned and the field after the class changes. -/
def validarPresente (nav : Navegador) (field : Entrada) : Bool × Entrada :=
  let isValid := esValido nav field
  if isValid then (isValid, { field with isInvalid := false, isValid := true })
  else (isValid, { field with isValid := false, isInvalid := true })

/-- `validateField(field)` of `FormularioCliente`; a missing field is `none`. -/
def validateField (nav : Navegador) : Option Entrada → Bool × Option Entrada
  | none => (true, none)
  | some field => ((validarPresente nav field).1, some (validarPresente nav field).2)

/-- The callback that `_validateRequiredFields` runs on one field: whether its label
is pushed to `invalidFields`, and the field after the class changes. -/
def revisarRequerido (nav : Navegador) (field : Entrada) : Bool × Entrada :=
  let value := if field.value != [] then trim field.value else []
  if value == [] then (true, { field with isInvalid := true, isValid := false })
  else
    let isValid :=
      if field.type = ['e', 'm', 'a', 'i', 'l'] then regexEmail.test value
      else if field.pattern != [] then nav.regExpTest field.pattern value
      else if field.type = ['t', 'e', 'l'] then regexPhone.test (sinEspacios value)
      else true
    if !isValid then (true, { field with isInvalid := true, isValid := false })
    else (false, { field with isInvalid := false, isValid := true })

/-- `_validateRequiredFields(fields)`: the list `invalidFields` returned, and the
fields after the class changes. -/
def _validateRequiredFields (nav : Navegador) (fields : List Entrada) :
    List (List Char) × List Entrada :=
  fields.foldl
    (fun (acc : List (List Char) × List Entrada) field =>
      let fieldLabel := field.etiqueta
      let r := revisarRequerido nav field
      (if r.1 then acc.1 ++ [fieldLabel] else acc.1, acc.2 ++ [r.2]))
    ([], [])

/-- The inputs of a step once the required ones among them, taken in order, have
become `nuevos`: the writes of `_validateRequiredFields` land on the elements of
the document. -/
def reponer : List Entrada → List Entrada → List Entrada
  | [], _ => []
  | campo :: resto, nuevos =>
    if campo.required then
      match nuevos with
      | nuevo :: otros => nuevo :: reponer resto otros
      | [] => campo :: reponer resto []
    else campo :: reponer resto nuevos

/-- The document as `FormularioCliente` finds it: the rows of the three record
steps, the template rows left out, and for each number `n` the `input`, `select`
and `textarea` descendants, in document order, of the first element matching
`[data-step="n"]` (`none` when no element matches).  The inputs listed under a
flat step are not inputs of a row. -/
structure Formulario where
  trasteros : List ItemTrastero
  usuarios : List ItemUsuario
  niveles : List ItemNivel
  paso : Int → Option (List Entrada)

/-- `_getRequiredFieldsForCurrentStep()`. -/
def _getRequiredFieldsForCurrentStep (doc : Formulario) (currentStep : Int) : List Entrada :=
  match doc.paso currentStep with
  | none => []
  | some campos => campos.filter (fun campo => campo.required)

/-- `validateCurrentStep()` run on a document with `this.currentStep = currentStep`:
the value returned and the document after the class changes. -/
def Formulario.validateCurrentStep (nav : Navegador) (doc : Formulario) (currentStep : Int) :
    Bool × Formulario :=
  if currentStep = 2 then
    let r := _validateTrasterosStep doc.trasteros
    (r.1, { doc with trasteros := r.2 })
  else if currentStep = 3 then
    let r := _validateUsuariosStep doc.usuarios
    (r.1, { doc with usuarios := r.2 })
  else if currentStep = 5 then
    let r := _validateNivelesStep doc.niveles
    (r.1, { doc with niveles := r.2 })
  else
    let requiredFields := _getRequiredFieldsForCurrentStep doc currentStep
    let r := _validateRequiredFields nav requiredFields
    let marcados := (doc.paso currentStep).map (fun campos => reponer campos r.2)
    (decide (r.1.length = 0), { doc with paso := Function.update doc.paso currentStep marcados })

/-- What `getCurrentStepData()` returns: an object with the single key `trasteros`,
`usuarios` or `niveles_acceso`, or the object `data` of a flat step, given by its
entries in the order in which its keys were first assigned. -/
inductive Extraido where
  | trasteros (l : List Trastero)
  | usuarios (l : List Usuario)
  | niveles_acceso (l : List Nivel)
  | plano (data : List (List Char × Valor))
  deriving DecidableEq, Repr

/-- The assignment `data[name] = v`. -/
def asignarClave (data : List (List Char × Valor)) (name : List Char) (v : Valor) :
    List (List Char × Valor) :=
  if data.any (fun e => e.1 == name) then
    data.map (fun e => if e.1 = name then (name, v) else e)
  else data ++ [(name, v)]

/-- The loop of `getCurrentStepData` over the inputs of a flat step. -/
def extraerPlano (inputs : List Entrada) : List (List Char × Valor) :=
  inputs.foldl
    (fun data input =>
      match input.name with
      | none => data
      | some name =>
        if name = [] then data
        else if input.type = ['c', 'h', 'e', 'c', 'k', 'b', 'o', 'x'] then
          asignarClave data name (.booleano input.checked)
        else if input.type = ['r', 'a', 'd', 'i', 'o'] then
          if input.checked then asignarClave data name (.cadena input.value) else data
        else asignarClave data name (.cadena input.value))
    []

/-- `getCurrentStepData()` run on a document with `this.currentStep = currentStep`. -/
def Formulario.getCurrentStepData (doc : Formulario) (currentStep : Int) : Extraido :=
  if currentStep = 2 then .trasteros (getTrasterosData (doc.trasteros.map ItemTrastero.fila))
  else if currentStep = 3 then .usuarios (getUsuariosData (doc.usuarios.map ItemUsuario.fila))
  else if currentStep = 5 then
    .niveles_acceso (getNivelesData (doc.niveles.map ItemNivel.fila))
  else
    match doc.paso currentStep with
    | none => .plano []
    | some inputs => .plano (extraerPlano inputs)

/-- What the controller meets in a document during one event. -/
def Formulario.dom (nav : Navegador) (doc : Formulario) : Dom Extraido :=
  ⟨fun currentStep => (doc.validateCurrentStep nav currentStep).1,
    fun currentStep => doc.getCurrentStepData currentStep⟩

/-- The argument `datos` of `loadStepData` when it is truthy: what it holds under its
six named keys and under `paso_n`, each read as an object, `none` when the value
there is missing or falsy. -/
structure DatosCargados where
  porClave : DatosFormulario Carga
  porPaso : Int → Option Carga

/-- The variable `stepData` resolved by `loadStepData`; `none` is `null`. -/
def stepDataDe (step : Int) (datos : DatosCargados) : Option Carga :=
  if step = 1 then
    some (((datos.porClave.datos_empresa).orElse (fun _ => datos.porPaso 1)).getD ⟨false, []⟩)
  else if step = 2 then
    some (((datos.porClave.info_trasteros).orElse (fun _ => datos.porPaso 2)).getD ⟨true, []⟩)
  else if step = 3 then
    some (((datos.porClave.usuarios_app).orElse (fun _ => datos.porPaso 3)).getD ⟨true, []⟩)
  else if step = 4 then
    some (((datos.porClave.config_correo).orElse (fun _ => datos.porPaso 4)).getD ⟨false, []⟩)
  else if step = 5 then
    some (((datos.porClave.niveles_acceso).orElse (fun _ => datos.porPaso 5)).getD ⟨false, []⟩)
  else if step = 6 then
    some (((datos.porClave.documentacion).orElse (fun _ => datos.porPaso 6)).getD ⟨false, []⟩)
  else none

/-- The body of the loop of `loadStepData` for a key whose field was found: the
assignment by type, then `validateField`. -/
def cargarCampo (nav : Navegador) (v : Valor) (field : Entrada) : Entrada :=
  let field :=
    if field.type = ['c', 'h', 'e', 'c', 'k', 'b', 'o', 'x'] then
      { field with checked := v.truthy }
    else if field.type = ['r', 'a', 'd', 'i', 'o'] then
      if field.value = v.aString then { field with checked := true } else field
    else { field with value := nav.setValue field v.aValue }
  (validarPresente nav field).2

/-- The inputs of a step after `g` has run on the element that
`stepElement.querySelector('[name="key"]')` finds: the first one with that name. -/
def asignarPrimero (g : Entrada → Entrada) (key : List Char) : List Entrada → List Entrada
  | [] => []
  | field :: rest =>
    if field.name = some key then g field :: rest
    else field :: asignarPrimero g key rest

/-- The loop of `loadStepData` over `Object.keys(stepData)`. -/
def cargarCampos (nav : Navegador) (stepData : Carga) (campos : List Entrada) : List Entrada :=
  stepData.entradas.foldl
    (fun campos e => asignarPrimero (cargarCampo nav e.2) e.1 campos)
    campos

/-- `loadStepData(step, datos)`: the document it leaves; a falsy `datos` is `none`. -/
def loadStepData (nav : Navegador) (doc : Formulario) (step : Int)
    (datos : Option DatosCargados) : Formulario :=
  match datos with
  | none => doc
  | some datos =>
    let stepData := stepDataDe step datos
    match stepData with
    | none => doc
    | some stepData =>
      if step = 5 ∧ stepData.esArray = true then
        { doc with niveles := nav.addNiveles doc.niveles stepData }
      else
        match doc.paso step with
        | none => doc
        | some campos =>
          { doc with paso := Function.update doc.paso step (some (cargarCampos nav stepData campos)) }

end FormularioCliente

namespace FormularioCliente

open RegExp

/-- A storage-unit row once `_validateTrasterosStep` has marked its three inputs. -/
def marcarTrastero (t : ItemTrastero) : ItemTrastero :=
  { t with numero := (revisarControl t.numero true).1, metros := (revisarControl t.metros true).1,
           precio_sin_iva := (revisarControl t.precio_sin_iva true).1 }

/-- A user row once `_validateUsuariosStep` has marked its four inputs: a mismatch of
the passwords adds `is-invalid` to the confirmation. -/
def marcarUsuario (u : ItemUsuario) : ItemUsuario :=
  let confirmPassword := (revisarControl u.confirmPassword true).1
  let confirmPassword :=
    if passwordDistinto u then confirmPassword.map (fun c => { c with isInvalid := true })
    else confirmPassword
  { u with nombre := (revisarControl u.nombre true).1, email := (revisarControl u.email true).1,
           password := (revisarControl u.password true).1, confirmPassword := confirmPassword }

/-- An access-level row once `_validateNivelesStep` has marked its two inputs. -/
def marcarNivel (n : ItemNivel) : ItemNivel :=
  { n with nombre := (revisarNivel n.nombre true).1,
           descripcion := (revisarNivel n.descripcion true).1 }

/-- An input of a flat step once step validation has run: marked when required,
untouched otherwise. -/
def marcarRequerido (nav : Navegador) (campo : Entrada) : Entrada :=
  if campo.required then (revisarRequerido nav campo).2 else campo

/-- A runtime for the examples: `new URL` succeeds on the texts that hold a colon,
every pattern matches, no bound is violated, an element keeps the text assigned,
and `window.addNivel` is missing. -/
def navegadorEjemplo : Navegador :=
  ⟨fun url => url.contains ':', fun _ _ => true, fun _ _ => false, fun _ _ => false,
    fun _ texto => texto, fun _ _ => []⟩

/-- A storage-unit row with number, area and price filled in. -/
def itemTrasteroLleno : ItemTrastero :=
  ⟨some ⟨['A', '1'], false, false⟩, some ⟨['5'], false, false⟩, some [],
    some ⟨['4', '0'], false, false⟩, some [], some [], some []⟩

/-- A storage-unit row with only the description filled in. -/
def itemTrasteroDescripcion : ItemTrastero :=
  ⟨some ⟨[' '], true, false⟩, some ⟨[], false, false⟩, some [],
    some ⟨[], false, false⟩, some [], some [], some ['a', 'l', 't', 'o']⟩

/-- A user row with every input filled in and matching passwords. -/
def itemUsuarioLleno : ItemUsuario :=
  ⟨some ⟨['A', 'n', 'a'], false, false⟩, some ⟨['a', '@', 'b', '.', 'c'], false, false⟩,
    some ⟨['x', 'y'], false, false⟩, some ⟨['x', 'y'], false, false⟩, some [], some [],
    some false, some false, some false⟩

/-- A user row whose confirmation differs from the password. -/
def itemUsuarioDistinto : ItemUsuario :=
  ⟨some ⟨['A', 'n', 'a'], false, false⟩, some ⟨['a', '@', 'b', '.', 'c'], false, false⟩,
    some ⟨['x', 'y'], false, false⟩, some ⟨['x', 'z'], false, false⟩, some [], some [],
    some false, some false, some false⟩

/-- An access-level row with a name and a description. -/
def itemNivelLleno : ItemNivel :=
  ⟨⟨['V', 'I', 'P'], false, false⟩, ['1'], ⟨['t', 'o', 'd', 'o'], false, false⟩, true,
    some [], some [], [], []⟩

/-- A document with one filled row in each record step and no flat step. -/
def formularioLleno : Formulario :=
  ⟨[itemTrasteroLleno], [itemUsuarioLleno], [itemNivelLleno], fun _ => none⟩

end FormularioCliente

namespace FormularioCliente

/-- A required field of type `url` holding the text `ejemplo`, which is not a URL. -/
def campoUrl : Entrada :=
  { name := some ['w', 'e', 'b'], etiqueta := ['W', 'e', 'b'], type := ['u', 'r', 'l']
    required := true, pattern := [], min := none, max := none
    value := ['e', 'j', 'e', 'm', 'p', 'l', 'o'], checked := false
    isValid := false, isInvalid := false }

/-- A document whose step 1 holds the field `campoUrl` and nothing else. -/
def formularioUrl : Formulario :=
  ⟨[], [], [], fun n => if n = 1 then some [campoUrl] else none⟩

end FormularioCliente

namespace FormularioCliente

/-- What the loop of `getCurrentStepData` assigns for one input: nothing for an
input without a name or for a radio button that is not checked, the `checked`
state of a checkbox, the `value` of any other input. -/
def entradaDe (input : Entrada) : Option (List Char × Valor) :=
  match input.name with
  | none => none
  | some name =>
    if name = [] then none
    else if input.type = ['c', 'h', 'e', 'c', 'k', 'b', 'o', 'x'] then
      some (name, .booleano input.checked)
    else if input.type = ['r', 'a', 'd', 'i', 'o'] then
      if input.checked then some (name, .cadena input.value) else none
    else some (name, .cadena input.value)

/-- A text input with the given name holding the given text. -/
def campoTexto (name value : List Char) : Entrada :=
  { name := some name, etiqueta := name, type := ['t', 'e', 'x', 't'], required := false
    pattern := [], min := none, max := none, value := value, checked := false
    isValid := false, isInvalid := false }

/-- A checkbox with the given name and state. -/
def campoCasilla (name : List Char) (checked : Bool) : Entrada :=
  { name := some name, etiqueta := name, type := ['c', 'h', 'e', 'c', 'k', 'b', 'o', 'x']
    required := false, pattern := [], min := none, max := none, value := ['o', 'n']
    checked := checked, isValid := false, isInvalid := false }

/-- A radio button with the given name, value and state. -/
def campoRadio (name value : List Char) (checked : Bool) : Entrada :=
  { name := some name, etiqueta := name, type := ['r', 'a', 'd', 'i', 'o']
    required := false, pattern := [], min := none, max := none, value := value
    checked := checked, isValid := false, isInvalid := false }

/-- A document whose step 1 holds a text input `a` with the text `x`, a text input
`b` left empty and an unchecked checkbox `c`. -/
def formularioPlano : Formulario :=
  ⟨[], [], [], fun n =>
    if n = 1 then some [campoTexto ['a'] ['x'], campoTexto ['b'] [], campoCasilla ['c'] false]
    else none⟩

/-- The same step filled in another way: `a` holds `u`, `b` holds `v`, `c` is
checked. -/
def formularioOtro : Formulario :=
  ⟨[], [], [], fun n =>
    if n = 1 then some [campoTexto ['a'] ['u'], campoTexto ['b'] ['v'], campoCasilla ['c'] true]
    else none⟩

/-- A document whose step 1 holds the two buttons of a radio group `r`, with the
values `1` and `2`, none of them checked. -/
def formularioRadio : Formulario :=
  ⟨[], [], [], fun n =>
    if n = 1 then some [campoRadio ['r'] ['1'] false, campoRadio ['r'] ['2'] false]
    else none⟩

/-- The object `datos` whose key `datos_empresa` holds the given entries, and which
holds nothing else. -/
def datosEmpresa (entradas : List (List Char × Valor)) : DatosCargados :=
  ⟨⟨some ⟨false, entradas⟩, none, none, none, none, none⟩, fun _ => none⟩

end FormularioCliente

/-! ## Navigation -/

namespace FormularioCliente

variable {V : Type}

/-- What `saveCurrentStep` leaves alone before its first `await`: every field but
the save indicator and the list of requests. -/
theorem saveCurrentStep_frame (d : Dom V) (s : Estado V) :
    (saveCurrentStep d s).currentStep = s.currentStep ∧
    (saveCurrentStep d s).totalSteps = s.totalSteps ∧
    (saveCurrentStep d s).clienteId = s.clienteId ∧
    (saveCurrentStep d s).isSubmitting = s.isSubmitting ∧
    (saveCurrentStep d s).stepItems = s.stepItems ∧
    (saveCurrentStep d s).statusElems = s.statusElems ∧
    (saveCurrentStep d s).datosFormulario = s.datosFormulario := by
  unfold saveCurrentStep updateSaveStatus
  cases hc : s.clienteId with
  | none => simp [hc]
  | some c =>
    by_cases h6 : s.currentStep = 6
    · simp [h6, hc]
    · cases hE : s.statusElems <;> simp [h6, hE, hc]

/-- What the settling of a save leaves alone: every field but the save indicator
and `datosFormulario`. -/
theorem saveCurrentStep_settle_frame (s : Estado V) (l : Llegada V) :
    (saveCurrentStep_settle s l).1.currentStep = s.currentStep ∧
    (saveCurrentStep_settle s l).1.totalSteps = s.totalSteps ∧
    (saveCurrentStep_settle s l).1.clienteId = s.clienteId ∧
    (saveCurrentStep_settle s l).1.isSubmitting = s.isSubmitting ∧
    (saveCurrentStep_settle s l).1.stepItems = s.stepItems ∧
    (saveCurrentStep_settle s l).1.statusElems = s.statusElems ∧
    (saveCurrentStep_settle s l).1.requests = s.requests := by
  unfold saveCurrentStep_settle updateSaveStatus
  cases l with
  | rechazo e => cases hE : s.statusElems <;> simp [hE]
  | respuesta r =>
    cases hok : r.ok <;> cases hE : s.statusElems <;> simp [hok, hE]

/-- `_navigateToStep` assigns the step and leaves the other controller fields as
`saveCurrentStep` left them. -/
theorem navigateToStep_frame (d : Dom V) (s : Estado V) (step : Int) :
    (_navigateToStep d s step).currentStep = step ∧
    (_navigateToStep d s step).totalSteps = s.totalSteps ∧
    (_navigateToStep d s step).clienteId = s.clienteId ∧
    (_navigateToStep d s step).isSubmitting = s.isSubmitting ∧
    (_navigateToStep d s step).stepItems = s.stepItems ∧
    (_navigateToStep d s step).statusElems = s.statusElems ∧
    (_navigateToStep d s step).datosFormulario = s.datosFormulario := by
  have h := saveCurrentStep_frame d s
  unfold _navigateToStep
  by_cases hs : step > s.currentStep
  · simp [hs, h.2.1, h.2.2.1, h.2.2.2.1, h.2.2.2.2.1, h.2.2.2.2.2.1, h.2.2.2.2.2.2]
  · simp [hs]

/-- Where one event can leave the step: where it was, one further (only below
`totalSteps`), or on an earlier sidebar item; `totalSteps` and the number of sidebar
items never change. -/
theorem aplicar_paso (s : Estado V) (a : Accion V) :
    ((a.aplicar s).currentStep = s.currentStep ∨
      ((a.aplicar s).currentStep = s.currentStep + 1 ∧
        (s.currentStep < s.totalSteps ∨ s.currentStep + 1 ≤ (s.stepItems : Int))) ∨
      ((a.aplicar s).currentStep = s.currentStep - 1 ∧ 1 < s.currentStep) ∨
      (1 ≤ (a.aplicar s).currentStep ∧ (a.aplicar s).currentStep < s.currentStep)) ∧
    (a.aplicar s).totalSteps = s.totalSteps ∧
    (a.aplicar s).stepItems = s.stepItems := by
  cases a with
  | next d =>
    have hnav := navigateToStep_frame d s (s.currentStep + 1)
    simp only [Accion.aplicar, nextStep, completeForm]
    cases hS : s.isSubmitting
    · by_cases hlt : s.currentStep < s.totalSteps
      · cases hv : validateCurrentStep d s
        · simp [hlt]
        · simp [hlt, hnav.1, hnav.2.1, hnav.2.2.2.2.1]
      · simp [hlt]
    · simp
  | previous d =>
    have hnav := navigateToStep_frame d s (s.currentStep - 1)
    by_cases hgt : s.currentStep > 1
    · have e : (Accion.previous d).aplicar s = _navigateToStep d s (s.currentStep - 1) := by
        simp [Accion.aplicar, previousStep, hgt]
      rw [e]
      exact ⟨Or.inr (Or.inr (Or.inl ⟨hnav.1, hgt⟩)), hnav.2.1, hnav.2.2.2.2.1⟩
    · simp [Accion.aplicar, previousStep, hgt]
  | click d index =>
    have hnav := navigateToStep_frame d s ((index : Int) + 1)
    by_cases hi : index < s.stepItems
    · by_cases heq : (index : Int) + 1 = s.currentStep
      · simp [Accion.aplicar, sidebarClick, stepItemClick, hi, heq]
      · by_cases hlt : (index : Int) + 1 < s.currentStep
        · have e : (Accion.click d index).aplicar s
              = _navigateToStep d s ((index : Int) + 1) := by
            simp [Accion.aplicar, sidebarClick, stepItemClick, hi, heq, hlt]
          rw [e]
          refine ⟨Or.inr (Or.inr (Or.inr ⟨?_, ?_⟩)), hnav.2.1, hnav.2.2.2.2.1⟩
          · rw [hnav.1]; omega
          · rw [hnav.1]; exact hlt
        · by_cases hnx : (index : Int) + 1 = s.currentStep + 1
          · cases hv : validateCurrentStep d s
            · simp [Accion.aplicar, sidebarClick, stepItemClick, hi, hnx, hv]
            · have e : (Accion.click d index).aplicar s
                  = _navigateToStep d s ((index : Int) + 1) := by
                have h1 : ¬ (s.currentStep + 1 = s.currentStep) := by omega
                have h2 : ¬ (s.currentStep + 1 < s.currentStep) := by omega
                simp only [Accion.aplicar, sidebarClick, stepItemClick, hi, hnx, hv, h1, h2,
                  if_true, if_false, Bool.not_true, Bool.false_eq_true]
              rw [e]
              refine ⟨Or.inr (Or.inl ⟨?_, Or.inr ?_⟩), hnav.2.1, hnav.2.2.2.2.1⟩
              · rw [hnav.1]; exact hnx
              · omega
          · simp [Accion.aplicar, sidebarClick, stepItemClick, hi, heq, hlt, hnx]
    · simp [Accion.aplicar, sidebarClick, hi]
  | tick d =>
    have hsave := saveCurrentStep_frame d s
    simp only [Accion.aplicar, autoSave]
    cases hv : validateCurrentStep d s
    · simp
    · simp [hsave.1, hsave.2.1, hsave.2.2.2.2.1]
  | settle l =>
    have hset := saveCurrentStep_settle_frame s l
    simp [Accion.aplicar, hset.1, hset.2.1, hset.2.2.2.2.1]

/-- C1. A click on the sidebar item of step `target = index + 1`: on the current
step it changes nothing; on an earlier step it moves there whatever the document says
(no validation); on the next step it moves there when the current step validates
and changes nothing when it does not; on any later step it changes nothing, whatever
`datosFormulario` holds for that step. -/
theorem stepItemClick_cases (d : Dom V) (s : Estado V) (index : Nat) :
    (((index : Int) + 1 = s.currentStep) → stepItemClick d s index = s) ∧
    (((index : Int) + 1 < s.currentStep) →
      (stepItemClick d s index).currentStep = (index : Int) + 1) ∧
    (((index : Int) + 1 = s.currentStep + 1) → validateCurrentStep d s = true →
      (stepItemClick d s index).currentStep = (index : Int) + 1) ∧
    (((index : Int) + 1 = s.currentStep + 1) → validateCurrentStep d s = false →
      stepItemClick d s index = s) ∧
    (((index : Int) + 1 > s.currentStep + 1) → stepItemClick d s index = s) := by
  refine ⟨?_, ?_, ?_, ?_, ?_⟩
  · intro h
    simp [stepItemClick, h]
  · intro h
    have hne : ¬ ((index : Int) + 1 = s.currentStep) := by omega
    simp only [stepItemClick, hne, h, if_true, if_false]
    exact (navigateToStep_frame d s _).1
  · intro h hv
    have hne : ¬ ((index : Int) + 1 = s.currentStep) := by omega
    have hlt : ¬ ((index : Int) + 1 < s.currentStep) := by omega
    simp only [stepItemClick, hne, hlt, h, hv, if_true, if_false, Bool.not_true]
    have := (navigateToStep_frame d s (s.currentStep + 1)).1
    simpa using this
  · intro h hv
    have hne : ¬ ((index : Int) + 1 = s.currentStep) := by omega
    have hlt : ¬ ((index : Int) + 1 < s.currentStep) := by omega
    simp [stepItemClick, hne, hlt, h, hv]
  · intro h
    have hne : ¬ ((index : Int) + 1 = s.currentStep) := by omega
    have hlt : ¬ ((index : Int) + 1 < s.currentStep) := by omega
    have hnx : ¬ ((index : Int) + 1 = s.currentStep + 1) := by omega
    simp [stepItemClick, hne, hlt, hnx]

/-- Witness for C1: from step 3 of the example session, the items of steps 3, 2, 4
(valid), 4 (invalid) and 6. -/
theorem stepItemClick_cases_witness :
    stepItemClick domValido (sesion 3) 2 = sesion 3 ∧
    (stepItemClick domInvalido (sesion 3) 1).currentStep = 2 ∧
    (stepItemClick domValido (sesion 3) 3).currentStep = 4 ∧
    stepItemClick domInvalido (sesion 3) 3 = sesion 3 ∧
    stepItemClick domValido (sesion 3) 5 = sesion 3 :=
  ⟨(stepItemClick_cases domValido (sesion 3) 2).1 (by decide),
   (stepItemClick_cases domInvalido (sesion 3) 1).2.1 (by decide),
   (stepItemClick_cases domValido (sesion 3) 3).2.2.1 (by decide) rfl,
   (stepItemClick_cases domInvalido (sesion 3) 3).2.2.2.1 (by decide) rfl,
   (stepItemClick_cases domValido (sesion 3) 5).2.2.2.2 (by decide)⟩

/-- C2. `nextStep` always returns, in one of three ways: with `isSubmitting` set the
state is unchanged; otherwise below `totalSteps` the step becomes `currentStep + 1`
when the current step validates and the state is unchanged when it does not;
otherwise (`currentStep = totalSteps`, and any larger value) `isSubmitting` becomes
true and the step is unchanged.  So `nextStep` never produces `totalSteps + 1`. -/
theorem nextStep_cases (d : Dom V) (s : Estado V) :
    (s.isSubmitting = true → nextStep d s = s) ∧
    (s.isSubmitting = false → s.currentStep < s.totalSteps →
      validateCurrentStep d s = true →
      (nextStep d s).currentStep = s.currentStep + 1 ∧
      (nextStep d s).isSubmitting = false) ∧
    (s.isSubmitting = false → s.currentStep < s.totalSteps →
      validateCurrentStep d s = false → nextStep d s = s) ∧
    (s.isSubmitting = false → s.totalSteps ≤ s.currentStep →
      (nextStep d s).isSubmitting = true ∧
      (nextStep d s).currentStep = s.currentStep) ∧
    (nextStep d s).totalSteps = s.totalSteps ∧
    (s.currentStep ≠ s.totalSteps + 1 →
      (nextStep d s).currentStep ≠ (nextStep d s).totalSteps + 1) := by
  have hnav := navigateToStep_frame d s (s.currentStep + 1)
  have hT : (nextStep d s).totalSteps = s.totalSteps := by
    unfold nextStep completeForm
    cases hS : s.isSubmitting <;> simp
    by_cases hlt : s.currentStep < s.totalSteps <;> simp [hlt]
    cases hv : validateCurrentStep d s <;> simp [hnav.2.1]
  refine ⟨?_, ?_, ?_, ?_, hT, ?_⟩
  · intro h
    simp [nextStep, h]
  · intro hS hlt hv
    simp only [nextStep, hS, hlt, hv, if_true, Bool.not_true, Bool.false_eq_true, if_false]
    exact ⟨hnav.1, hnav.2.2.2.1.trans hS⟩
  · intro hS hlt hv
    simp [nextStep, hS, hlt, hv]
  · intro hS hge
    have hlt : ¬ (s.currentStep < s.totalSteps) := by omega
    simp [nextStep, hS, hlt, completeForm]
  · intro hne
    rw [hT]
    unfold nextStep completeForm
    cases hS : s.isSubmitting
    · by_cases hlt : s.currentStep < s.totalSteps
      · cases hv : validateCurrentStep d s
        · simpa [hlt] using hne
        · simp only [hlt, if_true, Bool.not_true, Bool.false_eq_true, if_false, hnav.1]
          omega
      · simpa [hlt] using hne
    · simpa using hne

/-- Witness for C2: the example session on steps 2 and 6. -/
theorem nextStep_cases_witness :
    ((nextStep domValido (sesion 2)).currentStep = 2 + 1 ∧
      (nextStep domValido (sesion 2)).isSubmitting = false) ∧
    nextStep domInvalido (sesion 2) = sesion 2 ∧
    ((nextStep domValido (sesion 6)).isSubmitting = true ∧
      (nextStep domValido (sesion 6)).currentStep = 6) ∧
    nextStep domValido (nextStep domValido (sesion 6)) = nextStep domValido (sesion 6) ∧
    (nextStep domValido (sesion 6)).currentStep ≠ 6 + 1 :=
  ⟨(nextStep_cases domValido (sesion 2)).2.1 rfl (by decide) rfl,
   (nextStep_cases domInvalido (sesion 2)).2.2.1 rfl (by decide) rfl,
   (nextStep_cases domValido (sesion 6)).2.2.2.1 rfl (by decide),
   (nextStep_cases domValido (nextStep domValido (sesion 6))).1 (by decide),
   (nextStep_cases domValido (sesion 6)).2.2.2.2.2 (by decide)⟩

/-- C3. `previousStep`: above step 1 the step becomes `currentStep - 1`, whatever
the document says about the current step and whatever the flag `isSubmitting` is;
on step 1 the state is unchanged. -/
theorem previousStep_cases (d : Dom V) (s : Estado V) :
    (s.currentStep > 1 → (previousStep d s).currentStep = s.currentStep - 1) ∧
    (s.currentStep = 1 → previousStep d s = s) := by
  constructor
  · intro h
    simp only [previousStep, h, if_true]
    exact (navigateToStep_frame d s _).1
  · intro h
    simp [previousStep, h]

/-- Witness for C3: the example session on step 4 with an invalid document, and on
step 1. -/
theorem previousStep_cases_witness :
    (previousStep domInvalido (sesion 4)).currentStep = 4 - 1 ∧
    previousStep domValido (sesion 1) = sesion 1 :=
  ⟨(previousStep_cases domInvalido (sesion 4)).1 (by decide),
   (previousStep_cases domValido (sesion 1)).2 rfl⟩

/-- C4. Step-range invariant: when `1 ≤ currentStep ≤ totalSteps` and the sidebar
has exactly `totalSteps` items, the same holds after any sequence of `nextStep`,
`previousStep` and sidebar clicks, each with any document (any validation result),
interleaved at will with auto-save ticks and settling saves; `totalSteps` itself
never changes. -/
theorem ejecutar_rango (as : List (Accion V)) (s : Estado V)
    (h1 : 1 ≤ s.currentStep) (h2 : s.currentStep ≤ s.totalSteps)
    (h3 : (s.stepItems : Int) = s.totalSteps) :
    1 ≤ (ejecutar s as).currentStep ∧
    (ejecutar s as).currentStep ≤ (ejecutar s as).totalSteps ∧
    ((ejecutar s as).stepItems : Int) = (ejecutar s as).totalSteps ∧
    (ejecutar s as).totalSteps = s.totalSteps := by
  induction as generalizing s with
  | nil => exact ⟨h1, h2, h3, rfl⟩
  | cons a as ih =>
    obtain ⟨hc, hT, hI⟩ := aplicar_paso s a
    have h1' : 1 ≤ (a.aplicar s).currentStep := by omega
    have h2' : (a.aplicar s).currentStep ≤ (a.aplicar s).totalSteps := by
      rw [hT]; omega
    have h3' : ((a.aplicar s).stepItems : Int) = (a.aplicar s).totalSteps := by
      rw [hT, hI]; exact h3
    have := ih (a.aplicar s) h1' h2' h3'
    simp only [ejecutar, List.foldl_cons] at this ⊢
    exact ⟨this.1, this.2.1, this.2.2.1, this.2.2.2.trans hT⟩

/-- Witness for C4: from step 5 of the example session, two presses of next (the
second completes), a click on the last item, a press of previous, a click on the
first item and a click on the item of step 3 with an invalid document. -/
theorem ejecutar_rango_witness :
    1 ≤ (ejecutar (sesion 5) [Accion.next domValido, Accion.next domValido,
      Accion.click domValido 5, Accion.previous domInvalido,
      Accion.click domValido 0, Accion.click domInvalido 2]).currentStep ∧
    (ejecutar (sesion 5) [Accion.next domValido, Accion.next domValido,
      Accion.click domValido 5, Accion.previous domInvalido,
      Accion.click domValido 0, Accion.click domInvalido 2]).currentStep ≤ 6 :=
  have h := ejecutar_rango [Accion.next domValido, Accion.next domValido,
      Accion.click domValido 5, Accion.previous domInvalido,
      Accion.click domValido 0, Accion.click domInvalido 2] (sesion 5)
      (by decide) (by decide) (by decide)
  ⟨h.1, h.2.1.trans (le_of_eq h.2.2.2)⟩

/-- No event clears the flag `isSubmitting`. -/
theorem aplicar_isSubmitting (s : Estado V) (a : Accion V) (h : s.isSubmitting = true) :
    (a.aplicar s).isSubmitting = true := by
  cases a with
  | next d => simp [Accion.aplicar, nextStep, h]
  | previous d =>
    have hnav := navigateToStep_frame d s (s.currentStep - 1)
    by_cases hgt : s.currentStep > 1
    · simp [Accion.aplicar, previousStep, hgt, hnav.2.2.2.1, h]
    · simp [Accion.aplicar, previousStep, hgt, h]
  | click d index =>
    have hnav := navigateToStep_frame d s ((index : Int) + 1)
    simp only [Accion.aplicar, sidebarClick, stepItemClick]
    repeat' split
    all_goals first | exact h | exact hnav.2.2.2.1.trans h
  | tick d =>
    have hsave := saveCurrentStep_frame d s
    simp only [Accion.aplicar, autoSave]
    split
    · exact hsave.2.2.2.1.trans h
    · exact h
  | settle l =>
    exact (saveCurrentStep_settle_frame s l).2.2.2.1.trans h

/-- C5 as stated fails: after the completion of the example session on step 6 the
flag is set, yet `previousStep` moves to step 5 and a click on the second sidebar
item moves to step 2. -/
theorem completed_not_terminal :
    (nextStep domValido (sesion 6)).isSubmitting = true ∧
    (nextStep domValido (sesion 6)).currentStep = 6 ∧
    (previousStep domValido (nextStep domValido (sesion 6))).currentStep = 5 ∧
    (sidebarClick domValido (nextStep domValido (sesion 6)) 1).currentStep = 2 := by
  decide

/-- C5, amended. Once `isSubmitting` is true it stays true under every event and
`nextStep` changes nothing any more.  `previousStep` and the sidebar clicks do not
read the flag: above step 1 `previousStep` still moves one step back, and a click on
an existing earlier item still moves there. -/
theorem isSubmitting_guards_nextStep_only (d : Dom V) (s : Estado V)
    (h : s.isSubmitting = true) :
    nextStep d s = s ∧
    (∀ a : Accion V, (a.aplicar s).isSubmitting = true) ∧
    (s.currentStep > 1 → (previousStep d s).currentStep = s.currentStep - 1) ∧
    (∀ index : Nat, index < s.stepItems → (index : Int) + 1 < s.currentStep →
      (sidebarClick d s index).currentStep = (index : Int) + 1) := by
  refine ⟨by simp [nextStep, h], fun a => aplicar_isSubmitting s a h, ?_, ?_⟩
  · intro hgt
    simp only [previousStep, hgt, if_true]
    exact (navigateToStep_frame d s _).1
  · intro index hi hlt
    have hne : ¬ ((index : Int) + 1 = s.currentStep) := by omega
    simp only [sidebarClick, stepItemClick, hi, hne, hlt, if_true, if_false]
    exact (navigateToStep_frame d s _).1

/-- Witness for C5, amended: the example session after its completion on step 6. -/
theorem isSubmitting_guards_nextStep_only_witness :
    nextStep domInvalido (nextStep domValido (sesion 6)) = nextStep domValido (sesion 6) ∧
    (previousStep domInvalido (nextStep domValido (sesion 6))).currentStep = 6 - 1 ∧
    (sidebarClick domInvalido (nextStep domValido (sesion 6)) 2).currentStep = 2 + 1 :=
  have h := isSubmitting_guards_nextStep_only domInvalido (nextStep domValido (sesion 6))
    (by decide)
  ⟨h.1, h.2.2.1 (by decide), h.2.2.2 2 (by decide) (by decide)⟩

/-! ## Persistence -/

/-- C6. Persist-then-move.  `_navigateToStep(step)` ends on `step`.  When
`step > currentStep` the save indicator and the requests are exactly those left by
`saveCurrentStep` run on the state before the assignment; with a client id and a
step other than 6 that is one new request whose `paso` is the step being left and
whose `datos` is the payload of that step.  When `step ≤ currentStep` nothing is
saved.  Whatever request the navigation issues, it is issued on an advance, it
carries the step being left and its payload, and never the target step. -/
theorem navigateToStep_persist_then_move (d : Dom V) (s : Estado V) (step : Int) :
    (_navigateToStep d s step).currentStep = step ∧
    (step > s.currentStep →
      (_navigateToStep d s step).requests = (saveCurrentStep d s).requests ∧
      (_navigateToStep d s step).saveStatus = (saveCurrentStep d s).saveStatus) ∧
    (step > s.currentStep → ∀ c, s.clienteId = some c → s.currentStep ≠ 6 →
      (_navigateToStep d s step).requests =
        s.requests ++ [⟨c, s.currentStep, d.extrae s.currentStep⟩]) ∧
    (step ≤ s.currentStep →
      (_navigateToStep d s step).requests = s.requests ∧
      (_navigateToStep d s step).saveStatus = s.saveStatus) ∧
    (∀ r, (_navigateToStep d s step).requests = s.requests ++ [r] →
      step > s.currentStep ∧ r.paso = s.currentStep ∧
      r.datos = d.extrae s.currentStep ∧ r.paso ≠ step) := by
  refine ⟨(navigateToStep_frame d s step).1, ?_, ?_, ?_, ?_⟩
  · intro hgt
    simp [_navigateToStep, hgt]
  · intro hgt c hc h6
    simp only [_navigateToStep, hgt, if_true, saveCurrentStep, hc, h6, if_false,
      updateSaveStatus, getCurrentStepData]
    cases hE : s.statusElems <;> simp
  · intro hle
    have hgt : ¬ (step > s.currentStep) := by omega
    simp [_navigateToStep, hgt]
  · intro r hr
    by_cases hgt : step > s.currentStep
    · cases hc : s.clienteId with
      | none => simp [_navigateToStep, hgt, saveCurrentStep, hc] at hr
      | some c =>
        by_cases h6 : s.currentStep = 6
        · simp [_navigateToStep, hgt, saveCurrentStep, hc, h6] at hr
        · have hr2 : r = ⟨c, s.currentStep, d.extrae s.currentStep⟩ := by
            cases hE : s.statusElems <;>
              simpa [_navigateToStep, hgt, saveCurrentStep, hc, h6, updateSaveStatus,
                getCurrentStepData, hE, eq_comm] using hr
          subst hr2
          exact ⟨hgt, rfl, rfl, by simp only; omega⟩
    · simp [_navigateToStep, hgt] at hr

/-- Witness for C6: an advance from step 2 to step 3 of the example session, and a
return from step 3 to step 1. -/
theorem navigateToStep_persist_then_move_witness :
    (_navigateToStep domValido (sesion 2) 3).requests = [] ++ [⟨"c1", 2, 20⟩] ∧
    (_navigateToStep domValido (sesion 3) 1).requests = [] :=
  ⟨(navigateToStep_persist_then_move domValido (sesion 2) 3).2.2.1 (by decide) "c1" rfl
      (by decide),
   ((navigateToStep_persist_then_move domValido (sesion 3) 1).2.2.2.1 (by decide)).1⟩

/-- C7. A failing save neither blocks nor undoes a navigation, and it writes no
data.  `_navigateToStep` lands on the target, and the step stays there however the
save settles.  A reply that is not ok, arriving in any state `t`, sets the save
indicator (when the page has one) to error, makes `saveCurrentStep` reject with the
server's `mensaje`, or with the default text when `mensaje` is absent or empty, and
leaves `datosFormulario` as it was. -/
theorem save_failure_non_fatal (d : Dom V) (s : Estado V) (step : Int) (l : Llegada V)
    (t : Estado V) (r : Respuesta V) (hr : r.ok = false) :
    (_navigateToStep d s step).currentStep = step ∧
    (saveCurrentStep_settle (_navigateToStep d s step) l).1.currentStep = step ∧
    (t.statusElems = true →
      (saveCurrentStep_settle t (Llegada.respuesta r)).1.saveStatus
        = some SaveStatus.error) ∧
    (saveCurrentStep_settle t (Llegada.respuesta r)).2 = Except.error (mensajeError r) ∧
    (∀ m, r.mensaje = some m → m ≠ "" → mensajeError r = m) ∧
    ((r.mensaje = none ∨ r.mensaje = some "") → mensajeError r = "Error al guardar") ∧
    (saveCurrentStep_settle t (Llegada.respuesta r)).1.datosFormulario
      = t.datosFormulario ∧
    (saveCurrentStep_settle t (Llegada.respuesta r)).1.currentStep = t.currentStep := by
  have hnav := (navigateToStep_frame d s step).1
  refine ⟨hnav, ?_, ?_, ?_, ?_, ?_, ?_, ?_⟩
  · rw [(saveCurrentStep_settle_frame _ l).1, hnav]
  · intro hE
    simp [saveCurrentStep_settle, hr, updateSaveStatus, hE]
  · simp [saveCurrentStep_settle, hr]
  · intro m hm hne
    simp [mensajeError, hm, hne]
  · intro hm
    rcases hm with hm | hm <;> simp [mensajeError, hm]
  · cases hE : t.statusElems <;> simp [saveCurrentStep_settle, hr, updateSaveStatus, hE]
  · exact (saveCurrentStep_settle_frame t _).1

/-- Witness for C7: the example session advances from step 2 to step 3 and the save
comes back not ok with the message `Fallo`. -/
theorem save_failure_non_fatal_witness :
    (saveCurrentStep_settle (_navigateToStep domValido (sesion 2) 3)
      (Llegada.respuesta (respuestaError (some "Fallo")))).1.currentStep = 3 ∧
    (saveCurrentStep_settle (_navigateToStep domValido (sesion 2) 3)
      (Llegada.respuesta (respuestaError (some "Fallo")))).1.saveStatus
        = some SaveStatus.error ∧
    (saveCurrentStep_settle (_navigateToStep domValido (sesion 2) 3)
      (Llegada.respuesta (respuestaError (some "Fallo")))).2
        = Except.error (mensajeError (respuestaError (some "Fallo"))) ∧
    mensajeError (respuestaError (some "Fallo")) = "Fallo" ∧
    (saveCurrentStep_settle (_navigateToStep domValido (sesion 2) 3)
      (Llegada.respuesta (respuestaError (some "Fallo")))).1.datosFormulario
        = (_navigateToStep domValido (sesion 2) 3).datosFormulario :=
  have h := save_failure_non_fatal domValido (sesion 2) 3
    (Llegada.respuesta (respuestaError (some "Fallo")))
    (_navigateToStep domValido (sesion 2) 3) (respuestaError (some "Fallo")) rfl
  ⟨h.2.1, h.2.2.1 rfl, h.2.2.2.1, h.2.2.2.2.1 "Fallo" rfl (by decide), h.2.2.2.2.2.2.1⟩

/-- Reading a key of the result of the six guarded assignments. -/
theorem mergeActualizada_leer (df act : DatosFormulario V) (k : Clave) :
    (mergeActualizada df act).leer k =
      match act.leer k with
      | some v => some v
      | none => df.leer k := by
  obtain ⟨a1, a2, a3, a4, a5, a6⟩ := act
  cases k <;> cases a1 <;> cases a2 <;> cases a3 <;> cases a4 <;> cases a5 <;> cases a6 <;>
    rfl

/-- Reading a key of the shared form data after a reply that is ok. -/
theorem settle_ok_dato (s : Estado V) (r : Respuesta V) (hr : r.ok = true) (k : Clave) :
    (saveCurrentStep_settle s (Llegada.respuesta r)).1.dato k =
      match r.actualizada k with
      | some v => some v
      | none => s.dato k := by
  have hdf : ∀ t : Estado V, (updateSaveStatus t SaveStatus.saved).datosFormulario
      = t.datosFormulario := by
    intro t
    cases hE : t.statusElems <;> simp [updateSaveStatus, hE]
  simp only [saveCurrentStep_settle, hr, Bool.not_true, Bool.false_eq_true, if_false,
    Estado.dato, Respuesta.actualizada, hdf]
  cases hf : s.datosFormulario <;> cases ha : r.formulario_data_actualizada <;>
    simp only [mergeActualizada_leer] <;> cases k <;> simp [DatosFormulario.vacio,
      DatosFormulario.leer]

/-- C8. Merge, not replace.  After a reply `r` that is ok, each of the six step keys
of the shared form data holds the value the reply carries for it when the reply has
the key, and its prior value otherwise.  Hence after `r1` and then `r2`, a key absent
from `r2` still holds what it held after `r1`, which is the value written by `r1`
when `r1` carried the key. -/
theorem merge_not_replace (s : Estado V) (r1 r2 : Respuesta V)
    (h1 : r1.ok = true) (h2 : r2.ok = true) (k : Clave) :
    ((saveCurrentStep_settle s (Llegada.respuesta r1)).1.dato k =
      match r1.actualizada k with
      | some v => some v
      | none => s.dato k) ∧
    (r2.actualizada k = none →
      (saveCurrentStep_settle (saveCurrentStep_settle s (Llegada.respuesta r1)).1
          (Llegada.respuesta r2)).1.dato k
        = (saveCurrentStep_settle s (Llegada.respuesta r1)).1.dato k) ∧
    (r2.actualizada k = none → ∀ v, r1.actualizada k = some v →
      (saveCurrentStep_settle (saveCurrentStep_settle s (Llegada.respuesta r1)).1
          (Llegada.respuesta r2)).1.dato k = some v) := by
  have e1 := settle_ok_dato s r1 h1 k
  have e2 := settle_ok_dato (saveCurrentStep_settle s (Llegada.respuesta r1)).1 r2 h2 k
  refine ⟨e1, ?_, ?_⟩
  · intro hk
    rw [e2, hk]
  · intro hk v hv
    rw [e2, hk]
    simp only
    rw [e1, hv]

/-- Witness for C8: a first reply writes steps 1 and 2, a second one writes step 2
only; the value of step 1 written by the first survives. -/
theorem merge_not_replace_witness :
    (saveCurrentStep_settle (saveCurrentStep_settle (sesion 2)
        (Llegada.respuesta (respuestaOk ⟨some 11, some 12, none, none, none, none⟩))).1
      (Llegada.respuesta (respuestaOk ⟨none, some 22, none, none, none, none⟩))).1.dato
        Clave.datos_empresa = some 11 :=
  (merge_not_replace (sesion 2) (respuestaOk ⟨some 11, some 12, none, none, none, none⟩)
    (respuestaOk ⟨none, some 22, none, none, none, none⟩) rfl rfl
    Clave.datos_empresa).2.2 rfl 11 rfl

/-- C9. A tick of `autoSave` changes neither `currentStep` nor `isSubmitting`, and
neither does the settling of the save it started.  It issues a request (exactly
one, for the current step) iff the current step validates, a client id is set and
the current step is not 6; otherwise the requests are unchanged.  `saveCurrentStep`
changes nothing at all without a client id or on step 6. -/
theorem autoSave_tick (d : Dom V) (s : Estado V) (l : Llegada V) :
    (autoSave d s).currentStep = s.currentStep ∧
    (autoSave d s).isSubmitting = s.isSubmitting ∧
    (saveCurrentStep_settle (autoSave d s) l).1.currentStep = s.currentStep ∧
    (saveCurrentStep_settle (autoSave d s) l).1.isSubmitting = s.isSubmitting ∧
    ((∃ r, (autoSave d s).requests = s.requests ++ [r]) ↔
      (validateCurrentStep d s = true ∧ s.clienteId ≠ none ∧ s.currentStep ≠ 6)) ∧
    (∀ c, validateCurrentStep d s = true → s.clienteId = some c → s.currentStep ≠ 6 →
      (autoSave d s).requests = s.requests ++ [⟨c, s.currentStep, d.extrae s.currentStep⟩]) ∧
    (¬ (validateCurrentStep d s = true ∧ s.clienteId ≠ none ∧ s.currentStep ≠ 6) →
      (autoSave d s).requests = s.requests) ∧
    (s.clienteId = none → saveCurrentStep d s = s) ∧
    (s.currentStep = 6 → saveCurrentStep d s = s) := by
  have hsave := saveCurrentStep_frame d s
  have hcur : (autoSave d s).currentStep = s.currentStep := by
    unfold autoSave; split
    · exact hsave.1
    · rfl
  have hsub : (autoSave d s).isSubmitting = s.isSubmitting := by
    unfold autoSave; split
    · exact hsave.2.2.2.1
    · rfl
  have hreq : ∀ c, s.clienteId = some c → s.currentStep ≠ 6 →
      (saveCurrentStep d s).requests
        = s.requests ++ [⟨c, s.currentStep, d.extrae s.currentStep⟩] := by
    intro c hc h6
    cases hE : s.statusElems <;>
      simp [saveCurrentStep, hc, h6, updateSaveStatus, getCurrentStepData, hE]
  have hnone : s.clienteId = none → saveCurrentStep d s = s := by
    intro hc
    simp [saveCurrentStep, hc]
  have hseis : s.currentStep = 6 → saveCurrentStep d s = s := by
    intro h6
    cases hc : s.clienteId <;> simp [saveCurrentStep, hc, h6]
  have hno : ¬ (validateCurrentStep d s = true ∧ s.clienteId ≠ none ∧ s.currentStep ≠ 6) →
      (autoSave d s).requests = s.requests := by
    intro hn
    cases hv : validateCurrentStep d s
    · simp [autoSave, hv]
    · cases hc : s.clienteId with
      | none => simp [autoSave, hv, hnone hc]
      | some c =>
        have h6 : s.currentStep = 6 := by
          by_contra h6
          exact hn ⟨hv, by simp [hc], h6⟩
        simp [autoSave, hv, hseis h6]
  refine ⟨hcur, hsub, ?_, ?_, ?_, ?_, hno, hnone, hseis⟩
  · rw [(saveCurrentStep_settle_frame _ l).1, hcur]
  · rw [(saveCurrentStep_settle_frame _ l).2.2.2.1, hsub]
  · constructor
    · rintro ⟨r, hr⟩
      by_contra hn
      rw [hno hn] at hr
      simp at hr
    · rintro ⟨hv, hc, h6⟩
      obtain ⟨c, hc⟩ := Option.ne_none_iff_exists'.mp hc
      exact ⟨_, by simpa [autoSave, hv] using hreq c hc h6⟩
  · intro c hv hc h6
    simpa [autoSave, hv] using hreq c hc h6

/-- Witness for C9: ticks on step 2 of the example session with a valid and with an
invalid document, and a save attempted on step 6. -/
theorem autoSave_tick_witness :
    (autoSave domValido (sesion 2)).requests = [] ++ [⟨"c1", 2, 20⟩] ∧
    (autoSave domInvalido (sesion 2)).requests = [] ∧
    saveCurrentStep domValido (sesion 6) = sesion 6 :=
  ⟨(autoSave_tick domValido (sesion 2) (Llegada.rechazo "")).2.2.2.2.2.1 "c1" rfl rfl
      (by decide),
   (autoSave_tick domInvalido (sesion 2) (Llegada.rechazo "")).2.2.2.2.2.2.1
      (by decide),
   (autoSave_tick domValido (sesion 6) (Llegada.rechazo "")).2.2.2.2.2.2.2.2 rfl⟩

end FormularioCliente

/-! ## Identity documents -/

namespace FormValidator

/-- A decimal digit character denotes a number up to 9. -/
theorem digito_le (c : Char) (h : c.isDigit = true) : digito c ≤ 9 := by
  simp [Char.isDigit, digito] at *
  have := h.2
  have h2 : c.val.toNat ≤ 57 := by exact_mod_cast this
  simp [Char.toNat]
  omega

/-- Reading one more digit on the right. -/
theorem valorDecimal_snoc (l : List Char) (x : Char) :
    valorDecimal (l ++ [x]) = 10 * valorDecimal l + digito x := by
  simp [valorDecimal, digito, List.foldl_append]

/-- The positional sum with one more digit on the right. -/
theorem numeroEscrito_snoc (l : List Char) (x : Char) :
    numeroEscrito (l ++ [x]) = digito x + 10 * numeroEscrito l := by
  simp [numeroEscrito, Nat.ofDigits_cons]

/-- The left-to-right reading of a digit string is the number it writes. -/
theorem valorDecimal_eq (b : List Char) : valorDecimal b = numeroEscrito b := by
  induction b using List.reverseRecOn with
  | nil => simp [valorDecimal, numeroEscrito]
  | append_singleton l x ih => rw [valorDecimal_snoc, numeroEscrito_snoc, ih]; omega

/-- A string of `n` digits reads as a number below `10 ^ n`. -/
theorem valorDecimal_lt (b : List Char) (h : ∀ x ∈ b, x.isDigit = true) :
    valorDecimal b < 10 ^ b.length := by
  induction b using List.reverseRecOn with
  | nil => simp [valorDecimal]
  | append_singleton l x ih =>
    have hx := digito_le x (h x (by simp))
    have hl := ih (fun y hy => h y (by simp [hy]))
    rw [valorDecimal_snoc, List.length_append, List.length_singleton, pow_succ]
    omega

/-- The first eight characters of an eight-character body followed by a letter. -/
theorem substring_cuerpo (b : List Char) (c : Char) (hlen : b.length = 8) :
    substring (b ++ [c]) 0 8 = b := by
  have : List.take 8 (b ++ [c]) = b := by
    rw [← hlen]; exact List.take_left' rfl
  simp [substring, hlen, this]

/-- The character after an eight-character body. -/
theorem charAt_letra (b : List Char) (c : Char) (hlen : b.length = 8) :
    charAt (b ++ [c]) 8 = [c] := by
  have : (b ++ [c]).get? 8 = some c := by
    rw [← hlen]; simp
  unfold charAt
  rw [this]

/-- An eight-digit body converts to the number it writes. -/
theorem toNumber_cuerpo (b : List Char) (hlen : b.length = 8)
    (hdig : ∀ x ∈ b, x.isDigit = true) : toNumber b = some (numeroEscrito b) := by
  have hlt := valorDecimal_lt b hdig
  rw [hlen] at hlt
  have hall : b.all Char.isDigit = true := by simpa [List.all_eq_true] using hdig
  have hle : valorDecimal b ≤ 2 ^ 53 := by
    have : (10 : Nat) ^ 8 ≤ 2 ^ 53 := by norm_num
    omega
  unfold toNumber
  have hcond : (b.all Char.isDigit && decide (valorDecimal b ≤ 2 ^ 53)) = true := by
    rw [hall, decide_eq_true hle]; rfl
  rw [if_pos hcond, valorDecimal_eq]

/-- Comparing `letters.charAt(n)` with a one-character string. -/
theorem charAt_letters (n : Nat) (c : Char) :
    charAt letters n = [c] ↔ letters.get? n = some c := by
  unfold charAt
  cases h : letters.get? n <;> simp

/-- The value of `validateNIF` on eight digits followed by one character. -/
theorem validateNIF_cuerpo (b : List Char) (c : Char) (hlen : b.length = 8)
    (hdig : ∀ x ∈ b, x.isDigit = true) :
    validateNIF (b ++ [c])
      = some (decide (letters.get? (numeroEscrito b % 23) = some c)) := by
  simp only [validateNIF, substring_cuerpo b c hlen, charAt_letra b c hlen,
    toNumber_cuerpo b hlen hdig, charAt_letters]

/-- Every index below 23 of the table holds an upper-case letter. -/
theorem letters_get (n : Nat) (h : n < 23) :
    ∃ x, letters.get? n = some x ∧ x.isUpper = true := by
  interval_cases n <;> exact ⟨_, rfl, by decide⟩

/-- C10. For eight digits `b` and a character `c` (an upper-case letter in
particular), `validateNIF(b + c)` is true iff `c` is the entry of the 23-letter table
at index `b mod 23`, where `b` is read as a decimal number, and false otherwise.
Exactly one character is accepted for each body, and it is an upper-case letter.
`12345678 mod 23 = 14`, entry 14 is `Z`, `12345678Z` is accepted and `12345678`
followed by anything else is rejected. -/
theorem validateNIF_control_letter (b : List Char) (c : Char) (hlen : b.length = 8)
    (hdig : ∀ x ∈ b, x.isDigit = true) :
    (validateNIF (b ++ [c]) = some true ↔
      letters.get? (numeroEscrito b % 23) = some c) ∧
    (validateNIF (b ++ [c]) = some false ↔
      letters.get? (numeroEscrito b % 23) ≠ some c) ∧
    (∃! x : Char, validateNIF (b ++ [x]) = some true) ∧
    (∀ x : Char, validateNIF (b ++ [x]) = some true → x.isUpper = true) ∧
    letters.length = 23 ∧
    numeroEscrito ['1', '2', '3', '4', '5', '6', '7', '8'] % 23 = 14 ∧
    letters.get? 14 = some 'Z' ∧
    validateNIF ['1', '2', '3', '4', '5', '6', '7', '8', 'Z'] = some true ∧
    (∀ x : Char, x ≠ 'Z' →
      validateNIF (['1', '2', '3', '4', '5', '6', '7', '8'] ++ [x]) = some false) := by
  have hgen := fun x => validateNIF_cuerpo b x hlen hdig
  obtain ⟨l, hl, hup⟩ := letters_get (numeroEscrito b % 23) (Nat.mod_lt _ (by norm_num))
  refine ⟨?_, ?_, ?_, ?_, rfl, by decide, rfl, by decide, ?_⟩
  · rw [hgen c]; simp
  · rw [hgen c]; simp
  · refine ⟨l, ?_, ?_⟩
    · simp only; rw [hgen l, hl]; simp
    · intro y hy
      rw [hgen y, hl] at hy
      simpa [eq_comm] using hy
  · intro x hx
    rw [hgen x, hl] at hx
    have : l = x := by simpa using hx
    exact this ▸ hup
  · intro x hx
    have h8 : validateNIF (['1', '2', '3', '4', '5', '6', '7', '8'] ++ [x])
        = some (decide (letters.get? (numeroEscrito ['1', '2', '3', '4', '5', '6', '7', '8'] % 23)
            = some x)) :=
      validateNIF_cuerpo _ x rfl (by decide)
    have h14 : numeroEscrito ['1', '2', '3', '4', '5', '6', '7', '8'] % 23 = 14 := by decide
    rw [h8, h14]
    have : letters.get? 14 = some 'Z' := rfl
    rw [this]
    simp [Ne.symm hx]

/-- Witness for C10: the body `00000023` with the letter `T` (index 0), and
`12345678A`. -/
theorem validateNIF_control_letter_witness :
    (validateNIF (['0', '0', '0', '0', '0', '0', '2', '3'] ++ ['T']) = some true ↔
      letters.get? (numeroEscrito ['0', '0', '0', '0', '0', '0', '2', '3'] % 23) = some 'T') ∧
    validateNIF (['1', '2', '3', '4', '5', '6', '7', '8'] ++ ['A']) = some false :=
  ⟨(validateNIF_control_letter ['0', '0', '0', '0', '0', '0', '2', '3'] 'T' rfl
      (by decide)).1,
   (validateNIF_control_letter ['0', '0', '0', '0', '0', '0', '2', '3'] 'T' rfl
      (by decide)).2.2.2.2.2.2.2.2 'A' (by decide)⟩

end FormValidator

/-! ## Correctness of the matcher -/

namespace RegExp

/-- An expression is nullable exactly when it matches the empty string. -/
theorem anulable_iff (r : Re) : r.anulable = true ↔ r.Acepta [] := by
  induction r with
  | nada => simp [Re.anulable, Re.Acepta]
  | eps => simp [Re.anulable, Re.Acepta]
  | clase p => simp [Re.anulable, Re.Acepta]
  | seq a b iha ihb =>
    simp only [Re.anulable, Re.Acepta, Bool.and_eq_true, iha, ihb]
    constructor
    · rintro ⟨ha, hb⟩
      exact ⟨[], [], rfl, ha, hb⟩
    · rintro ⟨x, y, hxy, ha, hb⟩
      have hx : x = [] := by
        cases x with
        | nil => rfl
        | cons c t => simp at hxy
      have hy : y = [] := by
        subst hx
        simpa using hxy.symm
      subst hx; subst hy
      exact ⟨ha, hb⟩
  | alt a b iha ihb => simp [Re.anulable, Re.Acepta, iha, ihb]
  | estrella a _ =>
    simp only [Re.anulable, Re.Acepta, true_iff]
    exact ⟨[], rfl, by simp⟩

/-- A non-empty match of a starred expression starts with a non-empty match of its
body. -/
theorem estrella_cons (a : Re) (c : Char) (s : List Char) :
    (Re.estrella a).Acepta (c :: s) ↔
      ∃ x y, s = x ++ y ∧ a.Acepta (c :: x) ∧ (Re.estrella a).Acepta y := by
  constructor
  · rintro ⟨ws, hws, hall⟩
    induction ws with
    | nil => simp at hws
    | cons w ws ih =>
      cases w with
      | nil =>
        exact ih (by simpa using hws) (fun w hw => hall w (by simp [hw]))
      | cons d x =>
        simp only [List.flatten_cons, List.cons_append, List.cons.injEq] at hws
        obtain ⟨hd, hs⟩ := hws
        subst hd
        exact ⟨x, ws.flatten, hs, hall _ (by simp), ws, rfl, fun w hw => hall w (by simp [hw])⟩
  · rintro ⟨x, y, hs, hx, ws, hy, hall⟩
    refine ⟨(c :: x) :: ws, by simp [hs, hy], ?_⟩
    intro w hw
    rcases List.mem_cons.mp hw with h | h
    · exact h ▸ hx
    · exact hall w h

/-- The derivative matches the rest of the strings that start with the character. -/
theorem derivada_iff (r : Re) (c : Char) (s : List Char) :
    (r.derivada c).Acepta s ↔ r.Acepta (c :: s) := by
  induction r generalizing s with
  | nada => simp [Re.derivada, Re.Acepta]
  | eps => simp [Re.derivada, Re.Acepta]
  | clase p =>
    by_cases hp : p c = true
    · simp only [Re.derivada, hp, if_true, Re.Acepta]
      constructor
      · rintro rfl; exact ⟨c, rfl, hp⟩
      · rintro ⟨d, hd, _⟩
        simp only [List.cons.injEq] at hd
        exact hd.2
    · simp only [Re.derivada, hp, Re.Acepta, if_false, Bool.false_eq_true, false_iff]
      rintro ⟨d, hd, hpd⟩
      simp only [List.cons.injEq] at hd
      exact hp (hd.1 ▸ hpd)
  | seq a b iha ihb =>
    have key : (Re.seq a b).Acepta (c :: s) ↔
        (∃ x y, s = x ++ y ∧ a.Acepta (c :: x) ∧ b.Acepta y) ∨
        (a.Acepta [] ∧ b.Acepta (c :: s)) := by
      constructor
      · rintro ⟨x, y, hxy, ha, hb⟩
        cases x with
        | nil => exact Or.inr ⟨ha, by simpa using hxy ▸ hb⟩
        | cons d x =>
          simp only [List.cons_append, List.cons.injEq] at hxy
          exact Or.inl ⟨x, y, hxy.2, hxy.1 ▸ ha, hb⟩
      · rintro (⟨x, y, hs, ha, hb⟩ | ⟨ha, hb⟩)
        · exact ⟨c :: x, y, by simp [hs], ha, hb⟩
        · exact ⟨[], c :: s, rfl, ha, hb⟩
    rw [key]
    by_cases hn : a.anulable = true
    · simp only [Re.derivada, hn, if_true, Re.Acepta, iha, ihb]
      have := (anulable_iff a).mp hn
      simp [this]
    · simp only [Re.derivada, hn, if_false, Bool.false_eq_true, Re.Acepta, iha]
      have : ¬ a.Acepta [] := fun h => hn ((anulable_iff a).mpr h)
      simp [this]
  | alt a b iha ihb => simp [Re.derivada, Re.Acepta, iha, ihb]
  | estrella a iha =>
    rw [estrella_cons]
    simp only [Re.derivada, Re.Acepta, iha]

/-- The matcher decides the language of the expression. -/
theorem test_iff (r : Re) (s : List Char) : r.test s = true ↔ r.Acepta s := by
  induction s generalizing r with
  | nil => simpa [Re.test] using anulable_iff r
  | cons c s ih =>
    have := ih (r.derivada c)
    simp only [Re.test, List.foldl_cons] at this ⊢
    rw [this, derivada_iff]

/-- The strings matched by a concatenation. -/
theorem acepta_seq (a b : Re) (s : List Char) :
    (Re.seq a b).Acepta s ↔ ∃ x y, s = x ++ y ∧ a.Acepta x ∧ b.Acepta y := Iff.rfl

/-- The strings matched by an alternative. -/
theorem acepta_alt (a b : Re) (s : List Char) :
    (Re.alt a b).Acepta s ↔ a.Acepta s ∨ b.Acepta s := Iff.rfl

/-- The strings matched by an optional expression. -/
theorem acepta_opc (a : Re) (s : List Char) :
    (Re.opc a).Acepta s ↔ a.Acepta s ∨ s = [] := Iff.rfl

/-- The strings matched by a character class. -/
theorem acepta_clase (p : Char → Bool) (s : List Char) :
    (Re.clase p).Acepta s ↔ ∃ c, s = [c] ∧ p c = true := Iff.rfl

/-- A character class followed by an expression. -/
theorem acepta_clase_seq (p : Char → Bool) (r : Re) (s : List Char) :
    (Re.seq (.clase p) r).Acepta s ↔ ∃ c t, s = c :: t ∧ p c = true ∧ r.Acepta t := by
  simp only [Re.Acepta]
  constructor
  · rintro ⟨x, y, rfl, ⟨c, rfl, hc⟩, hy⟩
    exact ⟨c, y, rfl, hc, hy⟩
  · rintro ⟨c, t, rfl, hc, ht⟩
    exact ⟨[c], t, rfl, ⟨c, rfl, hc⟩, ht⟩

/-- The string matched by a literal character. -/
theorem acepta_car (c : Char) (s : List Char) : (Re.car c).Acepta s ↔ s = [c] := by
  simp only [Re.car, Re.Acepta, beq_iff_eq]
  constructor
  · rintro ⟨d, hd, rfl⟩; exact hd
  · intro h; exact ⟨c, h, rfl⟩

/-- The string matched by a literal string. -/
theorem acepta_lit (w s : List Char) : (Re.lit w).Acepta s ↔ s = w := by
  induction w generalizing s with
  | nil => simp [Re.lit, Re.Acepta]
  | cons c w ih =>
    simp only [Re.lit, Re.car, acepta_clase_seq, ih, beq_iff_eq]
    constructor
    · rintro ⟨d, t, rfl, rfl, rfl⟩; rfl
    · rintro rfl; exact ⟨c, w, rfl, rfl, rfl⟩

/-- A class repeated `n` times matches the strings of `n` characters of the class. -/
theorem acepta_rep_clase (p : Char → Bool) (n : Nat) (s : List Char) :
    (Re.rep n (.clase p)).Acepta s ↔ s.length = n ∧ ∀ c ∈ s, p c = true := by
  induction n generalizing s with
  | zero =>
    simp only [Re.rep, Re.Acepta]
    constructor
    · rintro rfl; simp
    · rintro ⟨h, _⟩; exact List.length_eq_zero.mp h
  | succ n ih =>
    simp only [Re.rep, acepta_clase_seq, ih]
    constructor
    · rintro ⟨c, t, rfl, hc, hlen, hall⟩
      refine ⟨by simp [hlen], ?_⟩
      intro d hd
      rcases List.mem_cons.mp hd with h | h
      · exact h ▸ hc
      · exact hall d h
    · rintro ⟨hlen, hall⟩
      cases s with
      | nil => simp at hlen
      | cons c t =>
        exact ⟨c, t, rfl, hall c (by simp), by simpa using hlen,
          fun d hd => hall d (by simp [hd])⟩

/-- A starred class matches the strings made of characters of the class. -/
theorem acepta_estrella_clase (p : Char → Bool) (s : List Char) :
    (Re.estrella (.clase p)).Acepta s ↔ ∀ c ∈ s, p c = true := by
  induction s with
  | nil =>
    simp only [Re.Acepta, List.not_mem_nil, false_implies, implies_true, iff_true]
    exact ⟨[], rfl, by simp⟩
  | cons c s ih =>
    rw [estrella_cons]
    constructor
    · rintro ⟨x, y, hs, ⟨d, hd, hpd⟩, hy⟩
      simp only [List.cons.injEq] at hd
      obtain ⟨rfl, rfl⟩ := hd
      simp only [List.nil_append] at hs
      subst hs
      intro e he
      rcases List.mem_cons.mp he with h | h
      · exact h ▸ hpd
      · exact ih.mp hy e h
    · intro hall
      exact ⟨[], s, rfl, ⟨c, rfl, hall c (by simp)⟩,
        ih.mpr (fun d hd => hall d (by simp [hd]))⟩

/-- A class under `+` matches the non-empty strings made of characters of the class. -/
theorem acepta_mas_clase (p : Char → Bool) (s : List Char) :
    (Re.mas (.clase p)).Acepta s ↔ s ≠ [] ∧ ∀ c ∈ s, p c = true := by
  simp only [Re.mas, acepta_clase_seq, acepta_estrella_clase]
  constructor
  · rintro ⟨c, t, rfl, hc, ht⟩
    refine ⟨by simp, ?_⟩
    intro d hd
    rcases List.mem_cons.mp hd with h | h
    · exact h ▸ hc
    · exact ht d h
  · rintro ⟨hne, hall⟩
    cases s with
    | nil => exact absurd rfl hne
    | cons c t => exact ⟨c, t, rfl, hall c (by simp), fun d hd => hall d (by simp [hd])⟩

/-- A run of `m` characters of a class followed by an expression that matches
exactly the runs of `n` characters of the class matches the runs of `m + n`. -/
theorem acepta_rep_seq (p : Char → Bool) (m n : Nat) (r : Re)
    (hr : ∀ y, r.Acepta y ↔ y.length = n ∧ ∀ c ∈ y, p c = true) (s : List Char) :
    (Re.seq (Re.rep m (.clase p)) r).Acepta s ↔
      s.length = m + n ∧ ∀ c ∈ s, p c = true := by
  simp only [Re.Acepta]
  constructor
  · rintro ⟨x, y, rfl, hx, hy⟩
    rw [acepta_rep_clase] at hx
    rw [hr] at hy
    refine ⟨by simp [hx.1, hy.1], ?_⟩
    intro c hc
    rcases List.mem_append.mp hc with h | h
    · exact hx.2 c h
    · exact hy.2 c h
  · rintro ⟨hlen, hall⟩
    refine ⟨s.take m, s.drop m, (List.take_append_drop m s).symm, ?_, ?_⟩
    · rw [acepta_rep_clase]
      exact ⟨by simp [hlen], fun c hc => hall c (List.mem_of_mem_take hc)⟩
    · rw [hr]
      exact ⟨by simp [hlen], fun c hc => hall c (List.mem_of_mem_drop hc)⟩

end RegExp

/-! ## Telephone and e-mail -/

namespace FormularioCliente

open RegExp


/-- Removing white space twice is removing it once. -/
theorem sinEspacios_idem (s : List Char) : sinEspacios (sinEspacios s) = sinEspacios s := by
  simp [sinEspacios, List.filter_filter]

/-- A digit string holds no white space. -/
theorem sinEspacios_digitos (n : List Char) (h : ∀ c ∈ n, c.isDigit = true) :
    sinEspacios n = n := by
  unfold sinEspacios
  rw [List.filter_eq_self]
  intro c hc
  have hd := h c hc
  simp only [Char.isDigit, Bool.and_eq_true, decide_eq_true_eq] at hd
  have h1 : 48 ≤ c.toNat := by
    have := hd.1
    simp only [Char.toNat]
    exact_mod_cast this
  have h2 : c.toNat ≤ 57 := by
    have := hd.2
    simp only [Char.toNat]
    exact_mod_cast this
  simp only [esEspacio, Bool.not_eq_true', Bool.or_eq_false_iff, decide_eq_false_iff_not,
    Bool.and_eq_false_imp, decide_eq_true_eq]
  omega

/-- The language of the telephone pattern. -/
theorem acepta_regexPhone (s : List Char) :
    regexPhone.Acepta s ↔
      ∃ p n, s = p ++ n ∧
        (p = [] ∨ p = ['+', '3', '4'] ∨ p = ['0', '0', '3', '4'] ∨ p = ['3', '4']) ∧
        n.length = 9 ∧ (∀ c ∈ n, c.isDigit = true) ∧
        ∃ c t, n = c :: t ∧ (c = '6' ∨ c = '7' ∨ c = '8' ∨ c = '9') := by
  unfold regexPhone
  simp only [acepta_seq, acepta_opc, acepta_alt, acepta_lit, acepta_clase, digit,
    acepta_rep_clase, Bool.or_eq_true, beq_iff_eq, or_assoc]
  constructor
  · rintro ⟨x, y, rfl, hx, z, w, rfl, ⟨c, rfl, hc⟩, hlen, hdig⟩
    refine ⟨x, c :: w, rfl, ?_, by simp [hlen], ?_, c, w, rfl, hc⟩
    · rcases hx with h | h | h | h
      · exact Or.inr (Or.inl h)
      · exact Or.inr (Or.inr (Or.inl h))
      · exact Or.inr (Or.inr (Or.inr h))
      · exact Or.inl h
    · intro d hd
      rcases List.mem_cons.mp hd with h | h
      · subst h
        rcases hc with h | h | h | h <;> subst h <;> decide
      · exact hdig d h
  · rintro ⟨p, n, rfl, hp, hlen, hdig, c, t, rfl, hc⟩
    refine ⟨p, c :: t, rfl, ?_, [c], t, rfl, ⟨c, rfl, hc⟩, by simpa using hlen,
      fun d hd => hdig d (by simp [hd])⟩
    rcases hp with h | h | h | h
    · exact Or.inr (Or.inr (Or.inr h))
    · exact Or.inl h
    · exact Or.inr (Or.inl h)
    · exact Or.inr (Or.inr (Or.inl h))

end FormularioCliente

namespace FormularioCliente

open RegExp

/-- The language of the e-mail pattern. -/
theorem acepta_regexEmail (s : List Char) :
    regexEmail.Acepta s ↔
      ∃ x y z, s = x ++ '@' :: (y ++ '.' :: z) ∧ x ≠ [] ∧ y ≠ [] ∧ z ≠ [] ∧
        (∀ c ∈ x, esEspacio c = false ∧ c ≠ '@') ∧
        (∀ c ∈ y, esEspacio c = false ∧ c ≠ '@') ∧
        (∀ c ∈ z, esEspacio c = false ∧ c ≠ '@') := by
  unfold regexEmail
  simp only [acepta_seq, acepta_car, acepta_mas_clase, Bool.not_eq_true',
    Bool.or_eq_false_iff, beq_eq_false_iff_ne, ne_eq]
  constructor
  · rintro ⟨x, r1, rfl, ⟨hx, hxc⟩, a, r2, rfl, rfl, y, r3, rfl, ⟨hy, hyc⟩, b, z, rfl, rfl,
      hz, hzc⟩
    exact ⟨x, y, z, by simp, hx, hy, hz, hxc, hyc, hzc⟩
  · rintro ⟨x, y, z, rfl, hx, hy, hz, hxc, hyc, hzc⟩
    exact ⟨x, _, rfl, ⟨hx, hxc⟩, ['@'], _, rfl, rfl, y, _, rfl, ⟨hy, hyc⟩, ['.'], z, rfl,
      rfl, hz, hzc⟩

/-- C17. `validateEmail(s)` is true iff `s` holds no white space, holds exactly one
`@`, has a non-empty local part before it, and has after it a domain containing a
dot with at least one character on each side.  `rules.email` of the validator is the
same pattern. -/
theorem validateEmail_rule (s : List Char) :
    (validateEmail s = true ↔
      (∀ c ∈ s, esEspacio c = false) ∧ s.count '@' = 1 ∧
      ∃ l dom, s = l ++ '@' :: dom ∧ l ≠ [] ∧
        ∃ y z, dom = y ++ '.' :: z ∧ y ≠ [] ∧ z ≠ []) ∧
    FormValidator.rules.email.test s = validateEmail s := by
  refine ⟨?_, rfl⟩
  unfold validateEmail
  rw [test_iff, acepta_regexEmail]
  constructor
  · rintro ⟨x, y, z, rfl, hx, hy, hz, hxc, hyc, hzc⟩
    refine ⟨?_, ?_, x, y ++ '.' :: z, rfl, hx, y, z, rfl, hy, hz⟩
    · intro c hc
      simp only [List.mem_append, List.mem_cons] at hc
      rcases hc with h | h | h | h | h
      · exact (hxc c h).1
      · subst h; decide
      · exact (hyc c h).1
      · subst h; decide
      · exact (hzc c h).1
    · have h1 : x.count '@' = 0 := List.count_eq_zero.mpr (fun h => (hxc _ h).2 rfl)
      have h2 : y.count '@' = 0 := List.count_eq_zero.mpr (fun h => (hyc _ h).2 rfl)
      have h3 : z.count '@' = 0 := List.count_eq_zero.mpr (fun h => (hzc _ h).2 rfl)
      simp [List.count_append, List.count_cons, h1, h2, h3]
  · rintro ⟨hesp, hcount, l, dom, rfl, hl, y, z, rfl, hy, hz⟩
    have hc : l.count '@' + (y.count '@' + z.count '@') = 0 := by
      simp [List.count_append, List.count_cons] at hcount
      omega
    have h1 : l.count '@' = 0 := by omega
    have h2 : y.count '@' = 0 := by omega
    have h3 : z.count '@' = 0 := by omega
    refine ⟨l, y, z, rfl, hl, hy, hz, ?_, ?_, ?_⟩
    · intro c hc
      exact ⟨hesp c (by simp [hc]), fun h => List.count_eq_zero.mp h1 (h ▸ hc)⟩
    · intro c hc
      exact ⟨hesp c (by simp [hc]), fun h => List.count_eq_zero.mp h2 (h ▸ hc)⟩
    · intro c hc
      exact ⟨hesp c (by simp [hc]), fun h => List.count_eq_zero.mp h3 (h ▸ hc)⟩

/-- Witness for C17: `a@b.c`. -/
theorem validateEmail_rule_witness : validateEmail ['a', '@', 'b', '.', 'c'] = true :=
  (validateEmail_rule ['a', '@', 'b', '.', 'c']).1.mpr
    ⟨by decide, by decide, ['a'], ['b', '.', 'c'], rfl, by decide, ['b'], ['c'], rfl,
      by decide, by decide⟩

/-- C13. `validatePhone(s)` depends only on `s` with its white space removed, and
is true iff that stripped string is one of the prefixes `+34`, `0034`, `34` or
nothing, followed by exactly nine digits of which the first is 6, 7, 8 or 9.
`+34 612 345 678` and `+34612345678` are accepted; nine digits beginning with 0 to 5
are rejected, alone and after `+34`.  On a non-empty value the custom validator
`telefono` of the validator gives the same answer. -/
theorem validatePhone_rule (s : List Char) :
    validatePhone s = validatePhone (sinEspacios s) ∧
    (∀ t, sinEspacios t = sinEspacios s → validatePhone t = validatePhone s) ∧
    (validatePhone s = true ↔
      ∃ p n, sinEspacios s = p ++ n ∧
        (p = [] ∨ p = ['+', '3', '4'] ∨ p = ['0', '0', '3', '4'] ∨ p = ['3', '4']) ∧
        n.length = 9 ∧ (∀ c ∈ n, c.isDigit = true) ∧
        ∃ c t, n = c :: t ∧ (c = '6' ∨ c = '7' ∨ c = '8' ∨ c = '9')) ∧
    validatePhone ['+', '3', '4', ' ', '6', '1', '2', ' ', '3', '4', '5', ' ', '6', '7', '8']
      = true ∧
    validatePhone ['+', '3', '4', '6', '1', '2', '3', '4', '5', '6', '7', '8'] = true ∧
    (∀ n : List Char, n.length = 9 → (∀ c ∈ n, c.isDigit = true) →
      (∃ c t, n = c :: t ∧ (c = '0' ∨ c = '1' ∨ c = '2' ∨ c = '3' ∨ c = '4' ∨ c = '5')) →
      validatePhone n = false ∧ validatePhone (['+', '3', '4'] ++ n) = false) ∧
    (s ≠ [] → FormValidator.customValidators.telefono s = validatePhone s) := by
  refine ⟨?_, ?_, ?_, by decide, by decide, ?_, ?_⟩
  rotate_right
  · intro hs
    simp only [FormValidator.customValidators.telefono, hs, if_false]
    rfl
  · simp [validatePhone, sinEspacios_idem]
  · intro t ht
    simp [validatePhone, ht]
  · unfold validatePhone
    rw [test_iff, acepta_regexPhone]
  · rintro n hlen hdig ⟨c, t, rfl, hc⟩
    have hmas : sinEspacios (['+', '3', '4'] ++ c :: t) = ['+', '3', '4'] ++ c :: t := by
      have h1 : sinEspacios ['+', '3', '4'] = ['+', '3', '4'] := by decide
      have h2 := sinEspacios_digitos (c :: t) hdig
      unfold sinEspacios at h1 h2 ⊢
      rw [List.filter_append, h1, h2]
    constructor
    · rw [Bool.eq_false_iff]
      intro h
      unfold validatePhone at h
      rw [test_iff, acepta_regexPhone, sinEspacios_digitos _ hdig] at h
      obtain ⟨p, m, hpm, hp, hmlen, _, d, u, rfl, hd⟩ := h
      have hl := congrArg List.length hpm
      simp only [List.length_append, hlen, hmlen] at hl
      have hp0 : p = [] := List.length_eq_zero.mp (by omega)
      subst hp0
      simp only [List.nil_append, List.cons.injEq] at hpm
      obtain ⟨rfl, _⟩ := hpm
      rcases hc with h | h | h | h | h | h <;> subst h <;> simp at hd
    · rw [Bool.eq_false_iff]
      intro h
      unfold validatePhone at h
      rw [test_iff, acepta_regexPhone, hmas] at h
      obtain ⟨p, m, hpm, hp, hmlen, _, d, u, rfl, hd⟩ := h
      have hl := congrArg List.length hpm
      simp only [List.length_append, hlen, hmlen, List.length_cons, List.length_nil] at hl
      have hp3 : p = ['+', '3', '4'] := by
        rcases hp with h | h | h | h <;> subst h <;> simp at hl ⊢
      subst hp3
      simp only [List.cons_append, List.nil_append, List.cons.injEq, true_and] at hpm
      obtain ⟨rfl, _⟩ := hpm
      rcases hc with h | h | h | h | h | h <;> subst h <;> simp at hd

/-- Witness for C13: the landline `912345678`, and two spellings of one number. -/
theorem validatePhone_rule_witness :
    (validatePhone ['9', '1', '2', ' ', '3', '4', '5', ' ', '6', '7', '8']
      = validatePhone ['9', '1', '2', '3', '4', '5', '6', '7', '8']) ∧
    (validatePhone ['5', '1', '2', '3', '4', '5', '6', '7', '8'] = false ∧
      validatePhone (['+', '3', '4'] ++ ['5', '1', '2', '3', '4', '5', '6', '7', '8'])
        = false) ∧
    FormValidator.customValidators.telefono ['6', '1', '2', '3', '4', '5', '6', '7', '8']
      = validatePhone ['6', '1', '2', '3', '4', '5', '6', '7', '8'] :=
  ⟨(validatePhone_rule ['9', '1', '2', '3', '4', '5', '6', '7', '8']).2.1
      ['9', '1', '2', ' ', '3', '4', '5', ' ', '6', '7', '8'] (by decide),
   (validatePhone_rule []).2.2.2.2.2.1 ['5', '1', '2', '3', '4', '5', '6', '7', '8']
      (by decide) (by decide) ⟨'5', _, rfl, by decide⟩,
   (validatePhone_rule ['6', '1', '2', '3', '4', '5', '6', '7', '8']).2.2.2.2.2.2
      (by decide)⟩

end FormularioCliente

/-! ## IBAN -/

namespace FormValidator

open RegExp

/-- A decimal digit character is at most `'9'`, hence below `'A'`. -/
theorem digito_rango (c : Char) (h : c.isDigit = true) : 48 ≤ c.toNat ∧ c.toNat ≤ 57 := by
  simp only [Char.isDigit, Bool.and_eq_true, decide_eq_true_eq] at h
  constructor
  · have := h.1
    simp only [Char.toNat]
    exact_mod_cast this
  · have := h.2
    simp only [Char.toNat]
    exact_mod_cast this

/-- The language of `rules.iban`: `ES` followed by 22 digits. -/
theorem acepta_rules_iban (s : List Char) :
    rules.iban.Acepta s ↔
      ∃ d, s = 'E' :: 'S' :: d ∧ d.length = 22 ∧ ∀ c ∈ d, c.isDigit = true := by
  have h10 := acepta_rep_clase Char.isDigit 10
  have h11 := acepta_rep_seq Char.isDigit 1 10 _ h10
  have h12 := acepta_rep_seq Char.isDigit 1 (1 + 10) _ h11
  have h16 := acepta_rep_seq Char.isDigit 4 (1 + (1 + 10)) _ h12
  have h20 := acepta_rep_seq Char.isDigit 4 (4 + (1 + (1 + 10))) _ h16
  have h22 := acepta_rep_seq Char.isDigit 2 (4 + (4 + (1 + (1 + 10)))) _ h20
  unfold rules.iban
  rw [acepta_seq]
  simp only [acepta_lit, digit, h22]
  constructor
  · rintro ⟨x, y, rfl, rfl, hlen, hdig⟩
    exact ⟨y, rfl, hlen, hdig⟩
  · rintro ⟨d, rfl, hlen, hdig⟩
    exact ⟨['E', 'S'], d, rfl, rfl, hlen, hdig⟩

/-- On a digit string `mod97` is the remainder modulo 97 of the number written. -/
theorem mod97_digitos (t : List Char) (h : ∀ c ∈ t, c.isDigit = true) :
    mod97 t = some (numeroEscrito t % 97) := by
  induction t using List.reverseRecOn with
  | nil => simp [mod97, numeroEscrito]
  | append_singleton l x ih =>
    have hl := ih (fun c hc => h c (by simp [hc]))
    have hx : x.isDigit = true := h x (by simp)
    unfold mod97 at hl ⊢
    rw [List.foldl_append, hl, numeroEscrito_snoc]
    simp only [List.foldl_cons, List.foldl_nil, parseIntChar, hx, if_true, digito]
    congr 1
    omega

/-- The letter-to-number loop of `validateIBAN` copies digits unchanged. -/
theorem numerico_digitos (acc l : List Char) (h : ∀ c ∈ l, c.isDigit = true) :
    l.foldl
      (fun acc ch =>
        if decide ('A' ≤ ch) && decide (ch ≤ 'Z') then acc ++ Nat.toDigits 10 (ch.toNat - 55)
        else acc ++ [ch])
      acc = acc ++ l := by
  induction l generalizing acc with
  | nil => simp
  | cons c l ih =>
    have hc := digito_rango c (h c (by simp))
    have hA : ¬ ('A' ≤ c) := by
      intro hle
      have : (65 : Nat) ≤ c.toNat := by
        have h2 : ('A' : Char).val ≤ c.val := hle
        simp only [Char.toNat]
        exact_mod_cast h2
      omega
    simp only [List.foldl_cons, hA, decide_False, Bool.false_and, Bool.false_eq_true, if_false]
    rw [ih _ (fun d hd => h d (by simp [hd]))]
    simp

/-- The numeric string built by `validateIBAN` from `ES` and 22 digits `d`: the last
20 digits, then `1428` for `ES`, then the first two digits. -/
theorem validateIBAN_digitos (d : List Char) (hlen : d.length = 22)
    (hdig : ∀ c ∈ d, c.isDigit = true) :
    validateIBAN ('E' :: 'S' :: d) =
      decide (numeroEscrito (d.drop 2 ++ ['1', '4', '2', '8'] ++ d.take 2) % 97 = 1) := by
  have hre : rules.iban.test ('E' :: 'S' :: d) = true := by
    rw [test_iff, acepta_rules_iban]
    exact ⟨d, rfl, hlen, hdig⟩
  have ht : List.take 22 d = d := List.take_of_length_le (by omega)
  have h1 : substring ('E' :: 'S' :: d) 4 ('E' :: 'S' :: d).length = d.drop 2 := by
    simp [substring, hlen, ht]
  have h2 : substring ('E' :: 'S' :: d) 0 4 = 'E' :: 'S' :: d.take 2 := by
    simp [substring, hlen]
  have hd1 : ∀ c ∈ d.drop 2, c.isDigit = true := fun c hc => hdig c (List.mem_of_mem_drop hc)
  have hd2 : ∀ c ∈ d.take 2, c.isDigit = true := fun c hc => hdig c (List.mem_of_mem_take hc)
  have hE : Nat.toDigits 10 ('E'.toNat - 55) = ['1', '4'] := by decide
  have hS : Nat.toDigits 10 ('S'.toNat - 55) = ['2', '8'] := by decide
  have hcE : (decide ('A' ≤ 'E') && decide ('E' ≤ 'Z')) = true := by decide
  have hcS : (decide ('A' ≤ 'S') && decide ('S' ≤ 'Z')) = true := by decide
  unfold validateIBAN
  simp only [hre, Bool.not_true, Bool.false_eq_true, if_false, h1, h2]
  rw [List.foldl_append, numerico_digitos [] _ hd1, List.foldl_cons, List.foldl_cons]
  simp only [hcE, hcS, if_true, hE, hS]
  rw [numerico_digitos _ _ hd2]
  have hall : ∀ c ∈ d.drop 2 ++ ['1', '4', '2', '8'] ++ d.take 2, c.isDigit = true := by
    intro c hc
    simp only [List.mem_append, List.mem_cons, List.mem_singleton, List.not_mem_nil,
      or_false] at hc
    rcases hc with (h | h) | h
    · exact hd1 c h
    · rcases h with h | h | h | h <;> subst h <;> decide
    · exact hd2 c h
  have heq : [] ++ List.drop 2 d ++ ['1', '4'] ++ ['2', '8'] ++ List.take 2 d
      = d.drop 2 ++ ['1', '4', '2', '8'] ++ d.take 2 := by simp
  rw [heq, mod97_digitos _ hall]
  generalize numeroEscrito (d.drop 2 ++ ['1', '4', '2', '8'] ++ d.take 2) % 97 = n
  by_cases hn : n = 1 <;> simp [hn]

/-- C11. `validateIBAN(s)` is true iff `s` is `ES` followed by exactly 22 digits `d`
and the number written by the last 20 digits of `d`, then `1428` (`E` is 14 and `S`
is 28, their character codes less 55), then the first two digits of `d`, leaves
remainder 1 modulo 97.  The loop `mod97` returns, for every digit string, the number
it writes modulo 97.  `ES9121000418450200051332` is accepted. -/
theorem validateIBAN_rule (s t : List Char) :
    (validateIBAN s = true ↔
      ∃ d, s = 'E' :: 'S' :: d ∧ d.length = 22 ∧ (∀ c ∈ d, c.isDigit = true) ∧
        numeroEscrito (d.drop 2 ++ ['1', '4', '2', '8'] ++ d.take 2) % 97 = 1) ∧
    ('E'.toNat - 55 = 14 ∧ 'S'.toNat - 55 = 28) ∧
    ((∀ c ∈ t, c.isDigit = true) → mod97 t = some (numeroEscrito t % 97)) ∧
    validateIBAN ['E', 'S', '9', '1', '2', '1', '0', '0', '0', '4', '1', '8', '4', '5',
      '0', '2', '0', '0', '0', '5', '1', '3', '3', '2'] = true := by
  refine ⟨?_, by decide, mod97_digitos t, by decide⟩
  constructor
  · intro h
    have hre : rules.iban.test s = true := by
      by_contra hn
      simp [validateIBAN, hn] at h
    rw [test_iff, acepta_rules_iban] at hre
    obtain ⟨d, rfl, hlen, hdig⟩ := hre
    rw [validateIBAN_digitos d hlen hdig] at h
    exact ⟨d, rfl, hlen, hdig, by simpa using h⟩
  · rintro ⟨d, rfl, hlen, hdig, hm⟩
    rw [validateIBAN_digitos d hlen hdig]
    simpa using hm

/-- Witness for C11: the digit string `98` has remainder 1. -/
theorem validateIBAN_rule_witness : mod97 ['9', '8'] = some (numeroEscrito ['9', '8'] % 97) :=
  (validateIBAN_rule [] ['9', '8']).2.2.1 (by decide)

end FormValidator

namespace FormValidator

open RegExp

/-- The number written by a concatenation. -/
theorem numeroEscrito_append (a b : List Char) :
    numeroEscrito (a ++ b) = numeroEscrito a * 10 ^ b.length + numeroEscrito b := by
  unfold numeroEscrito
  rw [List.reverse_append, List.map_append, Nat.ofDigits_append]
  simp only [List.length_map, List.length_reverse]
  ring

/-- Two digit strings that differ in exactly one digit write numbers with different
remainders modulo 97. -/
theorem numeroEscrito_cambio (a b : List Char) (x y : Char)
    (hx : x.isDigit = true) (hy : y.isDigit = true) (hxy : x ≠ y) :
    numeroEscrito (a ++ x :: b) % 97 ≠ numeroEscrito (a ++ y :: b) % 97 := by
  intro h
  have ex : numeroEscrito (a ++ x :: b)
      = digito x * 10 ^ b.length + (numeroEscrito a * 10 ^ (b.length + 1) + numeroEscrito b) := by
    rw [numeroEscrito_append, show x :: b = [x] ++ b from rfl, numeroEscrito_append]
    simp [numeroEscrito]
    ring
  have ey : numeroEscrito (a ++ y :: b)
      = digito y * 10 ^ b.length + (numeroEscrito a * 10 ^ (b.length + 1) + numeroEscrito b) := by
    rw [numeroEscrito_append, show y :: b = [y] ++ b from rfl, numeroEscrito_append]
    simp [numeroEscrito]
    ring
  rw [ex, ey] at h
  have h1 : digito x * 10 ^ b.length ≡ digito y * 10 ^ b.length [MOD 97] :=
    Nat.ModEq.add_right_cancel' _ h
  have hcop : Nat.gcd 97 (10 ^ b.length) = 1 :=
    Nat.Coprime.pow_right _ (by norm_num)
  have h2 : digito x ≡ digito y [MOD 97] := Nat.ModEq.cancel_right_of_coprime hcop h1
  have hdx := digito_le x hx
  have hdy := digito_le y hy
  have h3 : digito x = digito y := by
    unfold Nat.ModEq at h2
    omega
  have rx := digito_rango x hx
  have ry := digito_rango y hy
  have hn : x.toNat = y.toNat := by
    unfold digito at h3
    omega
  apply hxy
  rw [← Char.ofNat_toNat x, ← Char.ofNat_toNat y, hn]

/-- C12. Single-digit error detection: when `validateIBAN` accepts `s`, replacing the
digit at any of the 22 positions 2 to 23 by a different digit gives a string that
`validateIBAN` rejects. -/
theorem validateIBAN_single_digit (s : List Char) (i : Nat) (x : Char)
    (hs : validateIBAN s = true) (hi : 2 ≤ i) (hi' : i < 24)
    (hx : x.isDigit = true) (hne : s.get? i ≠ some x) :
    validateIBAN (s.set i x) = false := by
  have hre : rules.iban.test s = true := by
    by_contra hn
    simp [validateIBAN, hn] at hs
  rw [test_iff, acepta_rules_iban] at hre
  obtain ⟨d, rfl, hlen, hdig⟩ := hre
  rw [validateIBAN_digitos d hlen hdig] at hs
  have hm : numeroEscrito (d.drop 2 ++ ['1', '4', '2', '8'] ++ d.take 2) % 97 = 1 := by
    simpa using hs
  obtain ⟨j, rfl⟩ : ∃ j, i = j + 2 := ⟨i - 2, by omega⟩
  have hj : j < d.length := by omega
  have hset : ('E' :: 'S' :: d).set (j + 2) x = 'E' :: 'S' :: d.set j x := by simp
  have hget : ('E' :: 'S' :: d).get? (j + 2) = d.get? j := by simp
  rw [hget] at hne
  -- split `d` around position `j`
  obtain ⟨a, y, b, rfl, ha⟩ : ∃ a y b, d = a ++ y :: b ∧ a.length = j := by
    refine ⟨d.take j, d.get ⟨j, hj⟩, d.drop (j + 1), ?_, by simp; omega⟩
    rw [List.get_eq_getElem, List.getElem_cons_drop, List.take_append_drop]
  have hy : y.isDigit = true := hdig y (by simp)
  have hxy : x ≠ y := by
    intro h
    apply hne
    subst h
    subst ha
    rw [List.get?_eq_getElem?, List.getElem?_append_right (le_refl _)]
    simp
  have hd' : (a ++ y :: b).set j x = a ++ x :: b := by
    subst ha
    simp
  have hlen' : (a ++ x :: b).length = 22 := by
    simpa using hlen
  have hdig' : ∀ c ∈ a ++ x :: b, c.isDigit = true := by
    intro c hc
    simp only [List.mem_append, List.mem_cons] at hc
    rcases hc with h | h | h
    · exact hdig c (by simp [h])
    · exact h ▸ hx
    · exact hdig c (by simp [h])
  rw [hset, hd', validateIBAN_digitos _ hlen' hdig']
  simp only [decide_eq_false_iff_not]
  rw [← hm]
  -- the changed digit sits at one place of the rearranged numeric string
  rcases a with _ | ⟨e, a⟩
  · -- position 0: first check digit
    have := numeroEscrito_cambio (b.drop 1 ++ ['1', '4', '2', '8']) (b.take 1) x y hx hy hxy
    simpa using this
  · rcases a with _ | ⟨f, a⟩
    · -- position 1: second check digit
      have := numeroEscrito_cambio (b ++ ['1', '4', '2', '8'] ++ [e]) [] x y hx hy hxy
      simpa using this
    · -- a position of the account part
      have := numeroEscrito_cambio a (b ++ ['1', '4', '2', '8'] ++ [e, f]) x y hx hy hxy
      simpa using this

/-- Witness for C12: the last digit of `ES9121000418450200051332` replaced by 3. -/
theorem validateIBAN_single_digit_witness :
    validateIBAN (['E', 'S', '9', '1', '2', '1', '0', '0', '0', '4', '1', '8', '4', '5',
      '0', '2', '0', '0', '0', '5', '1', '3', '3', '2'].set 23 '3') = false :=
  validateIBAN_single_digit _ 23 '3' (by decide) (by decide) (by decide) (by decide)
    (by decide)

end FormValidator

/-! ## CIF, NIE and the identity-document validator -/

namespace FormValidator

open RegExp

/-- A character is the decimal digit `k` exactly when it is the one-character
string `k.toString()`. -/
theorem toDigits_un_digito (z : Char) (k : Nat) (hk : k < 10) :
    [z] = Nat.toDigits 10 k ↔ (z.isDigit = true ∧ digito z = k) := by
  constructor
  · intro h
    interval_cases k <;>
      · have hz : [z] = _ := h
        simp only [Nat.toDigits, Nat.toDigitsCore] at hz
        simp at hz
        subst hz
        decide
  · rintro ⟨hd, hv⟩
    have hr := digito_rango z hd
    have hz : z = Char.ofNat (48 + k) := by
      rw [← Char.ofNat_toNat z]
      congr 1
      unfold digito at hv
      omega
    subst hz
    interval_cases k <;> decide

/-- A one-character string occurs in a string exactly when its character does. -/
theorem includes_un_caracter (l : List Char) (a : Char) :
    includes l [a] = decide (a ∈ l) := by
  unfold includes
  congr 1
  apply propext
  constructor
  · intro h
    exact h.subset (List.mem_singleton_self a)
  · intro h
    obtain ⟨s, u, rfl⟩ := List.append_of_mem h
    exact ⟨s, u, by simp⟩

/-- The value of `validateCIF` on a leading character, seven digits and a last
character. -/
theorem validateCIF_cuerpo (t d1 d2 d3 d4 d5 d6 d7 z : Char)
    (h1 : d1.isDigit = true) (h2 : d2.isDigit = true) (h3 : d3.isDigit = true)
    (h4 : d4.isDigit = true) (h5 : d5.isDigit = true) (h6 : d6.isDigit = true)
    (h7 : d7.isDigit = true) :
    validateCIF [t, d1, d2, d3, d4, d5, d6, d7, z] =
      (decide (t ∈ organizationTypes) &&
        (decide ([z] = Nat.toDigits 10 (digitoControl d1 d2 d3 d4 d5 d6 d7)) ||
          decide ([z] = charAt controlDigits (digitoControl d1 d2 d3 d4 d5 d6 d7)))) := by
  have hinc := includes_un_caracter organizationTypes t
  have hsub : substring [t, d1, d2, d3, d4, d5, d6, d7, z] 1 8
      = [d1, d2, d3, d4, d5, d6, d7] := by
    simp [substring]
  unfold validateCIF
  rw [show charAt [t, d1, d2, d3, d4, d5, d6, d7, z] 0 = [t] from rfl,
    show charAt [t, d1, d2, d3, d4, d5, d6, d7, z] 8 = [z] from rfl, hinc, hsub]
  have hsum : (List.enum [d1, d2, d3, d4, d5, d6, d7]).foldl
      (fun sum ich =>
        match sum, parseIntChar ich.2 with
        | some s, some digit =>
          if ich.1 % 2 = 0 then
            let doubled := digit * 2
            some (s + (if doubled > 9 then doubled - 9 else doubled))
          else some (s + digit)
        | _, _ => none)
      (some 0) = some (sumaControl d1 d2 d3 d4 d5 d6 d7) := by
    simp only [List.enum, List.enumFrom, List.foldl_cons, List.foldl_nil, parseIntChar,
      h1, h2, h3, h4, h5, h6, h7, if_true]
    norm_num [sumaControl, doblado, digito, Nat.mul_comm]
  simp only [hsum, Option.map_some', numberToString, charAtNumber, digitoControl]
  cases decide (t ∈ organizationTypes) <;> simp

/-- The entries of `controlDigits` are pairwise different letters. -/
theorem controlDigits_get (k : Nat) (hk : k < 10) :
    ∃ l, controlDigits.get? k = some l ∧ l.isDigit = false ∧ charAt controlDigits k = [l] := by
  interval_cases k <;> exact ⟨_, rfl, by decide, rfl⟩

/-- C16. For a leading character `t`, seven digits `d1 .. d7` and a last character
`z`, `validateCIF` is true iff `t` is one of `ABCDEFGHJNPQRSUVW` and `z` is the digit
`k` or the entry `k` of `JABCDEFGHI`, where `k = (10 - S mod 10) mod 10` and `S` adds
`d2`, `d4`, `d6` as they are and `d1`, `d3`, `d5`, `d7` doubled, less 9 when the double
exceeds 9.  So for an organisation letter exactly two last characters are accepted,
and any other leading character is rejected.  `A58818501` and `A5881850A` are
accepted. -/
theorem validateCIF_rule (t d1 d2 d3 d4 d5 d6 d7 z : Char)
    (h1 : d1.isDigit = true) (h2 : d2.isDigit = true) (h3 : d3.isDigit = true)
    (h4 : d4.isDigit = true) (h5 : d5.isDigit = true) (h6 : d6.isDigit = true)
    (h7 : d7.isDigit = true) :
    (validateCIF [t, d1, d2, d3, d4, d5, d6, d7, z] = true ↔
      t ∈ organizationTypes ∧
        ((z.isDigit = true ∧ digito z = digitoControl d1 d2 d3 d4 d5 d6 d7) ∨
          controlDigits.get? (digitoControl d1 d2 d3 d4 d5 d6 d7) = some z)) ∧
    (t ∈ organizationTypes → ∃ z1 z2 : Char, z1 ≠ z2 ∧
      ∀ y : Char, validateCIF [t, d1, d2, d3, d4, d5, d6, d7, y] = true ↔ (y = z1 ∨ y = z2)) ∧
    (t ∉ organizationTypes → validateCIF [t, d1, d2, d3, d4, d5, d6, d7, z] = false) ∧
    validateCIF ['A', '5', '8', '8', '1', '8', '5', '0', '1'] = true ∧
    validateCIF ['A', '5', '8', '8', '1', '8', '5', '0', 'A'] = true := by
  have hk : digitoControl d1 d2 d3 d4 d5 d6 d7 < 10 := Nat.mod_lt _ (by norm_num)
  have hgen : ∀ y : Char, validateCIF [t, d1, d2, d3, d4, d5, d6, d7, y] = true ↔
      t ∈ organizationTypes ∧
        ((y.isDigit = true ∧ digito y = digitoControl d1 d2 d3 d4 d5 d6 d7) ∨
          controlDigits.get? (digitoControl d1 d2 d3 d4 d5 d6 d7) = some y) := by
    intro y
    obtain ⟨l, hl, _, hc⟩ := controlDigits_get _ hk
    rw [validateCIF_cuerpo t d1 d2 d3 d4 d5 d6 d7 y h1 h2 h3 h4 h5 h6 h7, hc, hl]
    simp only [Bool.and_eq_true, Bool.or_eq_true, decide_eq_true_eq,
      toDigits_un_digito y _ hk, List.cons.injEq, and_true, Option.some.injEq]
    constructor
    · rintro ⟨ht, h | h⟩
      · exact ⟨ht, Or.inl h⟩
      · exact ⟨ht, Or.inr h.symm⟩
    · rintro ⟨ht, h | h⟩
      · exact ⟨ht, Or.inl h⟩
      · exact ⟨ht, Or.inr h.symm⟩
  refine ⟨hgen z, ?_, ?_, by decide, by decide⟩
  · intro ht
    obtain ⟨l, hl, hnd, _⟩ := controlDigits_get _ hk
    have hdz : (Char.ofNat (48 + digitoControl d1 d2 d3 d4 d5 d6 d7)).isDigit = true ∧
        digito (Char.ofNat (48 + digitoControl d1 d2 d3 d4 d5 d6 d7))
          = digitoControl d1 d2 d3 d4 d5 d6 d7 := by
      generalize digitoControl d1 d2 d3 d4 d5 d6 d7 = k at hk
      interval_cases k <;> decide
    refine ⟨Char.ofNat (48 + digitoControl d1 d2 d3 d4 d5 d6 d7), l, ?_, ?_⟩
    · intro h
      rw [← h, hdz.1] at hnd
      exact Bool.noConfusion hnd
    · intro y
      rw [hgen y, hl]
      constructor
      · rintro ⟨_, ⟨hd, hv⟩ | h⟩
        · left
          have hr := digito_rango y hd
          rw [← Char.ofNat_toNat y]
          congr 1
          unfold digito at hv
          omega
        · right
          exact (Option.some.inj h).symm
      · rintro (h | h)
        · subst h
          exact ⟨ht, Or.inl hdz⟩
        · subst h
          exact ⟨ht, Or.inr rfl⟩
  · intro ht
    rw [Bool.eq_false_iff]
    intro h
    exact ht ((hgen z).mp h).1

/-- Witness for C16: the body `5881850` under the letters `A` and `X`. -/
theorem validateCIF_rule_witness :
    (validateCIF ['A', '5', '8', '8', '1', '8', '5', '0', '1'] = true ↔
      'A' ∈ organizationTypes ∧
        (('1'.isDigit = true ∧ digito '1' = digitoControl '5' '8' '8' '1' '8' '5' '0') ∨
          controlDigits.get? (digitoControl '5' '8' '8' '1' '8' '5' '0') = some '1')) ∧
    validateCIF ['X', '5', '8', '8', '1', '8', '5', '0', '1'] = false :=
  ⟨(validateCIF_rule 'A' '5' '8' '8' '1' '8' '5' '0' '1' rfl rfl rfl rfl rfl rfl rfl).1,
   (validateCIF_rule 'X' '5' '8' '8' '1' '8' '5' '0' '1' rfl rfl rfl rfl rfl rfl rfl).2.2.1
      (by decide)⟩

end FormValidator

namespace FormValidator

open RegExp

/-- The language of `rules.nif`: eight digits and an upper-case letter. -/
theorem acepta_rules_nif (s : List Char) :
    rules.nif.Acepta s ↔
      ∃ b c, s = b ++ [c] ∧ b.length = 8 ∧ (∀ x ∈ b, x.isDigit = true) ∧ c.isUpper = true := by
  unfold rules.nif
  simp only [acepta_seq, digit, acepta_rep_clase, acepta_clase]
  constructor
  · rintro ⟨b, y, rfl, ⟨hlen, hdig⟩, c, rfl, hc⟩
    exact ⟨b, c, rfl, hlen, hdig, hc⟩
  · rintro ⟨b, c, rfl, hlen, hdig, hc⟩
    exact ⟨b, [c], rfl, ⟨hlen, hdig⟩, c, rfl, hc⟩

/-- The language of `rules.nie`: `X`, `Y` or `Z`, seven digits and an upper-case
letter. -/
theorem acepta_rules_nie (s : List Char) :
    rules.nie.Acepta s ↔
      ∃ L d c, s = L :: d ++ [c] ∧ (L = 'X' ∨ L = 'Y' ∨ L = 'Z') ∧ d.length = 7 ∧
        (∀ x ∈ d, x.isDigit = true) ∧ c.isUpper = true := by
  unfold rules.nie
  simp only [acepta_seq, digit, acepta_rep_clase, acepta_clase,
    Bool.or_eq_true, beq_iff_eq, or_assoc]
  constructor
  · rintro ⟨x, t, rfl, ⟨L, rfl, hL⟩, d, y, rfl, ⟨hlen, hdig⟩, c, rfl, hc⟩
    exact ⟨L, d, c, rfl, hL, hlen, hdig, hc⟩
  · rintro ⟨L, d, c, rfl, hL, hlen, hdig, hc⟩
    exact ⟨[L], d ++ [c], rfl, ⟨L, rfl, hL⟩, d, [c], rfl, ⟨hlen, hdig⟩, c, rfl, hc⟩

/-- Every string matching `rules.nie` matches `rules.cif` and not `rules.nif`, and
`validateCIF` rejects it. -/
theorem nie_es_cif (s : List Char) (h : rules.nie.test s = true) :
    rules.nif.test s = false ∧ rules.cif.test s = true ∧ validateCIF s = false := by
  rw [test_iff, acepta_rules_nie] at h
  obtain ⟨L, d, c, rfl, hL, hlen, hdig, hc⟩ := h
  have hLd : L.isDigit = false := by
    rcases hL with h | h | h <;> subst h <;> decide
  have hLu : L.isUpper = true := by
    rcases hL with h | h | h <;> subst h <;> decide
  have hLo : decide (L ∈ organizationTypes) = false := by
    rcases hL with h | h | h <;> subst h <;> decide
  refine ⟨?_, ?_, ?_⟩
  · rw [Bool.eq_false_iff]
    intro hn
    rw [test_iff, acepta_rules_nif] at hn
    obtain ⟨b, c', hs, hb, hbd, _⟩ := hn
    cases b with
    | nil => simp at hb
    | cons x b =>
      simp only [List.cons_append, List.cons.injEq] at hs
      have := hbd x (by simp)
      rw [← hs.1, hLd] at this
      exact Bool.noConfusion this
  · rw [test_iff]
    unfold rules.cif
    simp only [acepta_seq, digit, acepta_rep_clase, acepta_clase]
    exact ⟨[L], d ++ [c], rfl, ⟨L, rfl, hLu⟩, d, [c], rfl, ⟨hlen, hdig⟩, c, rfl,
      by simp [hc]⟩
  · unfold validateCIF
    rw [show charAt (L :: d ++ [c]) 0 = [L] from rfl, includes_un_caracter, hLo]
    rfl

/-- The validator `documento-identidad` rejects every non-empty value that, once
upper-cased and stripped of white space, matches `rules.nie`. -/
theorem documentoIdentidad_nie (up : List Char → List Char) (v : List Char) (hv : v ≠ [])
    (h : rules.nie.test (sinEspacios (up v)) = true) :
    customValidators.documentoIdentidad up v = some false := by
  obtain ⟨h1, h2, h3⟩ := nie_es_cif _ h
  simp [customValidators.documentoIdentidad, hv, h1, h2, h3]

/-- The validator `documento-identidad` always yields a Boolean. -/
theorem documentoIdentidad_definido (up : List Char → List Char) (v : List Char) :
    ∃ b, customValidators.documentoIdentidad up v = some b := by
  unfold customValidators.documentoIdentidad
  by_cases hv : v = []
  · exact ⟨true, by simp [hv]⟩
  · simp only [hv, if_false]
    by_cases hn : rules.nif.test (sinEspacios (up v)) = true
    · simp only [hn, if_true]
      rw [test_iff, acepta_rules_nif] at hn
      obtain ⟨b, c, hs, hlen, hdig, _⟩ := hn
      rw [hs, validateNIF_cuerpo b c hlen hdig]
      exact ⟨_, rfl⟩
    · simp only [hn, Bool.false_eq_true, if_false]
      by_cases hc : rules.cif.test (sinEspacios (up v)) = true
      · exact ⟨validateCIF (sinEspacios (up v)), by simp only [hc, if_true]⟩
      · simp only [hc, Bool.false_eq_true, if_false]
        by_cases he : rules.nie.test (sinEspacios (up v)) = true
        · exact absurd (nie_es_cif _ he).2.1 hc
        · exact ⟨false, by simp only [he, Bool.false_eq_true, if_false]⟩

/-- C14, the failing input.  `X1234567L` is a well-formed NIE (`rules.nie` matches
it) with the correct control letter (`validateNIE` accepts it), but it also matches
`rules.cif`, which the validator `documento-identidad` tests first: the value is
handed to `validateCIF` and rejected. -/
theorem documentoIdentidad_rejects_nie :
    rules.nie.test ['X', '1', '2', '3', '4', '5', '6', '7', 'L'] = true ∧
    validateNIE ['X', '1', '2', '3', '4', '5', '6', '7', 'L'] = some true ∧
    rules.nif.test ['X', '1', '2', '3', '4', '5', '6', '7', 'L'] = false ∧
    rules.cif.test ['X', '1', '2', '3', '4', '5', '6', '7', 'L'] = true ∧
    validateCIF ['X', '1', '2', '3', '4', '5', '6', '7', 'L'] = false ∧
    customValidators.documentoIdentidad mayusculasAscii
      ['X', '1', '2', '3', '4', '5', '6', '7', 'L'] = some false := by
  decide

/-- The first eight characters of a leading character, a body of seven and a last
character. -/
theorem substring_nie (a : Char) (d : List Char) (c : Char) (hlen : d.length = 7) :
    substring (a :: d ++ [c]) 1 8 = d ∧ substring (a :: d ++ [c]) 0 8 = a :: d ∧
    charAt (a :: d ++ [c]) 8 = [c] ∧ charAt (a :: d ++ [c]) 0 = [a] := by
  have ht : List.take 7 (d ++ [c]) = d := by
    rw [← hlen]; exact List.take_left' rfl
  have hg : (d ++ [c]).get? 7 = some c := by
    rw [← hlen]; simp
  refine ⟨by simp [substring, hlen, ht], by simp [substring, hlen, ht], ?_, by simp [charAt]⟩
  unfold charAt
  rw [show (a :: d ++ [c]).get? 8 = (d ++ [c]).get? 7 from rfl, hg]

/-- C15. NIE reduces to NIF: for a leading letter `L` among `X`, `Y`, `Z`, mapped by
`m` to `0`, `1`, `2`, a body `d` of seven characters and a last character `c`,
`validateNIE(L + d + c)` is `validateNIF(m(L) + d + c)`; when `d` is made of digits
both are the comparison of `c` with the table entry at index `m(L) d mod 23`. -/
theorem validateNIE_reduces_to_NIF (L m : Char) (d : List Char) (c : Char)
    (hL : (L = 'X' ∧ m = '0') ∨ (L = 'Y' ∧ m = '1') ∨ (L = 'Z' ∧ m = '2'))
    (hlen : d.length = 7) :
    validateNIE (L :: d ++ [c]) = validateNIF (m :: d ++ [c]) ∧
    ((∀ x ∈ d, x.isDigit = true) →
      validateNIE (L :: d ++ [c])
        = some (decide (letters.get? (numeroEscrito (m :: d) % 23) = some c))) := by
  obtain ⟨h1, _, h8, h0⟩ := substring_nie L d c hlen
  obtain ⟨_, h1', h8', _⟩ := substring_nie m d c hlen
  have hp : niePrefix [L] = some [m] := by
    rcases hL with ⟨rfl, rfl⟩ | ⟨rfl, rfl⟩ | ⟨rfl, rfl⟩ <;> decide
  have heq : validateNIE (L :: d ++ [c]) = validateNIF (m :: d ++ [c]) := by
    simp only [validateNIE, validateNIF, h1, h8, h0, hp, h1', h8', List.singleton_append]
  refine ⟨heq, ?_⟩
  intro hdig
  rw [heq]
  have hm : m.isDigit = true := by
    rcases hL with ⟨_, rfl⟩ | ⟨_, rfl⟩ | ⟨_, rfl⟩ <;> decide
  have := validateNIF_cuerpo (m :: d) c (by simp [hlen]) (by
    intro x hx
    rcases List.mem_cons.mp hx with h | h
    · exact h ▸ hm
    · exact hdig x h)
  simpa using this

/-- Witness for C15: `X1234567L` against `01234567L`. -/
theorem validateNIE_reduces_to_NIF_witness :
    validateNIE ('X' :: ['1', '2', '3', '4', '5', '6', '7'] ++ ['L'])
      = validateNIF ('0' :: ['1', '2', '3', '4', '5', '6', '7'] ++ ['L']) :=
  (validateNIE_reduces_to_NIF 'X' '0' ['1', '2', '3', '4', '5', '6', '7'] 'L'
    (Or.inl ⟨rfl, rfl⟩) rfl).1

end FormValidator

/-! ## Extraction -/

namespace FormularioCliente

open RegExp

/-- Trimming the empty string. -/
theorem trim_nil : trim [] = [] := rfl

/-- Appending the kept records one by one is filtering, then mapping. -/
theorem foldl_push {α β : Type} (keep : α → Bool) (f : α → β) (l : List α) (acc : List β) :
    l.foldl (fun out x => if !keep x then out else out ++ [f x]) acc
      = acc ++ (l.filter keep).map f := by
  induction l generalizing acc with
  | nil => simp
  | cons x l ih =>
    rw [List.foldl_cons, ih]
    cases hk : keep x <;> simp [List.filter_cons, hk]

/-- C19. `getTrasterosData` returns, in row order, the record of each row that has
at least one non-empty field among the trimmed number, metros, metros_cubicos,
precio_sin_iva, precio_con_iva, fianza and descripcion, and nothing for the other
rows; a record carries its seven keys, a missing or empty input as the empty
string. -/
theorem getTrasterosData_rule (items : List FilaTrastero) :
    getTrasterosData items = (items.filter tieneAlgunCampo).map registroTrastero ∧
    (∀ f ∈ items, tieneAlgunCampo f = true → registroTrastero f ∈ getTrasterosData items) ∧
    ((∀ f ∈ items, tieneAlgunCampo f = false) → getTrasterosData items = []) ∧
    (getTrasterosData items).length = items.countP tieneAlgunCampo ∧
    (∀ f : FilaTrastero, f.metros = none → (registroTrastero f).metros = []) := by
  have h : getTrasterosData items = (items.filter tieneAlgunCampo).map registroTrastero := by
    unfold getTrasterosData
    have hfun : (fun (trasteros : List Trastero) (item : FilaTrastero) =>
        let data : Trastero :=
          { numero_trastero := oVacio (item.numero.map trim)
            metros := oVacio item.metros
            metros_cubicos := oVacio item.cubicos
            precio_sin_iva := oVacio item.precio_sin_iva
            precio_con_iva := oVacio item.precio_con_iva
            fianza := oVacio item.fianza
            descripcion := oVacio item.descripcion }
        let hasAnyValue :=
          [data.numero_trastero, data.metros, data.metros_cubicos, data.precio_sin_iva,
            data.precio_con_iva, data.fianza, data.descripcion].any (fun v => v != [])
        if !hasAnyValue then trasteros else trasteros ++ [data])
        = (fun out x => if !tieneAlgunCampo x then out else out ++ [registroTrastero x]) := by
      funext out x
      have hn : oVacio (x.numero.map trim) = trim (oVacio x.numero) := by
        cases x.numero <;> rfl
      simp only [hn, tieneAlgunCampo, registroTrastero, List.any_cons, List.any_nil,
        bne_iff_ne, ne_eq, Bool.or_false, Bool.decide_or, Bool.decide_eq_true]
      congr 2
      have hd : ∀ l : List Char, decide (l = []) = l.isEmpty := by
        intro l
        cases l <;> simp
      simp [bne, Bool.or_assoc, hd]
    rw [hfun, foldl_push]
    simp
  refine ⟨h, ?_, ?_, ?_, ?_⟩
  · intro f hf hk
    rw [h]
    exact List.mem_map.mpr ⟨f, List.mem_filter.mpr ⟨hf, hk⟩, rfl⟩
  · intro hall
    rw [h, List.filter_eq_nil_iff.mpr (fun f hf => by simp [hall f hf])]
    rfl
  · rw [h, List.length_map, List.countP_eq_length_filter]
  · intro f hf
    simp [registroTrastero, hf, oVacio]

/-- Witness for C19: a row with only a description between two empty rows. -/
theorem getTrasterosData_rule_witness :
    registroTrastero filaSoloDescripcion
      ∈ getTrasterosData [filaVacia, filaSoloDescripcion, filaVacia] ∧
    getTrasterosData [filaVacia, filaVacia] = [] ∧
    (registroTrastero filaSoloDescripcion).metros_cubicos = [] :=
  ⟨(getTrasterosData_rule [filaVacia, filaSoloDescripcion, filaVacia]).2.1
      filaSoloDescripcion (by decide) (by decide),
   (getTrasterosData_rule [filaVacia, filaVacia]).2.2.1 (by decide),
   rfl⟩

/-- C20 as stated fails: a user row with only the password filled in is left out
of the payload. -/
theorem getUsuariosData_drops_password_only :
    filaSoloPassword.password = some ['s', 'e', 'c', 'r', 'e', 't', 'o'] ∧
    getUsuariosData [filaSoloPassword] = [] ∧
    getUsuariosData [filaSoloPassword, filaSoloNombre, filaSoloPassword]
      = [registroUsuario filaSoloNombre] := by
  decide

/-- C20, amended. `getUsuariosData` returns, in row order, the record of each row
whose trimmed name or trimmed e-mail is non-empty, and leaves out every row whose
name and e-mail are both blank or missing, whatever its password, confirmation,
role, department and permissions hold. -/
theorem getUsuariosData_rule (items : List FilaUsuario) :
    getUsuariosData items = (items.filter tieneNombreOEmail).map registroUsuario ∧
    (∀ f ∈ items, tieneNombreOEmail f = true → registroUsuario f ∈ getUsuariosData items) ∧
    ((∀ f ∈ items, tieneNombreOEmail f = false) → getUsuariosData items = []) ∧
    (getUsuariosData items).length = items.countP tieneNombreOEmail := by
  have h : getUsuariosData items = (items.filter tieneNombreOEmail).map registroUsuario := by
    unfold getUsuariosData
    have hf : ∀ x : Option (List Char), esFalsy (x.map trim) = decide (trim (oVacio x) = []) := by
      intro x
      cases x with
      | none => rfl
      | some v => cases h : trim v <;> simp [esFalsy, oVacio, h]
    have hfun : ∀ (out : List Usuario) (x : FilaUsuario),
        (if (esFalsy (x.nombre.map trim) && esFalsy (x.email.map trim)) = true then out
          else out ++ [registroUsuario x])
        = (if (!tieneNombreOEmail x) = true then out else out ++ [registroUsuario x]) := by
      intro out x
      have : (esFalsy (x.nombre.map trim) && esFalsy (x.email.map trim))
          = !tieneNombreOEmail x := by
        rw [hf, hf]
        simp [tieneNombreOEmail]
      rw [this]
    have := foldl_push tieneNombreOEmail registroUsuario items []
    simp only [List.nil_append] at this
    rw [← this]
    congr 1
    funext out x
    exact hfun out x
  refine ⟨h, ?_, ?_, ?_⟩
  · intro f hf hk
    rw [h]
    exact List.mem_map.mpr ⟨f, List.mem_filter.mpr ⟨hf, hk⟩, rfl⟩
  · intro hall
    rw [h, List.filter_eq_nil_iff.mpr (fun f hf => by simp [hall f hf])]
    rfl
  · rw [h, List.length_map, List.countP_eq_length_filter]

/-- Witness for C20, amended: a row with only a name is kept, a row with only a
password is not. -/
theorem getUsuariosData_rule_witness :
    registroUsuario filaSoloNombre ∈ getUsuariosData [filaSoloPassword, filaSoloNombre] ∧
    getUsuariosData [filaSoloPassword] = [] :=
  ⟨(getUsuariosData_rule [filaSoloPassword, filaSoloNombre]).2.1 filaSoloNombre
      (by decide) (by decide),
   (getUsuariosData_rule [filaSoloPassword]).2.2.1 (by decide)⟩

end FormularioCliente

/-! ## Field rule precedence -/

namespace FormValidator

open RegExp

/-- Pushing an entry under a condition appends a list of at most one entry. -/
theorem push_si {α : Type} (c : Prop) [Decidable c] (vs : List α) (x : α) :
    (if c then vs ++ [x] else vs) = vs ++ (if c then [x] else []) := by
  split <;> simp

/-- Pushing the registered entries of a list of names appends them in order. -/
theorem foldl_push_some {α β : Type} (f : α → Option β) (l : List α) (acc : List β) :
    l.foldl (fun out x => match f x with
      | some y => out ++ [y]
      | none => out) acc = acc ++ l.filterMap f := by
  induction l generalizing acc with
  | nil => simp
  | cons x l ih =>
    rw [List.foldl_cons, ih]
    cases hf : f x <;> simp [List.filterMap_cons, hf]

/-- The list built by `getFieldValidators`, rule by rule in the order of the pushes. -/
theorem getFieldValidators_orden (e : Entorno) (field : Campo) :
    getFieldValidators e field =
      (if field.required then [reglaRequired] else []) ++
      (match (if field.type = [] then none else rulesAt e field.type) with
        | some test => [reglaTipo field test]
        | none => []) ++
      (if field.pattern ≠ [] then [reglaPattern e field] else []) ++
      (if field.minLength ≠ 0 then [reglaMinLength e field] else []) ++
      (if field.maxLength ≠ 0 then [reglaMaxLength e field] else []) ++
      (if field.min ≠ [] ∧ field.type = ['n', 'u', 'm', 'b', 'e', 'r'] then
        [reglaMin e field] else []) ++
      (if field.max ≠ [] ∧ field.type = ['n', 'u', 'm', 'b', 'e', 'r'] then
        [reglaMax e field] else []) ++
      (customNames field.className).filterMap
        (fun name => (customValidatorsAt e name).map (reglaCustom e name)) := by
  unfold getFieldValidators
  have hc : ∀ acc : List Validador,
      (customNames field.className).foldl
        (fun validators validatorName =>
          match customValidatorsAt e validatorName with
          | some validator => validators ++ [reglaCustom e validatorName validator]
          | none => validators) acc
      = acc ++ (customNames field.className).filterMap
          (fun name => (customValidatorsAt e name).map (reglaCustom e name)) := by
    intro acc
    rw [← foldl_push_some]
    congr 1
    funext out x
    cases customValidatorsAt e x <;> rfl
  simp only [hc, push_si, List.nil_append]
  cases (if field.type = [] then none else rulesAt e field.type) <;> simp

/-- The loop reports a failure exactly when some rule fails. -/
theorem evaluar_false_iff (vs : List Validador) (value : List Char) :
    (evaluar vs value).1 = false ↔ ∃ r ∈ vs, r.validate value = false := by
  induction vs with
  | nil => simp [evaluar]
  | cons v vs ih =>
    unfold evaluar
    cases hv : v.validate value
    · simp [hv]
    · simp [hv, ih]

/-- The loop stops at the first failing rule: the rules after it play no part. -/
theorem evaluar_primero (pre : List Validador) (r : Validador) (post : List Validador)
    (value : List Char) (hpre : ∀ p ∈ pre, p.validate value = true)
    (hr : r.validate value = false) :
    evaluar (pre ++ r :: post) value = (false, r.message) := by
  induction pre with
  | nil => simp [evaluar, hr]
  | cons p pre ih =>
    have hp := hpre p (by simp)
    rw [List.cons_append, evaluar]
    simp only [hp, Bool.not_true, Bool.false_eq_true, if_false]
    exact ih (fun q hq => hpre q (by simp [hq]))

/-- The loop reports success, with an empty message, when every rule passes. -/
theorem evaluar_todos (vs : List Validador) (value : List Char)
    (h : ∀ r ∈ vs, r.validate value = true) : evaluar vs value = (true, "") := by
  induction vs with
  | nil => rfl
  | cons v vs ih =>
    rw [evaluar]
    simp only [h v (by simp), Bool.not_true, Bool.false_eq_true, if_false]
    exact ih (fun q hq => h q (by simp [hq]))

/-- Rule order and short-circuit of the loop of `validateField`.  The rules of a
field are, in this order: required, type pattern, explicit pattern, minLength,
maxLength, min, max, and the custom validators found under the names of its
classes.  The loop finds a failure iff one of them fails on the trimmed value, and
stops at the first one that fails: its message is kept whatever the rules after it
are.  A disabled or read-only field is reported valid without any rule.  Otherwise
`validateField` hands the page, with the feedback text of the field set to the
message of the first failing rule (empty when none fails), to the step-indicator
refresh, and returns the outcome of the loop if that refresh returns; the refresh
does return when the field has no enclosing step or no sidebar item for it. -/
theorem validateField_precedence (e : Entorno) (doc : Documento) (fuel : Nat) (st : Pagina)
    (field : Campo) :
    (getFieldValidators e field =
      (if field.required then [reglaRequired] else []) ++
      (match (if field.type = [] then none else rulesAt e field.type) with
        | some test => [reglaTipo field test]
        | none => []) ++
      (if field.pattern ≠ [] then [reglaPattern e field] else []) ++
      (if field.minLength ≠ 0 then [reglaMinLength e field] else []) ++
      (if field.maxLength ≠ 0 then [reglaMaxLength e field] else []) ++
      (if field.min ≠ [] ∧ field.type = ['n', 'u', 'm', 'b', 'e', 'r'] then
        [reglaMin e field] else []) ++
      (if field.max ≠ [] ∧ field.type = ['n', 'u', 'm', 'b', 'e', 'r'] then
        [reglaMax e field] else []) ++
      (customNames field.className).filterMap
        (fun name => (customValidatorsAt e name).map (reglaCustom e name))) ∧
    ((evaluar (getFieldValidators e field) (trim field.value)).1 = false ↔
      ∃ r ∈ getFieldValidators e field, r.validate (trim field.value) = false) ∧
    (∀ pre r post, getFieldValidators e field = pre ++ r :: post →
      (∀ p ∈ pre, p.validate (trim field.value) = true) →
      r.validate (trim field.value) = false →
      evaluar (getFieldValidators e field) (trim field.value) = (false, r.message)) ∧
    ((field.disabled || field.readOnly) = true →
      validateField e doc (fuel + 1) st (some field) = some (true, st)) ∧
    ((field.disabled || field.readOnly) = false →
      ∃ st1 : Pagina,
        st1.feedback field.padre = some
          (if (evaluar (getFieldValidators e field) (trim field.value)).1 then ""
            else (evaluar (getFieldValidators e field) (trim field.value)).2) ∧
        validateField e doc (fuel + 1) st (some field) =
          (updateStepIndicator (fun st f => validateField e doc fuel st (some f))
            doc st1 field).map
            (fun st2 => ((evaluar (getFieldValidators e field) (trim field.value)).1, st2)) ∧
        (∀ b st2, validateField e doc (fuel + 1) st (some field) = some (b, st2) →
          b = (evaluar (getFieldValidators e field) (trim field.value)).1) ∧
        ((field.paso = none ∨ ∃ n, field.paso = some n ∧ doc.stepItem n = false) →
          validateField e doc (fuel + 1) st (some field) =
            some ((evaluar (getFieldValidators e field) (trim field.value)).1, st1))) := by
  refine ⟨getFieldValidators_orden e field, evaluar_false_iff _ _, ?_, ?_, ?_⟩
  · intro pre r post hl hpre hr
    rw [hl]
    exact evaluar_primero pre r post _ hpre hr
  · intro hg
    simp [validateField, hg]
  · intro hg
    have h1 : validateField e doc (fuel + 1) st (some field) =
        (applyValidationResult (fun st f => validateField e doc fuel st (some f)) doc st field
          (evaluar (getFieldValidators e field) (trim field.value)).1
          (evaluar (getFieldValidators e field) (trim field.value)).2).map
          (fun st2 => ((evaluar (getFieldValidators e field) (trim field.value)).1, st2)) := by
      simp only [validateField, hg, Bool.false_eq_true, if_false]
      cases applyValidationResult (fun st f => validateField e doc fuel st (some f)) doc st
        field (evaluar (getFieldValidators e field) (trim field.value)).1
        (evaluar (getFieldValidators e field) (trim field.value)).2 <;> rfl
    have h2 : applyValidationResult (fun st f => validateField e doc fuel st (some f)) doc st
        field (evaluar (getFieldValidators e field) (trim field.value)).1
        (evaluar (getFieldValidators e field) (trim field.value)).2 =
        updateStepIndicator (fun st f => validateField e doc fuel st (some f)) doc
          ⟨Function.update st.valido field.ident
            (if trim field.value ≠ [] then
              some (evaluar (getFieldValidators e field) (trim field.value)).1 else none),
          Function.update st.feedback field.padre (some
            (if (evaluar (getFieldValidators e field) (trim field.value)).1 then ""
              else (evaluar (getFieldValidators e field) (trim field.value)).2)),
          st.stepValid⟩ field := rfl
    rw [h2] at h1
    refine ⟨_, ?_, h1, ?_, ?_⟩
    · simp
    · intro b st2 h
      rw [h1] at h
      cases hu : updateStepIndicator (fun st f => validateField e doc fuel st (some f)) doc
          ⟨Function.update st.valido field.ident
            (if trim field.value ≠ [] then
              some (evaluar (getFieldValidators e field) (trim field.value)).1 else none),
          Function.update st.feedback field.padre (some
            (if (evaluar (getFieldValidators e field) (trim field.value)).1 then ""
              else (evaluar (getFieldValidators e field) (trim field.value)).2)),
          st.stepValid⟩ field with
      | none => rw [hu] at h; exact absurd h (by simp)
      | some s =>
        rw [hu] at h
        simp only [Option.map_some', Option.some.injEq, Prod.mk.injEq] at h
        exact h.1.symm
    · intro hp
      have hu : ∀ s : Pagina, updateStepIndicator
          (fun st f => validateField e doc fuel st (some f)) doc s field = some s := by
        intro s
        rcases hp with h | ⟨n, h, hn⟩
        · simp [updateStepIndicator, h]
        · simp [updateStepIndicator, h, hn]
      rw [h1, hu]
      rfl

/-- An instance of the rule order: a required e-mail field holding `abc` passes the
rule required and stops at the type rule, before its custom validator; a disabled
field is reported valid. -/
theorem validateField_precedence_witness :
    evaluar (getFieldValidators entornoEjemplo campoEmail) (trim campoEmail.value)
      = (false, (reglaTipo campoEmail rules.email.test).message) ∧
    validateField entornoEjemplo documentoSinPasos 1 paginaInicial (some campoDisabled)
      = some (true, paginaInicial) :=
  ⟨(validateField_precedence entornoEjemplo documentoSinPasos 0 paginaInicial campoEmail).2.2.1
      [reglaRequired] (reglaTipo campoEmail rules.email.test)
      [reglaCustom entornoEjemplo ['i', 'b', 'a', 'n'] (customValidators.iban mayusculasAscii)]
      rfl (by decide) (by decide),
   (validateField_precedence entornoEjemplo documentoSinPasos 0 paginaInicial
      campoDisabled).2.2.2.1 rfl⟩

end FormValidator

/-! ## Access-level rows and formatted telephones -/

namespace FormularioCliente

/-- C21, the failing input.  A level row with blank name, priority and description
and no door checked is serialized: `getNivelesData` pushes a record for every row,
so the untouched row yields a record, alone and next to a filled row. -/
theorem getNivelesData_keeps_empty_row :
    getNivelesData [filaNivelVacia] = [⟨[], [], [], false, none, none, []⟩] ∧
    (getNivelesData [filaNivelVacia, filaNivelLlena, filaNivelVacia]).length = 3 := by
  decide

/-- `getNivelesData` returns one record for each row. -/
theorem getNivelesData_length (items : List FilaNivel) :
    (getNivelesData items).length = items.length := by
  unfold getNivelesData
  suffices h : ∀ acc : List Nivel,
      (items.foldl
        (fun niveles nivel =>
          let puertas : List (Option (List Char)) := []
          let puertas := nivel.puertasGrid.foldl (fun puertas p => puertas ++ [some p]) puertas
          let puertas := nivel.puertasPersonalizadas.foldl
            (fun puertas p => puertas ++ [p.map RegExp.trim]) puertas
          niveles ++ [
            { nombre := RegExp.trim nivel.nombre
              prioridad := nivel.prioridad
              descripcion := RegExp.trim nivel.descripcion
              acceso_24h := nivel.acceso24h
              hora_inicio := oNull nivel.horaInicio
              hora_fin := oNull nivel.horaFin
              puertas := puertas }]) acc).length = acc.length + items.length by
    simpa using h []
  induction items with
  | nil => simp
  | cons x xs ih =>
    intro acc
    rw [List.foldl_cons, ih]
    simp
    omega

end FormularioCliente

namespace FormValidator

/-- C30, the failing input.  The nine digits `612345678` are accepted by the
telephone rule, but `formatTelefono` turns them into `+34  61 234 567`: the prefix
is added with its space, `substring(3)` keeps that space, and the last digit falls
outside the three groups.  The digits left are `34` and the first eight digits, and
the telephone rule rejects the formatted text. -/
theorem formatTelefono_loses_digit :
    rules.telefono.test ['6', '1', '2', '3', '4', '5', '6', '7', '8'] = true ∧
    formatTelefono ['6', '1', '2', '3', '4', '5', '6', '7', '8']
      = ['+', '3', '4', ' ', ' ', '6', '1', ' ', '2', '3', '4', ' ', '5', '6', '7'] ∧
    (formatTelefono ['6', '1', '2', '3', '4', '5', '6', '7', '8']).filter Char.isDigit
      = ['3', '4', '6', '1', '2', '3', '4', '5', '6', '7'] ∧
    customValidators.telefono
      (formatTelefono ['6', '1', '2', '3', '4', '5', '6', '7', '8']) = false := by
  decide

end FormValidator

namespace FormValidator

/-- On nine digits that do not start with `34`, `formatTelefono` always drops the
last digit: the groups are cut one place too early. -/
theorem formatTelefono_nine_digits (d1 d2 d3 d4 d5 d6 d7 d8 d9 : Char)
    (h : ∀ c ∈ [d1, d2, d3, d4, d5, d6, d7, d8, d9], c.isDigit = true)
    (h34 : ¬ (d1 = '3' ∧ d2 = '4')) :
    formatTelefono [d1, d2, d3, d4, d5, d6, d7, d8, d9]
      = ['+', '3', '4', ' ', ' ', d1, d2, ' ', d3, d4, d5, ' ', d6, d7, d8] := by
  have hf : [d1, d2, d3, d4, d5, d6, d7, d8, d9].filter Char.isDigit
      = [d1, d2, d3, d4, d5, d6, d7, d8, d9] :=
    List.filter_eq_self.mpr h
  have hp : (['3', '4'].isPrefixOf [d1, d2, d3, d4, d5, d6, d7, d8, d9]) = false := by
    simp only [List.isPrefixOf, Bool.and_true]
    by_cases h1 : d1 = '3'
    · have h2 : ¬ '4' = d2 := fun h2 => h34 ⟨h1, h2.symm⟩
      simp [h1, h2]
    · have : ¬ '3' = d1 := fun e => h1 e.symm
      simp [this]
  unfold formatTelefono
  simp only [hf, hp, Bool.false_eq_true, if_false, List.length_cons, List.length_nil]
  simp [substring, List.isPrefixOf]

end FormValidator

/-! ## Sidebar classes -/

namespace FormularioCliente

variable {V : Type}

/-- The variable `tieneDatos` of a step holds exactly when the step has a key in
`datosFormulario` and the value kept there is a non-empty object. -/
theorem tieneDatos_iff (noVacio : V → Bool) (s : Estado V) (step : Int) :
    tieneDatos noVacio s step = true ↔
      ∃ k v, claveDePaso step = some k ∧ s.dato k = some v ∧ noVacio v = true := by
  unfold tieneDatos Estado.dato claveDePaso
  cases hdf : s.datosFormulario with
  | none => simp
  | some df =>
    simp only
    split_ifs with h1 h2 h3 h4 h5 h6
    · cases hv : df.datos_empresa <;> simp [DatosFormulario.leer, hv]
    · cases hv : df.info_trasteros <;> simp [DatosFormulario.leer, hv]
    · cases hv : df.usuarios_app <;> simp [DatosFormulario.leer, hv]
    · cases hv : df.config_correo <;> simp [DatosFormulario.leer, hv]
    · cases hv : df.niveles_acceso <;> simp [DatosFormulario.leer, hv]
    · cases hv : df.documentacion <;> simp [DatosFormulario.leer, hv]
    · simp

/-- Among the first `n` positions, the one whose step is `c` is counted once when
`c` lies in `1..n`, and there is no other. -/
theorem countP_paso (c : Int) (n : Nat) :
    (List.range n).countP (fun (index : Nat) => decide ((index : Int) + 1 = c))
      = if 1 ≤ c ∧ c ≤ n then 1 else 0 := by
  induction n with
  | zero =>
    have : ¬ (1 ≤ c ∧ c ≤ 0) := by omega
    simp [this]
  | succ n ih =>
    rw [List.range_succ, List.countP_append, ih]
    simp only [List.countP_cons, List.countP_nil]
    by_cases h1 : (n : Int) + 1 = c
    · have hA : ¬ (1 ≤ c ∧ c ≤ (n : Int)) := by omega
      have hB : 1 ≤ c ∧ c ≤ ((n + 1 : Nat) : Int) := by
        constructor <;> push_cast <;> omega
      rw [if_neg hA, if_pos hB]
      simp [h1]
    · by_cases hA : 1 ≤ c ∧ c ≤ (n : Int)
      · have hB : 1 ≤ c ∧ c ≤ ((n + 1 : Nat) : Int) := by
          constructor <;> push_cast <;> omega
        rw [if_pos hA, if_pos hB]
        simp [h1]
      · have hB : ¬ (1 ≤ c ∧ c ≤ ((n + 1 : Nat) : Int)) := by
          push_cast
          omega
        rw [if_neg hA, if_neg hB]
        simp [h1]

/-- C26. Sidebar classes.  `updateSidebar` classifies each of the sidebar items: the
item of step `index + 1` is `active` iff that step is `currentStep`, whatever data
it has; it is `completed` iff the step is not `currentStep`, is smaller than
`currentStep`, and its entry of `datosFormulario` is a non-empty object; otherwise
it carries neither class, and never both.  No step greater than `currentStep` is
`completed`, at most one item is `active`, and exactly one is when `currentStep`
lies among the items. -/
theorem updateSidebar_classes (noVacio : V → Bool) (s : Estado V) :
    (updateSidebar noVacio s).length = s.stepItems ∧
    (∀ (index : Nat) (c : ClasesItem), (updateSidebar noVacio s)[index]? = some c →
      (c.active = true ↔ (index : Int) + 1 = s.currentStep) ∧
      (c.completed = true ↔
        ((index : Int) + 1 ≠ s.currentStep ∧ (index : Int) + 1 < s.currentStep ∧
          ∃ k v, claveDePaso ((index : Int) + 1) = some k ∧ s.dato k = some v ∧
            noVacio v = true)) ∧
      ¬ (c.active = true ∧ c.completed = true) ∧
      ((index : Int) + 1 > s.currentStep → c.completed = false)) ∧
    (updateSidebar noVacio s).countP (fun c => c.active) ≤ 1 ∧
    (1 ≤ s.currentStep → s.currentStep ≤ s.stepItems →
      (updateSidebar noVacio s).countP (fun c => c.active) = 1) := by
  have hcount : (updateSidebar noVacio s).countP (fun c => c.active)
      = if 1 ≤ s.currentStep ∧ s.currentStep ≤ s.stepItems then 1 else 0 := by
    rw [← countP_paso]
    unfold updateSidebar
    rw [List.countP_map]
    congr 1
    funext index
    simp only [Function.comp]
    by_cases h : (index : Int) + 1 = s.currentStep
    · simp [h]
    · simp only [h, if_false, decide_False]
      split_ifs <;> rfl
  refine ⟨by simp [updateSidebar], ?_, ?_, ?_⟩
  · intro index c hc
    have hlt : index < s.stepItems := by
      by_contra hge
      have : (updateSidebar noVacio s)[index]? = none := by
        apply List.getElem?_eq_none
        simp [updateSidebar]
        omega
      rw [this] at hc
      exact absurd hc (by simp)
    have hcv : c = (if (index : Int) + 1 = s.currentStep then ⟨true, false⟩
        else if (tieneDatos noVacio s ((index : Int) + 1)
          && decide ((index : Int) + 1 < s.currentStep)) = true then ⟨false, true⟩
        else ⟨false, false⟩) := by
      have := hc
      simp only [updateSidebar, List.getElem?_map, List.getElem?_range hlt,
        Option.map_some', Option.some.injEq] at this
      exact this.symm
    have ht := tieneDatos_iff noVacio s ((index : Int) + 1)
    by_cases h : (index : Int) + 1 = s.currentStep
    · rw [if_pos h] at hcv
      subst hcv
      refine ⟨by simp [h], ?_, by simp, by intro _; rfl⟩
      simp [h]
    · rw [if_neg h] at hcv
      by_cases hl : (index : Int) + 1 < s.currentStep
      · cases hd : tieneDatos noVacio s ((index : Int) + 1)
        · rw [hd] at hcv ht
          simp only [Bool.false_and, Bool.false_eq_true, if_false] at hcv
          subst hcv
          refine ⟨by simp [h], ?_, by simp, by intro _; rfl⟩
          constructor
          · intro hx
            exact absurd hx (by simp)
          · rintro ⟨_, _, hex⟩
            exact absurd (ht.mpr hex) (by simp)
        · rw [hd] at hcv ht
          simp only [hl, decide_True, Bool.and_self, if_true] at hcv
          subst hcv
          refine ⟨by simp [h], ?_, by simp, by intro hgt; omega⟩
          constructor
          · intro _
            exact ⟨h, hl, ht.mp rfl⟩
          · intro _
            rfl
      · have hcv2 : c = ⟨false, false⟩ := by
          rw [hcv]
          simp [hl]
        subst hcv2
        refine ⟨by simp [h], ?_, by simp, by intro _; rfl⟩
        constructor
        · intro hx
          exact absurd hx (by simp)
        · rintro ⟨_, hl2, _⟩
          exact absurd hl2 hl
  · rw [hcount]
    split_ifs <;> simp
  · intro h1 h2
    rw [hcount, if_pos ⟨h1, h2⟩]

/-- Witness for C26: on step 4 with data kept for steps 1 and 3, the first of them a
non-empty object and the other an empty one, step 1 is completed, step 4 is active,
the others are pending, and one item is active. -/
theorem updateSidebar_classes_witness :
    updateSidebar (fun v : Int => decide (v ≠ 0)) (sesionConDatos 4)
      = [⟨false, true⟩, ⟨false, false⟩, ⟨false, false⟩, ⟨true, false⟩, ⟨false, false⟩,
          ⟨false, false⟩] ∧
    (updateSidebar (fun v : Int => decide (v ≠ 0)) (sesionConDatos 4)).countP
      (fun c => c.active) = 1 :=
  ⟨by decide,
   (updateSidebar_classes (fun v : Int => decide (v ≠ 0)) (sesionConDatos 4)).2.2.2
      (by decide) (by decide)⟩

end FormularioCliente

/-! ## The re-entrant field check and whole-form validation -/

namespace FormValidator

open RegExp

/-- Once a nested call has failed to return, the loop of `validateStep` has no result
whatever fields follow. -/
theorem validateStep_loop_none (validate : Pagina → Campo → Option (Bool × Pagina))
    (fields : List Campo) :
    fields.foldl
      (fun acc field =>
        match acc with
        | none => none
        | some (allValid, st) =>
          match validate st field with
          | none => none
          | some (ok, st) => some (if !ok then false else allValid, st))
      none = none := by
  induction fields with
  | nil => rfl
  | cons f fs ih => exact ih

/-- The loop of `validateStep` has no result when it reaches a field on which the
nested call never returns. -/
theorem validateStep_loop_mem (validate : Pagina → Campo → Option (Bool × Pagina))
    (fields : List Campo) (field : Campo) (hm : field ∈ fields)
    (hv : ∀ st, validate st field = none) (acc : Option (Bool × Pagina)) :
    fields.foldl
      (fun acc field =>
        match acc with
        | none => none
        | some (allValid, st) =>
          match validate st field with
          | none => none
          | some (ok, st) => some (if !ok then false else allValid, st))
      acc = none := by
  induction fields generalizing acc with
  | nil => exact absurd hm (by simp)
  | cons f fs ih =>
    rw [List.foldl_cons]
    rcases List.mem_cons.mp hm with h | h
    · subst h
      cases acc with
      | none => exact validateStep_loop_none validate fs
      | some p =>
        obtain ⟨allValid, st⟩ := p
        simp only [hv st]
        exact validateStep_loop_none validate fs
    · exact ih h _

/-- C29, refuted.  Take an enabled field whose enclosing `[data-step]` container is
the first element carrying that `data-step` and for which a sidebar
`.step-item` with the same `data-step` exists.  Then `validateField` on it does not
return, whatever nesting depth is allowed: the refresh of the step indicator runs
`validateStep`, which calls `validateField` on the same field again. -/
theorem validateField_never_returns (e : Entorno) (doc : Documento) (n : Int)
    (fields : List Campo) (field : Campo)
    (hd : (field.disabled || field.readOnly) = false) (hp : field.paso = some n)
    (hs : doc.stepItem n = true) (hc : doc.campos n = some fields) (hm : field ∈ fields)
    (fuel : Nat) (st : Pagina) :
    validateField e doc fuel st (some field) = none := by
  induction fuel generalizing st with
  | zero => rfl
  | succ fuel ih =>
    have hstep : ∀ s : Pagina,
        validateStep (fun st f => validateField e doc fuel st (some f)) doc s n = none := by
      intro s
      unfold validateStep
      rw [hc]
      exact validateStep_loop_mem _ fields field hm (fun st => ih st) _
    have hu : ∀ s : Pagina, updateStepIndicator
        (fun st f => validateField e doc fuel st (some f)) doc s field = none := by
      intro s
      simp [updateStepIndicator, hp, hs, hstep]
    simp only [validateField, hd, Bool.false_eq_true, if_false, applyValidationResult, hu]

/-- Witness for C29: the e-mail field of step 1, in a document with a sidebar item
for step 1, with a thousand nested calls allowed. -/
theorem validateField_never_returns_witness :
    validateField entornoEjemplo documentoConPaso 1000 paginaInicial (some campoEmail) = none :=
  validateField_never_returns entornoEjemplo documentoConPaso 1 [campoEmail] campoEmail
    rfl rfl rfl rfl (by simp) 1000 paginaInicial

/-- Without sidebar items carrying `data-step`, `validateField` returns as soon as
one call is allowed. -/
theorem validateField_returns (e : Entorno) (doc : Documento)
    (hs : ∀ n, doc.stepItem n = false) (fuel : Nat) (st : Pagina) (field : Campo) :
    ∃ r, validateField e doc (fuel + 1) st (some field) = some r := by
  have hu : ∀ s : Pagina, updateStepIndicator
      (fun st f => validateField e doc fuel st (some f)) doc s field = some s := by
    intro s
    cases hp : field.paso with
    | none => simp [updateStepIndicator, hp]
    | some n => simp [updateStepIndicator, hp, hs n]
  cases hd : (field.disabled || field.readOnly)
  · simp only [validateField, hd, Bool.false_eq_true, if_false, applyValidationResult, hu]
    exact ⟨_, rfl⟩
  · simp only [validateField, hd, if_true]
    exact ⟨_, rfl⟩

/-- The loop of `validateStep` returns when every nested call does. -/
theorem validateStep_returns (validate : Pagina → Campo → Option (Bool × Pagina))
    (hv : ∀ st f, ∃ r, validate st f = some r) (doc : Documento) (st : Pagina) (n : Int) :
    ∃ r, validateStep validate doc st n = some r := by
  unfold validateStep
  cases doc.campos n with
  | none => exact ⟨_, rfl⟩
  | some fields =>
    simp only
    generalize (true, st) = acc
    induction fields generalizing acc with
    | nil => exact ⟨acc, rfl⟩
    | cons f fs ih =>
      rw [List.foldl_cons]
      obtain ⟨allValid, s⟩ := acc
      obtain ⟨⟨ok, s2⟩, hr⟩ := hv s f
      simp only [hr]
      exact ih _

/-- `validateAllSteps` returns when every nested call does, with one entry for each
of the steps 1 to 6, in this order. -/
theorem validateAllSteps_returns (e : Entorno) (doc : Documento)
    (hs : ∀ n, doc.stepItem n = false) (fuel : Nat) (st : Pagina) :
    ∃ results st2, validateAllSteps e doc (fuel + 1) st = some (results, st2) ∧
      results.map (fun r => r.1) = [1, 2, 3, 4, 5, 6] := by
  have hv := validateStep_returns
    (fun st f => validateField e doc (fuel + 1) st (some f))
    (fun st f => validateField_returns e doc hs fuel st f) doc
  unfold validateAllSteps
  simp only [List.foldl_cons, List.foldl_nil]
  obtain ⟨⟨b1, s1⟩, h1⟩ := hv st 1
  obtain ⟨⟨b2, s2⟩, h2⟩ := hv s1 2
  obtain ⟨⟨b3, s3⟩, h3⟩ := hv s2 3
  obtain ⟨⟨b4, s4⟩, h4⟩ := hv s3 4
  obtain ⟨⟨b5, s5⟩, h5⟩ := hv s4 5
  obtain ⟨⟨b6, s6⟩, h6⟩ := hv s5 6
  simp only [h1, h2, h3, h4, h5, h6]
  exact ⟨_, _, rfl, rfl⟩

end FormValidator

namespace FormValidator

open RegExp

/-- A class name that the registry of custom validators only inherits pushes a rule
all the same: on the field with the class `validate-hasOwnProperty` holding `abc`
the rule fails, its message is the text of the inherited function, and
`validateField` returns false. -/
theorem validateField_inherited_name :
    evaluar (getFieldValidators entornoEjemplo campoHeredado) (trim campoHeredado.value)
      = (false, "function hasOwnProperty() \x7b [native code] \x7d") ∧
    (validateField entornoEjemplo documentoSinPasos 1 paginaInicial
      (some campoHeredado)).map (fun r => r.1) = some false := by
  constructor
  · decide
  · rfl

/-- C18, refuted.  Take an enabled field one of whose rules fails, whose enclosing
`[data-step]` container is the first element carrying that `data-step`, and for
which a sidebar `.step-item` with the same `data-step` exists.  The loop of
`validateField` finds the failure, but `validateField` does not return false: it
produces no result at all, whatever nesting depth is allowed, because the refresh
of the step indicator validates the same field again. -/
theorem validateField_failing_rule_no_result (e : Entorno) (doc : Documento) (n : Int)
    (fields : List Campo) (field : Campo)
    (hd : (field.disabled || field.readOnly) = false) (hp : field.paso = some n)
    (hs : doc.stepItem n = true) (hc : doc.campos n = some fields) (hm : field ∈ fields)
    (hfail : ∃ r ∈ getFieldValidators e field, r.validate (trim field.value) = false) :
    (evaluar (getFieldValidators e field) (trim field.value)).1 = false ∧
    (∀ (fuel : Nat) (st : Pagina), validateField e doc fuel st (some field) = none) ∧
    (∀ (fuel : Nat) (st st2 : Pagina),
      validateField e doc fuel st (some field) ≠ some (false, st2)) := by
  have hnone : ∀ (fuel : Nat) (st : Pagina),
      validateField e doc fuel st (some field) = none := by
    intro fuel
    induction fuel with
    | zero =>
      intro st
      rfl
    | succ fuel ih =>
      intro st
      have hstep : ∀ s : Pagina,
          validateStep (fun st f => validateField e doc fuel st (some f)) doc s n = none := by
        intro s
        unfold validateStep
        rw [hc]
        exact validateStep_loop_mem _ fields field hm (fun st => ih st) _
      have hu : ∀ s : Pagina, updateStepIndicator
          (fun st f => validateField e doc fuel st (some f)) doc s field = none := by
        intro s
        simp [updateStepIndicator, hp, hs, hstep]
      simp only [validateField, hd, Bool.false_eq_true, if_false, applyValidationResult, hu]
  refine ⟨(evaluar_false_iff _ _).mpr hfail, hnone, ?_⟩
  intro fuel st st2 h
  rw [hnone fuel st] at h
  exact absurd h (by simp)

/-- Witness for C18: the e-mail field of step 1 holding `abc`, in a document with a
sidebar item for step 1; its type rule fails. -/
theorem validateField_failing_rule_no_result_witness :
    (evaluar (getFieldValidators entornoEjemplo campoEmail) (trim campoEmail.value)).1 = false ∧
    validateField entornoEjemplo documentoConPaso 50 paginaInicial (some campoEmail) = none := by
  have hl : getFieldValidators entornoEjemplo campoEmail
      = [reglaRequired, reglaTipo campoEmail rules.email.test,
          reglaCustom entornoEjemplo ['i', 'b', 'a', 'n']
            (customValidators.iban mayusculasAscii)] := rfl
  have hr : reglaTipo campoEmail rules.email.test
      ∈ getFieldValidators entornoEjemplo campoEmail := by
    rw [hl]
    simp
  exact ⟨(validateField_failing_rule_no_result entornoEjemplo documentoConPaso 1 [campoEmail]
      campoEmail rfl rfl rfl rfl (by simp) ⟨_, hr, by decide⟩).1,
    (validateField_failing_rule_no_result entornoEjemplo documentoConPaso 1 [campoEmail]
      campoEmail rfl rfl rfl rfl (by simp) ⟨_, hr, by decide⟩).2.1 50 paginaInicial⟩

end FormValidator

namespace FormValidator

/-- The entries of `results` are those of the steps visited, in the order of the
visits. -/
theorem validateAllSteps_loop_keys (validate : Pagina → Int → Option (Bool × Pagina))
    (steps : List Int) (acc : Option (List (Int × Bool) × Pagina))
    (results : List (Int × Bool)) (st : Pagina)
    (h : steps.foldl
      (fun acc i =>
        match acc with
        | none => none
        | some (results, st) =>
          match validate st i with
          | none => none
          | some (ok, st) => some (results ++ [(i, ok)], st))
      acc = some (results, st)) :
    ∃ r0 s0, acc = some (r0, s0) ∧
      results.map (fun r => r.1) = r0.map (fun r => r.1) ++ steps := by
  induction steps generalizing acc with
  | nil =>
    simp only [List.foldl_nil] at h
    exact ⟨results, st, h, by simp⟩
  | cons i steps ih =>
    rw [List.foldl_cons] at h
    obtain ⟨r1, s1, h1, hk⟩ := ih _ h
    cases acc with
    | none => simp at h1
    | some p =>
      obtain ⟨r0, s0⟩ := p
      simp only at h1
      cases hv : validate s0 i with
      | none => simp [hv] at h1
      | some q =>
        obtain ⟨ok, s2⟩ := q
        simp only [hv, Option.some.injEq, Prod.mk.injEq] at h1
        refine ⟨r0, s0, rfl, ?_⟩
        rw [hk, ← h1.1]
        simp

/-- When `validateAllSteps` returns, `results` has the keys 1 to 6, in this order. -/
theorem validateAllSteps_keys (e : Entorno) (doc : Documento) (fuel : Nat) (st : Pagina)
    (results : List (Int × Bool)) (st2 : Pagina)
    (h : validateAllSteps e doc fuel st = some (results, st2)) :
    results.map (fun r => r.1) = [1, 2, 3, 4, 5, 6] := by
  obtain ⟨r0, s0, h0, hk⟩ := validateAllSteps_loop_keys
    (fun st i => validateStep (fun st f => validateField e doc fuel st (some f)) doc st i)
    [1, 2, 3, 4, 5, 6] (some ([], st)) results st2 h
  simp only [Option.some.injEq, Prod.mk.injEq] at h0
  rw [hk, ← h0.1]
  rfl

end FormValidator

namespace FormularioCliente

variable {V : Type}

/-- C27. `goToStep` is an unguarded jump.  For every document, state and number
`n`, `goToStep(n)` ends with `currentStep = n`; the validation of the current step
plays no part in it.  When `n > currentStep` the requests are those left by
`saveCurrentStep` run on the step being left (one new request for that step when
there is a client id and the step is not 6); when `n ≤ currentStep` nothing is
requested.  `validateForm`, when it returns with a failing step, has moved the
controller with `goToStep` to the first step, in the order 1 to 6, whose result is
false; and it does return when no sidebar item carries `data-step`. -/
theorem goToStep_unguarded (d : Dom V) (s : Estado V) (n : Int) :
    (goToStep d s n).currentStep = n ∧
    (∀ d2 : Dom V, d2.extrae = d.extrae → goToStep d2 s n = goToStep d s n) ∧
    (n > s.currentStep →
      (goToStep d s n).requests = (saveCurrentStep d s).requests ∧
      ∀ c, s.clienteId = some c → s.currentStep ≠ 6 →
        (goToStep d s n).requests =
          s.requests ++ [⟨c, s.currentStep, d.extrae s.currentStep⟩]) ∧
    (n ≤ s.currentStep →
      (goToStep d s n).requests = s.requests ∧
      (goToStep d s n).saveStatus = s.saveStatus) ∧
    (∀ (e : FormValidator.Entorno) (doc : FormValidator.Documento) (fuel : Nat)
        (st : FormValidator.Pagina) (r : FormValidator.ResultadoFormulario V),
      FormValidator.validateForm e doc fuel d st (some s) = some r → r.isValid = false →
      ∃ antes m despues, r.stepResults = antes ++ (m, false) :: despues ∧
        (∀ x ∈ antes, x.2 = true) ∧
        r.stepResults.map (fun x => x.1) = [1, 2, 3, 4, 5, 6] ∧
        r.formularioCliente = some (goToStep d s m) ∧
        (goToStep d s m).currentStep = m) ∧
    (∀ (e : FormValidator.Entorno) (doc : FormValidator.Documento) (fuel : Nat)
        (st : FormValidator.Pagina), (∀ k, doc.stepItem k = false) →
      ∃ r, FormValidator.validateForm e doc (fuel + 1) d st (some s) = some r) := by
  refine ⟨(navigateToStep_frame d s n).1, ?_, ?_, ?_, ?_, ?_⟩
  · intro d2 h2
    simp [goToStep, _navigateToStep, saveCurrentStep, getCurrentStepData, h2]
  · intro hgt
    refine ⟨by simp [goToStep, _navigateToStep, hgt], ?_⟩
    intro c hc h6
    simp only [goToStep, _navigateToStep, hgt, if_true, saveCurrentStep, hc, h6, if_false,
      updateSaveStatus, getCurrentStepData]
    cases hE : s.statusElems <;> simp
  · intro hle
    have hgt : ¬ (n > s.currentStep) := by omega
    simp [goToStep, _navigateToStep, hgt]
  · intro e doc fuel st r h hinv
    unfold FormValidator.validateForm at h
    cases hA : FormValidator.validateAllSteps e doc fuel st with
    | none => simp [hA] at h
    | some p =>
      obtain ⟨results, st2⟩ := p
      have hkeys := FormValidator.validateAllSteps_keys e doc fuel st results st2 hA
      simp only [hA, Option.some.injEq] at h
      subst h
      simp only at hinv
      simp only [hinv, Bool.not_false, if_true]
      cases hf : results.find? (fun r => !r.2) with
      | none =>
        exfalso
        rw [List.find?_eq_none] at hf
        have : results.all (fun r => r.2) = true := by
          rw [List.all_eq_true]
          intro x hx
          simpa using hf x hx
        rw [this] at hinv
        exact absurd hinv (by simp)
      | some x =>
        obtain ⟨m, b⟩ := x
        have hb : b = false := by simpa using List.find?_some hf
        subst hb
        obtain ⟨_, antes, despues, hres, hpre⟩ := List.find?_eq_some.mp hf
        refine ⟨antes, m, despues, hres, ?_, hkeys, rfl, (navigateToStep_frame d s m).1⟩
        intro y hy
        simpa using hpre y hy
  · intro e doc fuel st hs
    obtain ⟨results, st2, hA, _⟩ := FormValidator.validateAllSteps_returns e doc hs fuel st
    unfold FormValidator.validateForm
    rw [hA]
    exact ⟨_, rfl⟩

/-- Witness for C27: a jump from step 1 to step 9 of six; a jump forward from step 2
to step 5 requests the save of step 2; and with the required field of step 2 left
empty, `validateForm` moves the controller from step 5 to step 2. -/
theorem goToStep_unguarded_witness :
    (goToStep domValido (sesion 1) 9).currentStep = 9 ∧
    (goToStep domValido (sesion 2) 5).requests = [] ++ [⟨"c1", 2, 20⟩] ∧
    (goToStep domValido (sesion 5) 2).requests = [] ∧
    ∃ r, FormValidator.validateForm FormValidator.entornoEjemplo
        FormValidator.documentoPasoDos 1 domValido FormValidator.paginaInicial
        (some (sesion 5)) = some r ∧
      r.formularioCliente = some (goToStep domValido (sesion 5) 2) :=
  ⟨(goToStep_unguarded domValido (sesion 1) 9).1,
   ((goToStep_unguarded domValido (sesion 2) 5).2.2.1 (by decide)).2 "c1" rfl (by decide),
   ((goToStep_unguarded domValido (sesion 5) 2).2.2.2.1 (by decide)).1,
   by
    obtain ⟨r, hr⟩ := (goToStep_unguarded domValido (sesion 5) 2).2.2.2.2.2
      FormValidator.entornoEjemplo FormValidator.documentoPasoDos 0
      FormValidator.paginaInicial (fun _ => rfl)
    refine ⟨r, hr, ?_⟩
    have hr2 := hr
    simp only [FormValidator.validateForm, FormValidator.validateAllSteps,
      FormValidator.validateStep, FormValidator.documentoPasoDos, List.foldl_cons,
      List.foldl_nil] at hr2
    simp [FormValidator.validateField, FormValidator.applyValidationResult,
      FormValidator.updateStepIndicator, FormValidator.campoVacio,
      FormValidator.getFieldValidators, FormValidator.evaluar,
      FormValidator.reglaRequired, FormValidator.customNames, FormValidator.rulesAt,
      RegExp.trim] at hr2
    rw [← hr2]⟩

end FormularioCliente

/-! ## Validation of the record steps -/

namespace FormularioCliente

open RegExp

/-- A loop that lowers a flag on each failing row and pushes each row marked. -/
theorem foldl_marca {α : Type} (ok : α → Bool) (g : α → α) (l : List α)
    (acc : Bool × List α) :
    l.foldl (fun acc x => (acc.1 && ok x, acc.2 ++ [g x])) acc
      = (acc.1 && l.all ok, acc.2 ++ l.map g) := by
  induction l generalizing acc with
  | nil => simp
  | cons x l ih =>
    rw [List.foldl_cons, ih]
    simp [Bool.and_assoc]

/-- The input left by the inner loop does not depend on the flag. -/
theorem revisarControl_fst (f : Option Control) (b : Bool) :
    (revisarControl f b).1 = (revisarControl f true).1 := by
  unfold revisarControl
  cases f with
  | none => rfl
  | some c => by_cases h : trim c.value = [] <;> simp [h]

/-- The flag left by the inner loop: lowered on a missing or blank input. -/
theorem revisarControl_snd (f : Option Control) (b : Bool) :
    (revisarControl f b).2 = (b && !enBlanco f) := by
  unfold revisarControl enBlanco
  cases f with
  | none => simp
  | some c => by_cases h : trim c.value = [] <;> simp [h]

/-- Marking an input does not change what it holds. -/
theorem revisarControl_value (f : Option Control) (b : Bool) :
    (revisarControl f b).1.map (fun c => c.value) = f.map (fun c => c.value) := by
  unfold revisarControl
  cases f with
  | none => rfl
  | some c => by_cases h : trim c.value = [] <;> simp [h]

/-- Marking an input twice is marking it once. -/
theorem revisarControl_idem (f : Option Control) (b : Bool) :
    (revisarControl (revisarControl f true).1 b).1 = (revisarControl f true).1 := by
  unfold revisarControl
  cases f with
  | none => rfl
  | some c => by_cases h : trim c.value = [] <;> simp [h]

/-- Whether an input is blank is not changed by marking it. -/
theorem enBlanco_revisar (f : Option Control) (b : Bool) :
    enBlanco (revisarControl f b).1 = enBlanco f := by
  unfold revisarControl enBlanco
  cases f with
  | none => rfl
  | some c => by_cases h : trim c.value = [] <;> simp [h]

/-- An input is blank exactly when the text read from it, taken as empty when the
input is missing, is empty after trimming. -/
theorem enBlanco_iff (f : Option Control) :
    enBlanco f = false ↔ trim (oVacio (f.map (fun c => c.value))) ≠ [] := by
  cases f with
  | none => simp [enBlanco, oVacio, trim]
  | some c => simp [enBlanco, oVacio]

/-- `_validateTrasterosStep` in closed form. -/
theorem validateTrasterosStep_eq (trasteros : List ItemTrastero) :
    _validateTrasterosStep trasteros
      = (decide (trasteros ≠ []) && trasteros.all trasteroCompleto,
          trasteros.map marcarTrastero) := by
  unfold _validateTrasterosStep
  cases trasteros with
  | nil => simp
  | cons t ts =>
    have hfun : (fun (acc : Bool × List ItemTrastero) (trastero : ItemTrastero) =>
        let r1 := revisarControl trastero.numero acc.1
        let r2 := revisarControl trastero.metros r1.2
        let r3 := revisarControl trastero.precio_sin_iva r2.2
        let marcado : ItemTrastero :=
          { trastero with numero := r1.1, metros := r2.1, precio_sin_iva := r3.1 }
        (r3.2, acc.2 ++ [marcado]))
        = (fun acc x => (acc.1 && trasteroCompleto x, acc.2 ++ [marcarTrastero x])) := by
      funext acc x
      simp only [revisarControl_snd, trasteroCompleto, marcarTrastero, Bool.and_assoc]
      rw [revisarControl_fst x.numero, revisarControl_fst x.metros,
        revisarControl_fst x.precio_sin_iva]
    rw [if_neg (by simp), hfun, foldl_marca]
    simp

/-- The condition under which `_validateUsuariosStep` flags the confirmation. -/
theorem passwordDistinto_eq (u : ItemUsuario) :
    (!esFalsy (u.password.map (fun c => c.value))
      && !esFalsy (u.confirmPassword.map (fun c => c.value))
      && u.password.map (fun c => c.value) != u.confirmPassword.map (fun c => c.value))
      = passwordDistinto u := by
  unfold passwordDistinto
  cases hp : u.password with
  | none => simp [esFalsy]
  | some p =>
    cases hc : u.confirmPassword with
    | none => simp [esFalsy]
    | some c =>
      simp only [Option.map_some', esFalsy]
      by_cases h1 : p.value = [] <;> by_cases h2 : c.value = [] <;>
        by_cases h3 : p.value = c.value <;> simp [h1, h2, h3, bne]

/-- `_validateUsuariosStep` in closed form. -/
theorem validateUsuariosStep_eq (usuarios : List ItemUsuario) :
    _validateUsuariosStep usuarios
      = (decide (usuarios ≠ []) && usuarios.all usuarioCompleto,
          usuarios.map marcarUsuario) := by
  unfold _validateUsuariosStep
  cases usuarios with
  | nil => simp
  | cons t ts =>
    have hfun : (fun (acc : Bool × List ItemUsuario) (usuario : ItemUsuario) =>
        let password := usuario.password.map (fun c => c.value)
        let confirm := usuario.confirmPassword.map (fun c => c.value)
        let r1 := revisarControl usuario.nombre acc.1
        let r2 := revisarControl usuario.email r1.2
        let r3 := revisarControl usuario.password r2.2
        let r4 := revisarControl usuario.confirmPassword r3.2
        let marcado : ItemUsuario :=
          { usuario with nombre := r1.1, email := r2.1, password := r3.1, confirmPassword := r4.1 }
        if (!esFalsy password && !esFalsy confirm && password != confirm) = true then
          let confirmPassword := marcado.confirmPassword.map (fun c => { c with isInvalid := true })
          (false, acc.2 ++ [{ marcado with confirmPassword := confirmPassword }])
        else
          (r4.2, acc.2 ++ [marcado]))
        = (fun acc x => (acc.1 && usuarioCompleto x, acc.2 ++ [marcarUsuario x])) := by
      funext acc x
      simp only [passwordDistinto_eq, revisarControl_snd, usuarioCompleto, marcarUsuario]
      rw [revisarControl_fst x.nombre, revisarControl_fst x.email,
        revisarControl_fst x.password, revisarControl_fst x.confirmPassword]
      cases hd : passwordDistinto x <;> simp [Bool.and_assoc]
    rw [if_neg (by simp), hfun, foldl_marca]
    simp

/-- The two branches of `_validateNivelesStep` on one input. -/
theorem revisarNivel_eq (f : Control) (b : Bool) :
    revisarNivel f b = ((revisarNivel f true).1, b && decide (trim f.value ≠ [])) := by
  unfold revisarNivel
  by_cases h : trim f.value = [] <;> simp [h]

/-- `_validateNivelesStep` in closed form. -/
theorem validateNivelesStep_eq (niveles : List ItemNivel) :
    _validateNivelesStep niveles
      = (decide (niveles ≠ []) && niveles.all nivelCompleto, niveles.map marcarNivel) := by
  unfold _validateNivelesStep
  cases niveles with
  | nil => simp
  | cons t ts =>
    have hfun : (fun (acc : Bool × List ItemNivel) (nivel : ItemNivel) =>
        let r1 := revisarNivel nivel.nombre acc.1
        let r2 := revisarNivel nivel.descripcion r1.2
        (r2.2, acc.2 ++ [{ nivel with nombre := r1.1, descripcion := r2.1 }]))
        = (fun acc x => (acc.1 && nivelCompleto x, acc.2 ++ [marcarNivel x])) := by
      funext acc x
      simp only [nivelCompleto, marcarNivel]
      rw [revisarNivel_eq x.nombre acc.1]
      simp only
      rw [revisarNivel_eq x.descripcion]
      simp [Bool.and_assoc]
    rw [if_neg (by simp), hfun, foldl_marca]
    simp

end FormularioCliente

namespace FormularioCliente

open RegExp

/-- The password and its confirmation of a row differ, both being non-empty, exactly
when the texts read from them do. -/
theorem passwordDistinto_iff (u : ItemUsuario) :
    passwordDistinto u = false ↔
      ¬ (oVacio u.fila.password ≠ [] ∧ oVacio u.fila.confirmPassword ≠ [] ∧
          u.fila.password ≠ u.fila.confirmPassword) := by
  unfold passwordDistinto ItemUsuario.fila
  cases hp : u.password with
  | none => simp [oVacio]
  | some p =>
    cases hc : u.confirmPassword with
    | none => simp [oVacio]
    | some c => simp [oVacio]

/-- C23. Validation of the record steps.  At step 2, 3 and 5 `validateCurrentStep`
returns true iff the step has at least one row other than the template and in every
row the required inputs are present and non-blank after trimming: number, area and
price without tax of a storage unit; name, e-mail, password and confirmation of a
user; name and description of an access level; and, for a user, the password and
the confirmation are not both non-empty and different. -/
theorem validateCurrentStep_records (nav : Navegador) (doc : Formulario) :
    ((doc.validateCurrentStep nav 2).1 = true ↔
      doc.trasteros ≠ [] ∧ ∀ t ∈ doc.trasteros,
        trim (oVacio t.fila.numero) ≠ [] ∧ trim (oVacio t.fila.metros) ≠ [] ∧
        trim (oVacio t.fila.precio_sin_iva) ≠ []) ∧
    ((doc.validateCurrentStep nav 3).1 = true ↔
      doc.usuarios ≠ [] ∧ ∀ u ∈ doc.usuarios,
        trim (oVacio u.fila.nombre) ≠ [] ∧ trim (oVacio u.fila.email) ≠ [] ∧
        trim (oVacio u.fila.password) ≠ [] ∧ trim (oVacio u.fila.confirmPassword) ≠ [] ∧
        ¬ (oVacio u.fila.password ≠ [] ∧ oVacio u.fila.confirmPassword ≠ [] ∧
            u.fila.password ≠ u.fila.confirmPassword)) ∧
    ((doc.validateCurrentStep nav 5).1 = true ↔
      doc.niveles ≠ [] ∧ ∀ n ∈ doc.niveles,
        trim n.fila.nombre ≠ [] ∧ trim n.fila.descripcion ≠ []) := by
  refine ⟨?_, ?_, ?_⟩
  · have h : (doc.validateCurrentStep nav 2).1 = (_validateTrasterosStep doc.trasteros).1 := by
      simp [Formulario.validateCurrentStep]
    rw [h, validateTrasterosStep_eq]
    simp only [Bool.and_eq_true, decide_eq_true_eq, List.all_eq_true, trasteroCompleto,
      Bool.not_eq_true', enBlanco_iff]
    constructor
    · rintro ⟨h0, hall⟩
      exact ⟨h0, fun t ht => ⟨(hall t ht).1.1, (hall t ht).1.2, (hall t ht).2⟩⟩
    · rintro ⟨h0, hall⟩
      exact ⟨h0, fun t ht => ⟨⟨(hall t ht).1, (hall t ht).2.1⟩, (hall t ht).2.2⟩⟩
  · have h : (doc.validateCurrentStep nav 3).1 = (_validateUsuariosStep doc.usuarios).1 := by
      simp [Formulario.validateCurrentStep]
    rw [h, validateUsuariosStep_eq]
    simp only [Bool.and_eq_true, decide_eq_true_eq, List.all_eq_true, usuarioCompleto,
      Bool.not_eq_true', enBlanco_iff, passwordDistinto_iff]
    constructor
    · rintro ⟨h0, hall⟩
      exact ⟨h0, fun u hu => ⟨(hall u hu).1.1.1.1, (hall u hu).1.1.1.2, (hall u hu).1.1.2,
        (hall u hu).1.2, (hall u hu).2⟩⟩
    · rintro ⟨h0, hall⟩
      exact ⟨h0, fun u hu => ⟨⟨⟨⟨(hall u hu).1, (hall u hu).2.1⟩, (hall u hu).2.2.1⟩,
        (hall u hu).2.2.2.1⟩, (hall u hu).2.2.2.2⟩⟩
  · have h : (doc.validateCurrentStep nav 5).1 = (_validateNivelesStep doc.niveles).1 := by
      simp [Formulario.validateCurrentStep]
    rw [h, validateNivelesStep_eq]
    simp only [Bool.and_eq_true, decide_eq_true_eq, List.all_eq_true, nivelCompleto,
      ItemNivel.fila]

/-- Witness for C23: the document with one filled row in each record step validates
at step 2; with no row it does not; and a user row whose confirmation differs from
the password fails step 3. -/
theorem validateCurrentStep_records_witness :
    (formularioLleno.validateCurrentStep navegadorEjemplo 2).1 = true ∧
    ¬ ((⟨[], [], [], fun _ => none⟩ : Formulario).validateCurrentStep navegadorEjemplo 2).1
        = true ∧
    ¬ ((⟨[], [itemUsuarioDistinto], [], fun _ => none⟩ : Formulario).validateCurrentStep
        navegadorEjemplo 3).1 = true :=
  ⟨(validateCurrentStep_records navegadorEjemplo formularioLleno).1.mpr
      ⟨by decide, by decide⟩,
   fun h => ((validateCurrentStep_records navegadorEjemplo ⟨[], [], [], fun _ => none⟩).1.mp
      h).1 rfl,
   fun h => (((validateCurrentStep_records navegadorEjemplo
      ⟨[], [itemUsuarioDistinto], [], fun _ => none⟩).2.1.mp h).2
        itemUsuarioDistinto (by simp)).2.2.2.2 (by decide)⟩

end FormularioCliente

/-! ## Validation and extraction of the record steps -/

namespace FormularioCliente

open RegExp

/-- `getTrasterosData` keeps the rows that have some non-empty field. -/
theorem getTrasterosData_filtro (items : List FilaTrastero) :
    getTrasterosData items = (items.filter tieneAlgunCampo).map registroTrastero := by
  unfold getTrasterosData
  have hpaso : ∀ (out : List Trastero) (x : FilaTrastero),
      (let data : Trastero :=
          { numero_trastero := oVacio (x.numero.map trim)
            metros := oVacio x.metros
            metros_cubicos := oVacio x.cubicos
            precio_sin_iva := oVacio x.precio_sin_iva
            precio_con_iva := oVacio x.precio_con_iva
            fianza := oVacio x.fianza
            descripcion := oVacio x.descripcion }
        let hasAnyValue :=
          [data.numero_trastero, data.metros, data.metros_cubicos, data.precio_sin_iva,
            data.precio_con_iva, data.fianza, data.descripcion].any (fun v => v != [])
        if !hasAnyValue then out else out ++ [data])
      = (if !tieneAlgunCampo x then out else out ++ [registroTrastero x]) := by
    intro out x
    have hn : oVacio (x.numero.map trim) = trim (oVacio x.numero) := by
      cases x.numero <;> rfl
    have hk : ([trim (oVacio x.numero), oVacio x.metros, oVacio x.cubicos,
        oVacio x.precio_sin_iva, oVacio x.precio_con_iva, oVacio x.fianza,
        oVacio x.descripcion].any (fun v => v != [])) = tieneAlgunCampo x := by
      have hd : ∀ l : List Char, decide (l = []) = l.isEmpty := by
        intro l
        cases l <;> simp
      simp only [tieneAlgunCampo, List.any_cons, List.any_nil, Bool.or_false, bne_iff_ne,
        ne_eq, Bool.decide_or]
      simp [bne, Bool.or_assoc, hd]
    simp only [hn, hk, registroTrastero]
  have := foldl_push tieneAlgunCampo registroTrastero items []
  simp only [List.nil_append] at this
  rw [← this]
  congr 1
  funext out x
  exact hpaso out x

/-- `getUsuariosData` keeps the rows that have a name or an e-mail. -/
theorem getUsuariosData_filtro (items : List FilaUsuario) :
    getUsuariosData items = (items.filter tieneNombreOEmail).map registroUsuario := by
  unfold getUsuariosData
  have hf : ∀ x : Option (List Char), esFalsy (x.map trim) = decide (trim (oVacio x) = []) := by
    intro x
    cases x with
    | none => rfl
    | some v => cases h : trim v <;> simp [esFalsy, oVacio, h]
  have := foldl_push tieneNombreOEmail registroUsuario items []
  simp only [List.nil_append] at this
  rw [← this]
  congr 1
  funext out x
  have hcond : (esFalsy (x.nombre.map trim) && esFalsy (x.email.map trim))
      = !tieneNombreOEmail x := by
    rw [hf, hf]
    simp [tieneNombreOEmail]
  simp only [hcond]
  rfl

/-- Marking a storage-unit row changes nothing of what extraction reads. -/
theorem marcarTrastero_fila (t : ItemTrastero) : (marcarTrastero t).fila = t.fila := by
  simp only [marcarTrastero, ItemTrastero.fila, revisarControl_value]

/-- Marking a user row changes nothing of what extraction reads. -/
theorem marcarUsuario_fila (u : ItemUsuario) : (marcarUsuario u).fila = u.fila := by
  have hc : ∀ o : Option Control,
      (o.map (fun c => { c with isInvalid := true })).map (fun c => c.value)
        = o.map (fun c => c.value) := by
    intro o
    cases o <;> rfl
  simp only [marcarUsuario, ItemUsuario.fila]
  split_ifs <;> simp only [hc, revisarControl_value]

/-- C28. Validation and extraction agree on the rows.  Whenever `validateCurrentStep`
returns true at step 2, `getTrasterosData` returns a non-empty list with exactly one
record for each row other than the template, in row order; the same holds at step 3
for `getUsuariosData`.  The payload is the same whether it is read before the
classes are written or after. -/
theorem validation_extraction_agree (nav : Navegador) (doc : Formulario) :
    ((doc.validateCurrentStep nav 2).1 = true →
      doc.getCurrentStepData 2
        = .trasteros (doc.trasteros.map (fun t => registroTrastero t.fila)) ∧
      (doc.validateCurrentStep nav 2).2.getCurrentStepData 2 = doc.getCurrentStepData 2 ∧
      getTrasterosData (doc.trasteros.map ItemTrastero.fila) ≠ [] ∧
      (getTrasterosData (doc.trasteros.map ItemTrastero.fila)).length
        = doc.trasteros.length) ∧
    ((doc.validateCurrentStep nav 3).1 = true →
      doc.getCurrentStepData 3
        = .usuarios (doc.usuarios.map (fun u => registroUsuario u.fila)) ∧
      (doc.validateCurrentStep nav 3).2.getCurrentStepData 3 = doc.getCurrentStepData 3 ∧
      getUsuariosData (doc.usuarios.map ItemUsuario.fila) ≠ [] ∧
      (getUsuariosData (doc.usuarios.map ItemUsuario.fila)).length = doc.usuarios.length) := by
  constructor
  · intro hv
    have h : (doc.validateCurrentStep nav 2).1 = (_validateTrasterosStep doc.trasteros).1 := by
      simp [Formulario.validateCurrentStep]
    rw [h, validateTrasterosStep_eq] at hv
    simp only [Bool.and_eq_true, decide_eq_true_eq, List.all_eq_true] at hv
    obtain ⟨hne, hall⟩ := hv
    have hkeep : ∀ f ∈ doc.trasteros.map ItemTrastero.fila, tieneAlgunCampo f = true := by
      intro f hf
      obtain ⟨t, ht, rfl⟩ := List.mem_map.mp hf
      have hc := hall t ht
      simp only [trasteroCompleto, Bool.and_eq_true, Bool.not_eq_true', enBlanco_iff] at hc
      simp only [tieneAlgunCampo, decide_eq_true_eq]
      exact Or.inl hc.1.1
    have hdata : getTrasterosData (doc.trasteros.map ItemTrastero.fila)
        = doc.trasteros.map (fun t => registroTrastero t.fila) := by
      rw [getTrasterosData_filtro, List.filter_eq_self.mpr hkeep, List.map_map]
      rfl
    have hmarca : (doc.validateCurrentStep nav 2).2.trasteros
        = doc.trasteros.map marcarTrastero := by
      simp [Formulario.validateCurrentStep, validateTrasterosStep_eq]
    refine ⟨?_, ?_, ?_, ?_⟩
    · simp [Formulario.getCurrentStepData, hdata]
    · simp only [Formulario.getCurrentStepData, if_true, hmarca, List.map_map]
      congr 2
      apply List.map_congr_left
      intro t _
      exact marcarTrastero_fila t
    · rw [hdata]
      simpa using hne
    · rw [hdata, List.length_map]
  · intro hv
    have h : (doc.validateCurrentStep nav 3).1 = (_validateUsuariosStep doc.usuarios).1 := by
      simp [Formulario.validateCurrentStep]
    rw [h, validateUsuariosStep_eq] at hv
    simp only [Bool.and_eq_true, decide_eq_true_eq, List.all_eq_true] at hv
    obtain ⟨hne, hall⟩ := hv
    have hkeep : ∀ f ∈ doc.usuarios.map ItemUsuario.fila, tieneNombreOEmail f = true := by
      intro f hf
      obtain ⟨u, hu, rfl⟩ := List.mem_map.mp hf
      have hc := hall u hu
      simp only [usuarioCompleto, Bool.and_eq_true, Bool.not_eq_true', enBlanco_iff] at hc
      simp only [tieneNombreOEmail, decide_eq_true_eq]
      exact Or.inl hc.1.1.1.1
    have hdata : getUsuariosData (doc.usuarios.map ItemUsuario.fila)
        = doc.usuarios.map (fun u => registroUsuario u.fila) := by
      rw [getUsuariosData_filtro, List.filter_eq_self.mpr hkeep, List.map_map]
      rfl
    have hmarca : (doc.validateCurrentStep nav 3).2.usuarios
        = doc.usuarios.map marcarUsuario := by
      simp [Formulario.validateCurrentStep, validateUsuariosStep_eq]
    refine ⟨?_, ?_, ?_, ?_⟩
    · simp [Formulario.getCurrentStepData, hdata]
    · simp only [Formulario.getCurrentStepData, if_true, hmarca, List.map_map]
      simp only [show (3 : Int) ≠ 2 by decide, if_false]
      congr 2
      apply List.map_congr_left
      intro u _
      exact marcarUsuario_fila u
    · rw [hdata]
      simpa using hne
    · rw [hdata, List.length_map]

/-- Witness for C28: one filled storage-unit row gives one record. -/
theorem validation_extraction_agree_witness :
    formularioLleno.getCurrentStepData 2
      = .trasteros [⟨['A', '1'], ['5'], [], ['4', '0'], [], [], []⟩] ∧
    (getUsuariosData (formularioLleno.usuarios.map ItemUsuario.fila)).length = 1 :=
  ⟨((validation_extraction_agree navegadorEjemplo formularioLleno).1 (by decide)).1,
   ((validation_extraction_agree navegadorEjemplo formularioLleno).2 (by decide)).2.2.2⟩

end FormularioCliente

/-! ## Validation of the flat steps, and idempotence -/

namespace FormularioCliente

open RegExp

/-- `_validateRequiredFields` in closed form: the labels of the fields whose callback
pushes, in order, and every field after its callback. -/
theorem validateRequiredFields_eq (nav : Navegador) (fields : List Entrada) :
    _validateRequiredFields nav fields
      = ((fields.filter (fun f => (revisarRequerido nav f).1)).map (fun f => f.etiqueta),
          fields.map (fun f => (revisarRequerido nav f).2)) := by
  unfold _validateRequiredFields
  suffices h : ∀ acc : List (List Char) × List Entrada,
      fields.foldl
        (fun (acc : List (List Char) × List Entrada) field =>
          let fieldLabel := field.etiqueta
          let r := revisarRequerido nav field
          (if r.1 then acc.1 ++ [fieldLabel] else acc.1, acc.2 ++ [r.2])) acc
        = (acc.1 ++ (fields.filter (fun f => (revisarRequerido nav f).1)).map
              (fun f => f.etiqueta),
            acc.2 ++ fields.map (fun f => (revisarRequerido nav f).2)) by
    simpa using h ([], [])
  induction fields with
  | nil => simp
  | cons f fs ih =>
    intro acc
    rw [List.foldl_cons, ih]
    cases h : (revisarRequerido nav f).1 <;> simp [List.filter_cons, h]

/-- Writing back the required inputs after a change `g` is applying `g` to the
required inputs where they stand. -/
theorem reponer_map (g : Entrada → Entrada) (campos : List Entrada) :
    reponer campos ((campos.filter (fun c => c.required)).map g)
      = campos.map (fun c => if c.required then g c else c) := by
  induction campos with
  | nil => rfl
  | cons c cs ih =>
    cases h : c.required
    · simp [reponer, List.filter_cons, h, ih]
    · simp [reponer, List.filter_cons, h, ih]

/-- Whether the callback of `_validateRequiredFields` pushes the label of a field
depends on its value, type and pattern only. -/
theorem revisarRequerido_congr (nav : Navegador) (f g : Entrada) (hv : f.value = g.value)
    (ht : f.type = g.type) (hp : f.pattern = g.pattern) :
    (revisarRequerido nav f).1 = (revisarRequerido nav g).1 := by
  simp only [revisarRequerido, hv, ht, hp]
  split_ifs <;> rfl

/-- The callback of `_validateRequiredFields` sets `is-invalid` and clears
`is-valid` when it pushes the label, and does the opposite otherwise. -/
theorem revisarRequerido_snd (nav : Navegador) (f : Entrada) :
    (revisarRequerido nav f).2
      = { f with isInvalid := (revisarRequerido nav f).1,
                 isValid := !(revisarRequerido nav f).1 } := by
  simp only [revisarRequerido]
  split_ifs <;> rfl

/-- The callback of `_validateRequiredFields` run on a field that it has marked
gives the same outcome and the same classes. -/
theorem revisarRequerido_idem (nav : Navegador) (f : Entrada) :
    revisarRequerido nav (revisarRequerido nav f).2 = revisarRequerido nav f := by
  have hs := revisarRequerido_snd nav f
  have hc : (revisarRequerido nav (revisarRequerido nav f).2).1 = (revisarRequerido nav f).1 := by
    apply revisarRequerido_congr <;> rw [hs]
  refine Prod.ext hc ?_
  rw [revisarRequerido_snd nav (revisarRequerido nav f).2, hc, hs]

/-- The callback of `_validateRequiredFields` writes classes only. -/
theorem revisarRequerido_required (nav : Navegador) (f : Entrada) :
    (revisarRequerido nav f).2.required = f.required := by
  rw [revisarRequerido_snd]

/-- Marking a marked input changes nothing. -/
theorem marcarRequerido_idem (nav : Navegador) (c : Entrada) :
    marcarRequerido nav (marcarRequerido nav c) = marcarRequerido nav c := by
  unfold marcarRequerido
  cases h : c.required
  · simp [h]
  · simp [h, revisarRequerido_required, revisarRequerido_idem]

/-- Whether the label of a required input is pushed is the same before and after
the input is marked. -/
theorem marcarRequerido_falla (nav : Navegador) (c : Entrada) :
    ((marcarRequerido nav c).required && (revisarRequerido nav (marcarRequerido nav c)).1)
      = (c.required && (revisarRequerido nav c).1) := by
  unfold marcarRequerido
  cases h : c.required
  · simp [h]
  · simp [h, revisarRequerido_required, revisarRequerido_idem]

/-- `validateCurrentStep` on a flat step in closed form: it returns true iff no
required input of the step has its label pushed, and it marks the required inputs
where they stand. -/
theorem validateCurrentStep_plano (nav : Navegador) (doc : Formulario) (n : Int)
    (h2 : n ≠ 2) (h3 : n ≠ 3) (h5 : n ≠ 5) :
    doc.validateCurrentStep nav n
      = (((doc.paso n).getD []).all (fun c => !(c.required && (revisarRequerido nav c).1)),
          ⟨doc.trasteros, doc.usuarios, doc.niveles, Function.update doc.paso n
              ((doc.paso n).map (fun campos => campos.map (marcarRequerido nav)))⟩) := by
  unfold Formulario.validateCurrentStep
  simp only [h2, h3, h5, if_false, _getRequiredFieldsForCurrentStep, validateRequiredFields_eq]
  cases hp : doc.paso n with
  | none => simp
  | some campos =>
    simp only [Option.map_some', Option.getD_some, List.length_map]
    have hrep := reponer_map (fun f => (revisarRequerido nav f).2) campos
    simp only [hrep]
    refine Prod.ext ?_ ?_
    · simp only
      rw [Bool.eq_iff_iff]
      simp only [decide_eq_true_eq, List.length_eq_zero, List.filter_eq_nil_iff,
        List.mem_filter, List.all_eq_true, Bool.not_eq_true', Bool.and_eq_false_imp,
        Bool.not_eq_true, and_imp]
    · have hm : (fun c : Entrada => if c.required = true then (revisarRequerido nav c).2 else c)
          = marcarRequerido nav := by
        funext c
        rfl
      simp only [hm]

end FormularioCliente

namespace FormularioCliente

open RegExp

/-- The input left by the inner loop depends on the text of the input only. -/
theorem revisarControl_congr (f g : Option Control) (b : Bool)
    (h : f.map (fun c => c.value) = g.map (fun c => c.value)) :
    (revisarControl f b).1 = (revisarControl g b).1 := by
  unfold revisarControl
  cases f with
  | none =>
    cases g with
    | none => rfl
    | some d => simp at h
  | some c =>
    cases g with
    | none => simp at h
    | some d =>
      simp only [Option.map_some', Option.some.injEq] at h
      by_cases hc : trim c.value = []
      · have hd : trim d.value = [] := by rw [← h]; exact hc
        simp [hc, hd, h]
      · have hd : ¬ trim d.value = [] := by rw [← h]; exact hc
        simp [hc, hd, h]

/-- Marking a marked storage-unit row changes nothing. -/
theorem marcarTrastero_idem (t : ItemTrastero) :
    marcarTrastero (marcarTrastero t) = marcarTrastero t := by
  simp only [marcarTrastero, revisarControl_idem]

/-- A marked storage-unit row is complete exactly when the row was. -/
theorem trasteroCompleto_marcar (t : ItemTrastero) :
    trasteroCompleto (marcarTrastero t) = trasteroCompleto t := by
  simp only [trasteroCompleto, marcarTrastero, enBlanco_revisar]

/-- Flagging the confirmation changes nothing of its text. -/
theorem invalidar_value (o : Option Control) :
    (o.map (fun c => { c with isInvalid := true })).map (fun c => c.value)
      = o.map (fun c => c.value) := by
  cases o <;> rfl

/-- Whether an input is blank depends on its text only. -/
theorem enBlanco_congr (f g : Option Control)
    (h : f.map (fun c => c.value) = g.map (fun c => c.value)) : enBlanco f = enBlanco g := by
  cases f with
  | none =>
    cases g with
    | none => rfl
    | some d => simp at h
  | some c =>
    cases g with
    | none => simp at h
    | some d =>
      simp only [Option.map_some', Option.some.injEq] at h
      simp [enBlanco, h]

/-- The confirmation of a marked user row holds the text it held. -/
theorem marcarUsuario_confirm (u : ItemUsuario) :
    (marcarUsuario u).confirmPassword.map (fun c => c.value)
      = u.confirmPassword.map (fun c => c.value) := by
  simp only [marcarUsuario]
  split_ifs <;> simp only [invalidar_value, revisarControl_value]

/-- A mismatch of the passwords is found in a marked user row exactly when it was in
the row. -/
theorem passwordDistinto_marcar (u : ItemUsuario) :
    passwordDistinto (marcarUsuario u) = passwordDistinto u := by
  rw [← passwordDistinto_eq, ← passwordDistinto_eq u, marcarUsuario_confirm]
  have hp : (marcarUsuario u).password.map (fun c => c.value)
      = u.password.map (fun c => c.value) := by
    simp only [marcarUsuario, revisarControl_value]
  rw [hp]

/-- Marking a marked user row changes nothing. -/
theorem marcarUsuario_idem (u : ItemUsuario) :
    marcarUsuario (marcarUsuario u) = marcarUsuario u := by
  have hpd := passwordDistinto_marcar u
  have hcf : (revisarControl (marcarUsuario u).confirmPassword true).1
      = (revisarControl u.confirmPassword true).1 :=
    revisarControl_congr _ _ true (marcarUsuario_confirm u)
  have hn : (marcarUsuario u).nombre = (revisarControl u.nombre true).1 := rfl
  have he : (marcarUsuario u).email = (revisarControl u.email true).1 := rfl
  have hp : (marcarUsuario u).password = (revisarControl u.password true).1 := rfl
  have hv : marcarUsuario (marcarUsuario u)
      = ⟨(revisarControl (marcarUsuario u).nombre true).1,
          (revisarControl (marcarUsuario u).email true).1,
          (revisarControl (marcarUsuario u).password true).1,
          (if passwordDistinto (marcarUsuario u) then
            ((revisarControl (marcarUsuario u).confirmPassword true).1).map
              (fun c => { c with isInvalid := true })
          else (revisarControl (marcarUsuario u).confirmPassword true).1),
          (marcarUsuario u).rol, (marcarUsuario u).departamento,
          (marcarUsuario u).permisos_facturacion, (marcarUsuario u).permisos_reportes,
          (marcarUsuario u).permisos_configuracion⟩ := rfl
  rw [hv, hpd, hcf, hn, he, hp, revisarControl_idem, revisarControl_idem, revisarControl_idem]
  rfl

/-- A marked user row is complete exactly when the row was. -/
theorem usuarioCompleto_marcar (u : ItemUsuario) :
    usuarioCompleto (marcarUsuario u) = usuarioCompleto u := by
  have hc : enBlanco (marcarUsuario u).confirmPassword = enBlanco u.confirmPassword :=
    enBlanco_congr _ _ (marcarUsuario_confirm u)
  have hn : enBlanco (marcarUsuario u).nombre = enBlanco u.nombre :=
    enBlanco_revisar u.nombre true
  have he : enBlanco (marcarUsuario u).email = enBlanco u.email :=
    enBlanco_revisar u.email true
  have hp : enBlanco (marcarUsuario u).password = enBlanco u.password :=
    enBlanco_revisar u.password true
  simp only [usuarioCompleto, hc, hn, he, hp, passwordDistinto_marcar]

/-- Marking a marked access-level row changes nothing. -/
theorem marcarNivel_idem (n : ItemNivel) : marcarNivel (marcarNivel n) = marcarNivel n := by
  have h : ∀ c : Control, (revisarNivel (revisarNivel c true).1 true).1
      = (revisarNivel c true).1 := by
    intro c
    unfold revisarNivel
    by_cases hc : trim c.value = [] <;> simp [hc]
  simp only [marcarNivel, h]

/-- A marked access-level row is complete exactly when the row was. -/
theorem nivelCompleto_marcar (n : ItemNivel) :
    nivelCompleto (marcarNivel n) = nivelCompleto n := by
  have h : ∀ c : Control, (revisarNivel c true).1.value = c.value := by
    intro c
    unfold revisarNivel
    by_cases hc : trim c.value = [] <;> simp [hc]
  simp only [nivelCompleto, marcarNivel, h]

/-- C25. Step validation is idempotent.  For every step and every document, running
`validateCurrentStep` again on the document left by a first run, no input having
changed, returns the same value and leaves the same document: the classes
`is-valid` and `is-invalid` of every input are those left by the first run. -/
theorem validateCurrentStep_idempotent (nav : Navegador) (doc : Formulario)
    (currentStep : Int) :
    ((doc.validateCurrentStep nav currentStep).2.validateCurrentStep nav currentStep).1
      = (doc.validateCurrentStep nav currentStep).1 ∧
    ((doc.validateCurrentStep nav currentStep).2.validateCurrentStep nav currentStep).2
      = (doc.validateCurrentStep nav currentStep).2 := by
  have hall : ∀ {α : Type} (ok : α → Bool) (g : α → α) (l : List α),
      (∀ x, ok (g x) = ok x) → (l.map g).all ok = l.all ok := by
    intro α ok g l h
    induction l with
    | nil => rfl
    | cons x xs ih => simp [h, ih]
  have hne : ∀ {α : Type} [DecidableEq α] (g : α → α) (l : List α),
      decide (l.map g ≠ []) = decide (l ≠ []) := by
    intro α _ g l
    cases l <;> simp
  have hmm : ∀ {α : Type} (g : α → α) (l : List α),
      (∀ x, g (g x) = g x) → (l.map g).map g = l.map g := by
    intro α g l h
    rw [List.map_map]
    apply List.map_congr_left
    intro x _
    exact h x
  by_cases h2 : currentStep = 2
  · subst h2
    simp only [Formulario.validateCurrentStep, if_true, validateTrasterosStep_eq,
      hall trasteroCompleto marcarTrastero _ trasteroCompleto_marcar, hne,
      hmm marcarTrastero _ marcarTrastero_idem, and_self]
  · by_cases h3 : currentStep = 3
    · subst h3
      simp only [Formulario.validateCurrentStep, show (3 : Int) ≠ 2 by decide, if_true,
        if_false, validateUsuariosStep_eq,
        hall usuarioCompleto marcarUsuario _ usuarioCompleto_marcar, hne,
        hmm marcarUsuario _ marcarUsuario_idem, and_self]
    · by_cases h5 : currentStep = 5
      · subst h5
        simp only [Formulario.validateCurrentStep, show (5 : Int) ≠ 2 by decide,
          show (5 : Int) ≠ 3 by decide, if_true, if_false, validateNivelesStep_eq,
          hall nivelCompleto marcarNivel _ nivelCompleto_marcar, hne,
          hmm marcarNivel _ marcarNivel_idem, and_self]
      · rw [validateCurrentStep_plano nav doc currentStep h2 h3 h5,
          validateCurrentStep_plano nav _ currentStep h2 h3 h5]
        simp only [Function.update_same, Function.update_idem]
        cases hp : doc.paso currentStep with
        | none => simp
        | some campos =>
          simp only [Option.map_some', Option.getD_some,
            hmm (marcarRequerido nav) campos (marcarRequerido_idem nav), and_true]
          exact hall (fun c => !(c.required && (revisarRequerido nav c).1))
            (marcarRequerido nav) campos
            (fun c => by simp only [marcarRequerido_falla])

end FormularioCliente

namespace FormularioCliente

open RegExp

/-- C24, refuted.  A required field of type `url` without `pattern`, holding a text
on which `new URL` throws, fails the single-field check `validateField`; but
`_validateRequiredFields` tests the e-mail, pattern and telephone cases only, so it
reports no label for the step that holds this field, marks the field `is-valid`,
and `validateCurrentStep` returns true. -/
theorem validateRequiredFields_skips_url (nav : Navegador) (doc : Formulario) (n : Int)
    (f : Entrada) (h2 : n ≠ 2) (h3 : n ≠ 3) (h5 : n ≠ 5) (hp : doc.paso n = some [f])
    (hr : f.required = true) (ht : f.type = ['u', 'r', 'l']) (hpat : f.pattern = [])
    (hv : trim f.value ≠ []) (hu : nav.validateURL (trim f.value) = false) :
    (validateField nav (some f)).1 = false ∧
    (_validateRequiredFields nav (_getRequiredFieldsForCurrentStep doc n)).1 = [] ∧
    (doc.validateCurrentStep nav n).1 = true ∧
    (doc.validateCurrentStep nav n).2.paso n
      = some [{ f with isInvalid := false, isValid := true }] := by
  have hval : f.value ≠ [] := by
    intro h
    rw [h] at hv
    exact hv rfl
  have hrev : revisarRequerido nav f = (false, { f with isInvalid := false, isValid := true }) := by
    simp [revisarRequerido, ht, hpat, hv, hval]
  refine ⟨?_, ?_, ?_, ?_⟩
  · simp [validateField, validarPresente, esValido, ht, hpat, hv, hu, hr]
  · simp [_getRequiredFieldsForCurrentStep, hp, hr, validateRequiredFields_eq, hrev]
  · rw [validateCurrentStep_plano nav doc n h2 h3 h5]
    simp [hp, hrev]
  · rw [validateCurrentStep_plano nav doc n h2 h3 h5]
    simp [hp, marcarRequerido, hr, hrev]

/-- Witness for C24: the field holding `ejemplo` in step 1. -/
theorem validateRequiredFields_skips_url_witness :
    (validateField navegadorEjemplo (some campoUrl)).1 = false ∧
    (formularioUrl.validateCurrentStep navegadorEjemplo 1).1 = true :=
  ⟨(validateRequiredFields_skips_url navegadorEjemplo formularioUrl 1 campoUrl (by decide)
      (by decide) (by decide) rfl rfl rfl rfl (by decide) (by decide)).1,
   (validateRequiredFields_skips_url navegadorEjemplo formularioUrl 1 campoUrl (by decide)
      (by decide) (by decide) rfl rfl rfl rfl (by decide) (by decide)).2.2.1⟩

end FormularioCliente

/-! ## Loading a flat step and reading it back -/

namespace FormularioCliente

open RegExp

/-- `validateField` writes classes only. -/
theorem validarPresente_snd (nav : Navegador) (f : Entrada) :
    (validarPresente nav f).2
      = { f with isInvalid := !esValido nav f, isValid := esValido nav f } := by
  unfold validarPresente
  cases h : esValido nav f <;> simp

/-- Loading a value into a field keeps its name and its type. -/
theorem cargarCampo_forma (nav : Navegador) (v : Valor) (f : Entrada) :
    (cargarCampo nav v f).name = f.name ∧ (cargarCampo nav v f).type = f.type := by
  unfold cargarCampo
  simp only [validarPresente_snd]
  split_ifs <;> exact ⟨rfl, rfl⟩

/-- Loading a value into a checkbox sets its state to the truthiness of the value
and keeps its text. -/
theorem cargarCampo_checkbox (nav : Navegador) (v : Valor) (f : Entrada)
    (h : f.type = ['c', 'h', 'e', 'c', 'k', 'b', 'o', 'x']) :
    (cargarCampo nav v f).checked = v.truthy ∧ (cargarCampo nav v f).value = f.value := by
  simp [cargarCampo, validarPresente_snd, h]

/-- Loading a value into a field that is neither a checkbox nor a radio button
assigns its text and keeps its state. -/
theorem cargarCampo_texto (nav : Navegador) (v : Valor) (f : Entrada)
    (h1 : f.type ≠ ['c', 'h', 'e', 'c', 'k', 'b', 'o', 'x'])
    (h2 : f.type ≠ ['r', 'a', 'd', 'i', 'o']) :
    (cargarCampo nav v f).value = nav.setValue f v.aValue ∧
    (cargarCampo nav v f).checked = f.checked := by
  simp [cargarCampo, validarPresente_snd, h1, h2]

/-- The loop of `loadStepData` seen from the first input: the entries that name it
are loaded into it one after the other, and the other entries go on to the inputs
that follow. -/
theorem cargar_cons (nav : Navegador) (es : List (List Char × Valor)) (f : Entrada)
    (fs : List Entrada) :
    es.foldl (fun campos e => asignarPrimero (cargarCampo nav e.2) e.1 campos) (f :: fs)
      = (es.filter (fun e => decide (f.name = some e.1))).foldl
          (fun f e => cargarCampo nav e.2 f) f
        :: (es.filter (fun e => !decide (f.name = some e.1))).foldl
            (fun campos e => asignarPrimero (cargarCampo nav e.2) e.1 campos) fs := by
  induction es generalizing f fs with
  | nil => rfl
  | cons e es ih =>
    rw [List.foldl_cons]
    by_cases h : f.name = some e.1
    · have hn : (cargarCampo nav e.2 f).name = f.name := (cargarCampo_forma nav e.2 f).1
      simp only [asignarPrimero, h, if_true, List.filter_cons, decide_True, Bool.not_true,
        Bool.false_eq_true, if_false, List.foldl_cons]
      rw [ih]
      simp only [hn, h]
    · simp only [asignarPrimero, h, if_false, List.filter_cons, decide_False, Bool.not_false,
        if_true, List.foldl_cons, Bool.false_eq_true]
      rw [ih]

/-- The loop of `loadStepData` keeps the names and the types of the inputs. -/
theorem cargar_forma (nav : Navegador) (es : List (List Char × Valor)) (campos : List Entrada) :
    (es.foldl (fun campos e => asignarPrimero (cargarCampo nav e.2) e.1 campos) campos).map
        (fun f => (f.name, f.type))
      = campos.map (fun f => (f.name, f.type)) := by
  induction campos generalizing es with
  | nil =>
    have : ∀ es : List (List Char × Valor),
        es.foldl (fun campos e => asignarPrimero (cargarCampo nav e.2) e.1 campos) [] = [] := by
      intro es
      induction es with
      | nil => rfl
      | cons e es ih => exact ih
    rw [this]
  | cons f fs ih =>
    rw [cargar_cons, List.map_cons, List.map_cons, ih]
    congr 1
    generalize es.filter (fun e => decide (f.name = some e.1)) = l
    induction l generalizing f with
    | nil => rfl
    | cons e l ihl =>
      rw [List.foldl_cons, ihl, (cargarCampo_forma nav e.2 f).1, (cargarCampo_forma nav e.2 f).2]

/-- An input whose name is no key of the payload is left as it was. -/
theorem cargar_ajeno (nav : Navegador) (es : List (List Char × Valor)) (campos : List Entrada)
    (i : Nat) (f : Entrada) (hf : campos[i]? = some f)
    (hk : ∀ e ∈ es, f.name ≠ some e.1) :
    (es.foldl (fun campos e => asignarPrimero (cargarCampo nav e.2) e.1 campos) campos)[i]?
      = some f := by
  induction campos generalizing es i with
  | nil => simp at hf
  | cons c cs ih =>
    rw [cargar_cons]
    cases i with
    | zero =>
      simp only [List.getElem?_cons_zero, Option.some.injEq] at hf
      subst hf
      have : es.filter (fun e => decide (c.name = some e.1)) = [] := by
        rw [List.filter_eq_nil_iff]
        intro e he
        simpa using hk e he
      simp [this]
    | succ i =>
      simp only [List.getElem?_cons_succ] at hf ⊢
      exact ih _ i hf (fun e he => hk e (List.mem_filter.mp he).1)

/-- With distinct keys, the entries of a payload that carry a given key are the one
entry found under it. -/
theorem filter_clave (es : List (List Char × Valor)) (k : List Char) (v : Valor)
    (hn : (es.map (fun e => e.1)).Nodup) (hm : (k, v) ∈ es) :
    es.filter (fun e => decide (some k = some e.1)) = [(k, v)] := by
  induction es with
  | nil => simp at hm
  | cons e es ih =>
    simp only [List.map_cons, List.nodup_cons] at hn
    rcases List.mem_cons.mp hm with h | h
    · subst h
      have : es.filter (fun e => decide (some k = some e.1)) = [] := by
        rw [List.filter_eq_nil_iff]
        intro e he
        simp only [Option.some.injEq, decide_eq_true_eq]
        intro hke
        exact hn.1 (List.mem_map.mpr ⟨e, he, hke.symm⟩)
      rw [List.filter_cons, if_pos (by simp), this]
    · have hne : ¬ k = e.1 := by
        intro hke
        apply hn.1
        rw [← hke]
        exact List.mem_map.mpr ⟨(k, v), h, rfl⟩
      rw [List.filter_cons, if_neg (by simpa using hne)]
      exact ih hn.2 h

/-- The first input named by a key of the payload receives the value found under
that key. -/
theorem cargar_primero (nav : Navegador) (es : List (List Char × Valor))
    (campos : List Entrada) (i : Nat) (f : Entrada) (k : List Char) (v : Valor)
    (hn : (es.map (fun e => e.1)).Nodup) (hm : (k, v) ∈ es)
    (hf : campos[i]? = some f) (hname : f.name = some k)
    (hfirst : ∀ j g, j < i → campos[j]? = some g → g.name ≠ some k) :
    (es.foldl (fun campos e => asignarPrimero (cargarCampo nav e.2) e.1 campos) campos)[i]?
      = some (cargarCampo nav v f) := by
  induction campos generalizing es i with
  | nil => simp at hf
  | cons c cs ih =>
    rw [cargar_cons]
    cases i with
    | zero =>
      simp only [List.getElem?_cons_zero, Option.some.injEq] at hf
      subst hf
      rw [hname, filter_clave es k v hn hm]
      simp
    | succ i =>
      simp only [List.getElem?_cons_succ] at hf ⊢
      have hc : c.name ≠ some k := hfirst 0 c (Nat.succ_pos i) (by simp)
      refine ih _ i ?_ ?_ hf ?_
      · exact ((List.filter_sublist es).map (fun e => e.1)).nodup hn
      · rw [List.mem_filter]
        refine ⟨hm, ?_⟩
        simpa using hc
      · intro j g hj hg
        exact hfirst (j + 1) g (Nat.succ_lt_succ hj) (by simpa using hg)

end FormularioCliente

namespace FormularioCliente

open RegExp

/-- One turn of the loop of `getCurrentStepData`. -/
theorem extraer_paso (data : List (List Char × Valor)) (input : Entrada) :
    (match input.name with
      | none => data
      | some name =>
        if name = [] then data
        else if input.type = ['c', 'h', 'e', 'c', 'k', 'b', 'o', 'x'] then
          asignarClave data name (.booleano input.checked)
        else if input.type = ['r', 'a', 'd', 'i', 'o'] then
          if input.checked then asignarClave data name (.cadena input.value) else data
        else asignarClave data name (.cadena input.value))
      = (match entradaDe input with
        | some e => asignarClave data e.1 e.2
        | none => data) := by
  unfold entradaDe
  cases input.name with
  | none => rfl
  | some name =>
    simp only
    split_ifs <;> rfl

/-- Assigning under a key that the object does not have yet appends the entry. -/
theorem asignarClave_nueva (data : List (List Char × Valor)) (k : List Char) (v : Valor)
    (h : k ∉ data.map (fun e => e.1)) : asignarClave data k v = data ++ [(k, v)] := by
  unfold asignarClave
  have : data.any (fun e => e.1 == k) = false := by
    rw [List.any_eq_false]
    intro e he
    simp only [beq_iff_eq]
    intro hk
    exact h (List.mem_map.mpr ⟨e, he, hk⟩)
  simp [this]

/-- When the names assigned are distinct, `getCurrentStepData` returns one entry for
each input that gives one, in the order of the inputs. -/
theorem extraerPlano_filterMap (inputs : List Entrada)
    (h : ((inputs.filterMap entradaDe).map (fun e => e.1)).Nodup) :
    extraerPlano inputs = inputs.filterMap entradaDe := by
  unfold extraerPlano
  suffices hs : ∀ data : List (List Char × Valor),
      ((data ++ inputs.filterMap entradaDe).map (fun e => e.1)).Nodup →
      inputs.foldl
        (fun data input =>
          match input.name with
          | none => data
          | some name =>
            if name = [] then data
            else if input.type = ['c', 'h', 'e', 'c', 'k', 'b', 'o', 'x'] then
              asignarClave data name (.booleano input.checked)
            else if input.type = ['r', 'a', 'd', 'i', 'o'] then
              if input.checked then asignarClave data name (.cadena input.value) else data
            else asignarClave data name (.cadena input.value)) data
        = data ++ inputs.filterMap entradaDe by
    simpa using hs [] (by simpa using h)
  induction inputs with
  | nil => simp
  | cons x xs ih =>
    intro data hd
    rw [List.foldl_cons, extraer_paso]
    cases hx : entradaDe x with
    | none =>
      simp only [List.filterMap_cons, hx] at hd ⊢
      exact ih (by simpa using h.sublist (by simp [List.filterMap_cons, hx])) data hd
    | some e =>
      simp only [List.filterMap_cons, hx] at hd ⊢
      have hnew : e.1 ∉ data.map (fun e => e.1) := by
        intro hmem
        rw [List.map_append, List.map_cons] at hd
        have := (List.nodup_append.mp hd).2.2
        exact this hmem (List.mem_cons_self _ _)
      rw [asignarClave_nueva data e.1 e.2 hnew]
      have hd2 : (((data ++ [(e.1, e.2)]) ++ xs.filterMap entradaDe).map
          (fun e => e.1)).Nodup := by
        simpa using hd
      have hx2 : ((xs.filterMap entradaDe).map (fun e => e.1)).Nodup := by
        have := h
        simp only [List.filterMap_cons, hx, List.map_cons, List.nodup_cons] at this
        exact this.2
      rw [ih hx2 _ hd2]
      simp

/-- An input that gives an entry carries the key of the entry as its name, and the
key is not empty. -/
theorem entradaDe_name (f : Entrada) (e : List Char × Valor) (h : entradaDe f = some e) :
    f.name = some e.1 ∧ e.1 ≠ [] := by
  unfold entradaDe at h
  cases hn : f.name with
  | none => simp [hn] at h
  | some name =>
    simp only [hn] at h
    by_cases h0 : name = []
    · simp [h0] at h
    · simp only [h0, if_false] at h
      split_ifs at h <;> simp only [Option.some.injEq] at h <;> subst h <;> exact ⟨rfl, h0⟩

/-- Loading into a form the payload read from a form of the same shape, then
reading the form back, gives the payload: the inputs correspond one to one in name
and type, each keeps the text of its counterpart when it is assigned, the names
assigned are distinct and there is no radio button. -/
theorem cargar_extraer (nav : Navegador) (campos campos0 : List Entrada)
    (hR : List.Forall₂
      (fun f f0 => f.name = f0.name ∧ f.type = f0.type ∧ nav.setValue f f0.value = f0.value)
      campos campos0)
    (hn : ((campos0.filterMap entradaDe).map (fun e => e.1)).Nodup)
    (hradio : ∀ f ∈ campos, f.type ≠ ['r', 'a', 'd', 'i', 'o']) :
    ((campos0.filterMap entradaDe).foldl
        (fun campos e => asignarPrimero (cargarCampo nav e.2) e.1 campos) campos).filterMap
        entradaDe
      = campos0.filterMap entradaDe := by
  induction hR with
  | nil => rfl
  | @cons f f0 fs fs0 hff _ ih =>
    obtain ⟨hname, htype, hset⟩ := hff
    have hr : f.type ≠ ['r', 'a', 'd', 'i', 'o'] := hradio f (List.mem_cons_self _ _)
    have hrs : ∀ g ∈ fs, g.type ≠ ['r', 'a', 'd', 'i', 'o'] :=
      fun g hg => hradio g (List.mem_cons_of_mem _ hg)
    rw [cargar_cons]
    cases hx : entradaDe f0 with
    | none =>
      simp only [List.filterMap_cons, hx] at hn ⊢
      have hnone : ∀ e ∈ fs0.filterMap entradaDe, ¬ f.name = some e.1 := by
        intro e he hfe
        obtain ⟨g, _, hg⟩ := List.mem_filterMap.mp he
        have hke := (entradaDe_name g e hg).2
        rw [hname] at hfe
        unfold entradaDe at hx
        rw [hfe] at hx
        rw [← htype] at hx
        simp [hke, hr] at hx
        split_ifs at hx
      have h1 : (fs0.filterMap entradaDe).filter (fun e => decide (f.name = some e.1)) = [] := by
        rw [List.filter_eq_nil_iff]
        intro e he
        simpa using hnone e he
      have h2 : (fs0.filterMap entradaDe).filter (fun e => !decide (f.name = some e.1))
          = fs0.filterMap entradaDe := by
        rw [List.filter_eq_self]
        intro e he
        simpa using hnone e he
      have hf : entradaDe f = none := by
        unfold entradaDe at hx ⊢
        rw [hname, htype]
        cases hn0 : f0.name with
        | none => rfl
        | some name =>
          simp only [hn0] at hx ⊢
          by_cases h0 : name = []
          · simp [h0]
          · simp only [h0, if_false] at hx
            rw [← htype] at hx
            simp only [hr, if_false] at hx
            split_ifs at hx
      rw [h1, h2, List.foldl_nil, hf]
      exact ih hn hrs
    | some e =>
      simp only [List.filterMap_cons, hx, List.map_cons, List.nodup_cons] at hn ⊢
      obtain ⟨hk, hn2⟩ := hn
      have hfn : f.name = some e.1 := by rw [hname]; exact (entradaDe_name f0 e hx).1
      have hrest : ∀ e2 ∈ fs0.filterMap entradaDe, ¬ f.name = some e2.1 := by
        intro e2 he2 hfe
        rw [hfn] at hfe
        simp only [Option.some.injEq] at hfe
        exact hk (List.mem_map.mpr ⟨e2, he2, hfe.symm⟩)
      have h1 : (fs0.filterMap entradaDe).filter (fun e => decide (f.name = some e.1)) = [] := by
        rw [List.filter_eq_nil_iff]
        intro e2 he2
        simpa using hrest e2 he2
      have h2 : (fs0.filterMap entradaDe).filter (fun e => !decide (f.name = some e.1))
          = fs0.filterMap entradaDe := by
        rw [List.filter_eq_self]
        intro e2 he2
        simpa using hrest e2 he2
      rw [List.filter_cons, if_pos (by simpa using hfn), List.filter_cons,
        if_neg (by simpa using hfn), h1, h2, List.foldl_cons, List.foldl_nil]
      have hcarga : entradaDe (cargarCampo nav e.2 f) = some e := by
        have hforma := cargarCampo_forma nav e.2 f
        have hk0 := (entradaDe_name f0 e hx).2
        unfold entradaDe
        rw [hforma.1, hforma.2, hfn]
        simp only [hk0, if_false, hr]
        unfold entradaDe at hx
        rw [← hname, hfn, ← htype] at hx
        simp only [hk0, if_false, hr] at hx
        by_cases hc : f.type = ['c', 'h', 'e', 'c', 'k', 'b', 'o', 'x']
        · simp only [hc, if_true, Option.some.injEq] at hx ⊢
          rw [(cargarCampo_checkbox nav e.2 f hc).1, ← hx]
          rfl
        · simp only [hc, if_false, Option.some.injEq] at hx ⊢
          rw [(cargarCampo_texto nav e.2 f hc hr).1, ← hx]
          simp only [Valor.aValue, Valor.aString, hset]
      rw [hcarga, ih hn2 hrs]

end FormularioCliente

namespace FormularioCliente

open RegExp

/-- The keys that `getCurrentStepData` assigns are names of inputs, in the order of
the inputs. -/
theorem claves_sublist (campos : List Entrada) :
    ((campos.filterMap entradaDe).map (fun e => e.1)).map some
      |>.Sublist (campos.map (fun f => f.name)) := by
  induction campos with
  | nil => simp
  | cons f fs ih =>
    cases hx : entradaDe f with
    | none =>
      simp only [List.filterMap_cons, hx, List.map_cons]
      exact ih.cons _
    | some e =>
      simp only [List.filterMap_cons, hx, List.map_cons]
      rw [(entradaDe_name f e hx).1]
      exact ih.cons₂ _

/-- Inputs with distinct names are assigned distinct keys. -/
theorem claves_nodup (campos : List Entrada)
    (h : (campos.filterMap (fun f => f.name)).Nodup) :
    ((campos.filterMap entradaDe).map (fun e => e.1)).Nodup := by
  have h1 : (((campos.filterMap entradaDe).map (fun e => e.1)).map some).Sublist
      ((campos.filterMap (fun f => f.name)).map some) := by
    have hs := claves_sublist campos
    have hfm : (campos.filterMap (fun f => f.name)).map some
        = (campos.map (fun f => f.name)).filter (fun o => o.isSome) := by
      induction campos with
      | nil => rfl
      | cons f fs ih =>
        have ih2 := ih (by
          cases hn : f.name with
          | none => simpa [List.filterMap_cons, hn] using h
          | some k =>
            have := h
            simp only [List.filterMap_cons, hn, List.nodup_cons] at this
            exact this.2) (claves_sublist fs)
        cases hn : f.name <;> simp [List.filterMap_cons, List.filter_cons, hn, ih2]
    rw [hfm]
    have := hs.filter (fun o => o.isSome)
    rwa [List.filter_eq_self.mpr (by
      intro o ho
      obtain ⟨k, _, rfl⟩ := List.mem_map.mp ho
      rfl)] at this
  have h2 : ((campos.filterMap (fun f => f.name)).map some).Nodup :=
    h.map (Option.some_injective _)
  exact (h1.nodup h2).of_map _

/-- Forms of the same shape have the same names. -/
theorem nombres_forma (nav : Navegador) (campos campos0 : List Entrada)
    (hR : List.Forall₂
      (fun f f0 => f.name = f0.name ∧ f.type = f0.type ∧ nav.setValue f f0.value = f0.value)
      campos campos0) :
    campos0.filterMap (fun f => f.name) = campos.filterMap (fun f => f.name) := by
  induction hR with
  | nil => rfl
  | @cons f f0 fs fs0 hff _ ih =>
    simp only [List.filterMap_cons, hff.1, ih]

/-- C22 as stated fails.  A field whose name is absent from the payload is not
reset: after the payload with the single key `b` is loaded into step 1, the input
`a` still holds `x`, and `getCurrentStepData` returns three entries.  In a radio
group only the first button is looked at: loading the value of the second button
checks nothing, and `getCurrentStepData` returns no entry. -/
theorem loadStepData_keeps_absent :
    ((loadStepData navegadorEjemplo formularioPlano 1
        (some (datosEmpresa [(['b'], .cadena ['1'])]))).paso 1).map
        (fun campos => campos.map (fun f => (f.name, f.value, f.checked)))
      = some [(some ['a'], ['x'], false), (some ['b'], ['1'], false),
          (some ['c'], ['o', 'n'], false)] ∧
    (loadStepData navegadorEjemplo formularioPlano 1
        (some (datosEmpresa [(['b'], .cadena ['1'])]))).getCurrentStepData 1
      = .plano [(['a'], .cadena ['x']), (['b'], .cadena ['1']), (['c'], .booleano false)] ∧
    (loadStepData navegadorEjemplo formularioRadio 1
        (some (datosEmpresa [(['r'], .cadena ['2'])]))).getCurrentStepData 1
      = .plano [] := by
  decide

/-- C22, amended.  On a flat step (1 or 4) `loadStepData` keeps the names and types
of the inputs; it leaves every input whose name is no key of the payload exactly as
it was; and, the keys of the payload being distinct, the first input named by a key
receives the value found under it: a checkbox is checked iff the value is truthy,
and an input that is neither a checkbox nor a radio button is assigned the value as
text.  When the inputs of the step have distinct names and none is a radio button,
loading the payload read from a form of the same shape and reading the step back
returns that payload. -/
theorem loadStepData_flat (nav : Navegador) (doc : Formulario) (step : Int)
    (datos : DatosCargados) (p : Carga) (campos : List Entrada)
    (hstep : step = 1 ∨ step = 4) (hp : stepDataDe step datos = some p)
    (hc : doc.paso step = some campos) :
    ∃ cargados, (loadStepData nav doc step (some datos)).paso step = some cargados ∧
      cargados.map (fun f => (f.name, f.type)) = campos.map (fun f => (f.name, f.type)) ∧
      (∀ (i : Nat) (f : Entrada), campos[i]? = some f →
        (∀ e ∈ p.entradas, f.name ≠ some e.1) → cargados[i]? = some f) ∧
      ((p.entradas.map (fun e => e.1)).Nodup →
        ∀ (i : Nat) (f : Entrada) (k : List Char) (v : Valor), campos[i]? = some f →
          f.name = some k →
          (∀ (j : Nat) (g : Entrada), j < i → campos[j]? = some g → g.name ≠ some k) →
          (k, v) ∈ p.entradas →
          ∃ g, cargados[i]? = some g ∧
            (f.type = ['c', 'h', 'e', 'c', 'k', 'b', 'o', 'x'] →
              g.checked = v.truthy ∧ g.value = f.value) ∧
            (f.type ≠ ['c', 'h', 'e', 'c', 'k', 'b', 'o', 'x'] →
              f.type ≠ ['r', 'a', 'd', 'i', 'o'] →
              g.value = nav.setValue f v.aValue ∧ g.checked = f.checked)) ∧
      (∀ campos0 : List Entrada, p.entradas = extraerPlano campos0 →
        List.Forall₂
          (fun f f0 => f.name = f0.name ∧ f.type = f0.type ∧
            nav.setValue f f0.value = f0.value) campos campos0 →
        (campos.filterMap (fun f => f.name)).Nodup →
        (∀ f ∈ campos, f.type ≠ ['r', 'a', 'd', 'i', 'o']) →
        (loadStepData nav doc step (some datos)).getCurrentStepData step
          = .plano p.entradas) := by
  have h5 : ¬ (step = 5 ∧ p.esArray = true) := by
    rintro ⟨h, _⟩
    rcases hstep with h1 | h4 <;> omega
  have hload : (loadStepData nav doc step (some datos)).paso step
      = some (cargarCampos nav p campos) := by
    simp [loadStepData, hp, h5, hc]
  refine ⟨cargarCampos nav p campos, hload, cargar_forma nav p.entradas campos, ?_, ?_, ?_⟩
  · intro i f hf hk
    exact cargar_ajeno nav p.entradas campos i f hf hk
  · intro hn i f k v hf hname hfirst hm
    refine ⟨cargarCampo nav v f,
      cargar_primero nav p.entradas campos i f k v hn hm hf hname hfirst, ?_, ?_⟩
    · intro ht
      exact cargarCampo_checkbox nav v f ht
    · intro h1 h2
      exact cargarCampo_texto nav v f h1 h2
  · intro campos0 hp0 hR hnames hradio
    have hn0 : ((campos0.filterMap entradaDe).map (fun e => e.1)).Nodup := by
      apply claves_nodup
      rw [nombres_forma nav campos campos0 hR]
      exact hnames
    have hp1 : p.entradas = campos0.filterMap entradaDe := by
      rw [hp0, extraerPlano_filterMap campos0 hn0]
    have hback : (cargarCampos nav p campos).filterMap entradaDe = p.entradas := by
      unfold cargarCampos
      rw [hp1]
      exact cargar_extraer nav campos campos0 hR hn0 hradio
    have h2 : step ≠ 2 := by rcases hstep with h | h <;> omega
    have h3 : step ≠ 3 := by rcases hstep with h | h <;> omega
    have h5b : step ≠ 5 := by rcases hstep with h | h <;> omega
    simp only [Formulario.getCurrentStepData, h2, h3, h5b, if_false, hload]
    rw [extraerPlano_filterMap _ (by rw [hback, hp1]; exact hn0), hback]

/-- Witness for C22, amended: the payload read from the step filled in another way
is loaded into the step and read back. -/
theorem loadStepData_flat_witness :
    (loadStepData navegadorEjemplo formularioPlano 1
        (some (datosEmpresa [(['a'], .cadena ['u']), (['b'], .cadena ['v']),
          (['c'], .booleano true)]))).getCurrentStepData 1
      = .plano [(['a'], .cadena ['u']), (['b'], .cadena ['v']), (['c'], .booleano true)] := by
  obtain ⟨_, _, _, _, _, h⟩ := loadStepData_flat navegadorEjemplo formularioPlano 1
    (datosEmpresa [(['a'], .cadena ['u']), (['b'], .cadena ['v']), (['c'], .booleano true)])
    ⟨false, [(['a'], .cadena ['u']), (['b'], .cadena ['v']), (['c'], .booleano true)]⟩
    [campoTexto ['a'] ['x'], campoTexto ['b'] [], campoCasilla ['c'] false]
    (Or.inl rfl) rfl rfl
  exact h [campoTexto ['a'] ['u'], campoTexto ['b'] ['v'], campoCasilla ['c'] true]
    (by decide)
    (List.Forall₂.cons ⟨rfl, rfl, rfl⟩ (List.Forall₂.cons ⟨rfl, rfl, rfl⟩
      (List.Forall₂.cons ⟨rfl, rfl, rfl⟩ List.Forall₂.nil)))
    (by decide) (by decide)

end FormularioCliente
